import Mathlib

/-!
# skift kernel memory manager: `kernel/memory/Memory.c`

A shallow embedding of the allocation facade of the skift kernel
(`memory_alloc`, `memory_free`, `memory_alloc_identity_page`,
`memory_pdir_create`, `memory_pdir_destroy`, ...) together with the physical
frame allocator and the virtual mapper it is built on.

* Machine words are natural numbers; 32-bit wrap-around is written `% 2 ^ 32`.
* Kernel memory holding paging structures is a map from the page number of the
  address the C code dereferences to the 1024 entries stored in that page.
* A `PageDirectory *` is the address of the page holding the directory.
-/

namespace Skift

/-! ## Constants -/

/-- Size of a page and of a frame (`PAGE_SIZE`). -/
def PAGE_SIZE : Nat := 4096

/-- Number of bits of the frame bitmap: `MEMORY[1024 * 1024 / 8]` bytes. -/
def FRAME_COUNT : Nat := 1024 * 1024

/-- The request flag asking for a user-accessible mapping. -/
def MEMORY_USER : Nat := 1

/-- The request flag asking for zero-filled memory. -/
def MEMORY_CLEAR : Nat := 2

/-- Words are 32 bits wide (`uint`, `size_t`, `uintptr_t` of the i686 kernel). -/
def WORD : Nat := 2 ^ 32

/-! ## Data model -/

/-- A page-directory entry or a page-table entry: the fields `Memory.c` reads and
writes (`Present`, `Write`, `User`, `PageFrameNumber`). -/
structure Entry where
  Present : Bool
  Write : Bool
  User : Bool
  PageFrameNumber : Nat
deriving DecidableEq

/-- The all-zero entry, as left by `memset(..., 0, ...)`. -/
def Entry.zero : Entry := ⟨false, false, false, 0⟩

/-- The global state of the memory subsystem.
`MEMORY f` is bit `f` of the frame bitmap, `USED_MEMORY` and `TOTAL_MEMORY` are
the two counters of `Physical.h`, `pages n i` is entry `i` of the page directory
or page table stored at address `n * PAGE_SIZE`, and `depth` is the nesting depth
of the critical section opened by `atomic_begin` and closed by `atomic_end`;
`initialized` is the flag `_memory_initialized`. -/
structure Kernel where
  MEMORY : Nat → Bool
  USED_MEMORY : Nat
  TOTAL_MEMORY : Nat
  pages : Nat → Nat → Entry
  depth : Int
  initialized : Bool

/-- Enter the global critical section. -/
def atomic_begin (s : Kernel) : Kernel := { s with depth := s.depth + 1 }

/-- Leave the global critical section. -/
def atomic_end (s : Kernel) : Kernel := { s with depth := s.depth - 1 }

/-- Modelled from the spec: the macro `PAGE_ALIGN_UP` is not part of the sources at
hand; the spec says the page count is computed "from `size` rounded up".
Round a size up to a multiple of the page size, in 32-bit arithmetic. -/
def PAGE_ALIGN_UP (size : Nat) : Nat :=
  ((size + (PAGE_SIZE - 1)) / PAGE_SIZE * PAGE_SIZE) % WORD

/-! ## Physical allocator (declared in `kernel/memory/Physical.h`) -/

/-- The bitmap with `count` bits starting at frame `base` set to `v`. -/
def setBits (bm : Nat → Bool) (base count : Nat) (v : Bool) : Nat → Bool :=
  fun f => if base ≤ f ∧ f < base + count then v else bm f

/-- Whether the `count` frames starting at frame `base` are all clear. -/
def runFree (bm : Nat → Bool) (base count : Nat) : Bool :=
  (List.range count).all (fun k => !bm (base + k))

/-- First-fit scan: the first base among `i, i+1, ..., i+n-1` that starts a run
of `count` clear bits. -/
def findRun (bm : Nat → Bool) (count : Nat) : Nat → Nat → Option Nat
  | 0, _ => none
  | n + 1, i => if runFree bm i count then some i else findRun bm count n (i + 1)

/-- Modelled from the spec: `physical_set_used` is declared in `Physical.h`, its body
is not at hand; "direct bitmap manipulation bypassing the counters".
Mark `count` frames starting at address `addr` used, bypassing the counters. -/
def physical_set_used (s : Kernel) (addr count : Nat) : Kernel :=
  { s with MEMORY := setBits s.MEMORY (addr / PAGE_SIZE) count true }

/-- Modelled from the spec: `physical_set_free` is declared in `Physical.h`, its body
is not at hand; "direct bitmap manipulation bypassing the counters".
Mark `count` frames starting at address `addr` free, bypassing the counters. -/
def physical_set_free (s : Kernel) (addr count : Nat) : Kernel :=
  { s with MEMORY := setBits s.MEMORY (addr / PAGE_SIZE) count false }

/-- Modelled from the spec: `physical_is_used` is declared in `Physical.h`, its body
is not at hand; "true iff every bit in the range is set".
Whether every one of the `count` frames starting at address `addr` is used. -/
def physical_is_used (s : Kernel) (addr count : Nat) : Bool :=
  (List.range count).all (fun k => s.MEMORY (addr / PAGE_SIZE + k))

/-- The state after `physical_alloc` took the `count` frames starting at frame `i`. -/
def frames_taken (s : Kernel) (i count : Nat) : Kernel :=
  { s with MEMORY := setBits s.MEMORY i count true,
           USED_MEMORY := (s.USED_MEMORY + count * PAGE_SIZE) % WORD }

/-- Modelled from the spec: `physical_alloc` is declared in `Physical.h`, its body is
not at hand; "scans the bitmap for the first run of `count` consecutive clear
bits (first-fit, base-address order), marks them set, increments `used_bytes` by
`count × pageSize`, returns the base address of the run".
Allocate `count` consecutive frames, first fit; the result is the address of
the first frame, or `0` when no run exists. -/
def physical_alloc (s : Kernel) (count : Nat) : Nat × Kernel :=
  match findRun s.MEMORY count (FRAME_COUNT + 1 - count) 0 with
  | none => (0, s)
  | some i => (i * PAGE_SIZE, frames_taken s i count)

/-- Modelled from the spec: `physical_free` is declared in `Physical.h`, its body is
not at hand; "clears the corresponding `count` bits, decrements `used_bytes`".
Give `count` frames starting at address `addr` back. -/
def physical_free (s : Kernel) (addr count : Nat) : Kernel :=
  { s with MEMORY := setBits s.MEMORY (addr / PAGE_SIZE) count false,
           USED_MEMORY := (s.USED_MEMORY + WORD - (count * PAGE_SIZE) % WORD) % WORD }

/-! ## Virtual mapper (`kernel/memory/Virtual.h`) -/

/-- Index of the directory entry translating `vaddr` (bits 22..31). -/
def PD_INDEX (vaddr : Nat) : Nat := vaddr / (1024 * PAGE_SIZE)

/-- Index of the table entry translating `vaddr` (bits 12..21). -/
def PT_INDEX (vaddr : Nat) : Nat := vaddr / PAGE_SIZE % 1024

/-- Entry `i` of the page directory at address `pdir`. -/
def pde (s : Kernel) (pdir i : Nat) : Entry := s.pages (pdir / PAGE_SIZE) i

/-- The page-table entry translating `vaddr` in the directory at `pdir`; the
table is read at the address `PageFrameNumber * PAGE_SIZE`, as `Memory.c` does
in `memory_pdir_destroy` and `memory_pdir_dump`. -/
def pte (s : Kernel) (pdir vaddr : Nat) : Entry :=
  s.pages (pde s pdir (PD_INDEX vaddr)).PageFrameNumber (PT_INDEX vaddr)

/-- Store entry `e` at index `i` of the page at page number `n`. -/
def writeEntry (s : Kernel) (n i : Nat) (e : Entry) : Kernel :=
  { s with pages := fun m j => if m = n ∧ j = i then e else s.pages m j }

/-- Zero-fill `count` pages starting at address `addr`: `memset(addr, 0, count * PAGE_SIZE)`. -/
def memset_zero (s : Kernel) (addr count : Nat) : Kernel :=
  { s with pages := fun m j =>
      if addr / PAGE_SIZE ≤ m ∧ m < addr / PAGE_SIZE + count then Entry.zero else s.pages m j }

/-- Modelled from the spec: `page_present` belongs to `Virtual.c`, which is not at
hand; a page is present when its directory entry and its table entry are.
Whether the page of `vaddr` is present in the directory at `pdir`. -/
def page_present (s : Kernel) (pdir vaddr : Nat) : Bool :=
  (pde s pdir (PD_INDEX vaddr)).Present && (pte s pdir vaddr).Present

/-- Modelled from the spec: `virtual_present` belongs to `Virtual.c`; "true iff
every page in the range has Present=1".
Whether every one of the `count` pages starting at `vaddr` is present. -/
def virtual_present (s : Kernel) (pdir vaddr count : Nat) : Bool :=
  (List.range count).all (fun k => page_present s pdir ((vaddr + k * PAGE_SIZE) % WORD))

/-- Modelled from the spec: `virtual2physical` belongs to `Virtual.c`; "walks
directory → table → entry and returns `frame×pageSize + (vaddr mod pageSize)`".
Physical address `vaddr` translates to. -/
def virtual2physical (s : Kernel) (pdir vaddr : Nat) : Nat :=
  ((pte s pdir vaddr).PageFrameNumber * PAGE_SIZE + vaddr % PAGE_SIZE) % WORD

/-- Modelled from the spec: one page of `virtual_unmap`, which clears `Present` of the table
entry if the page is present. -/
def unmap_page (s : Kernel) (pdir vaddr : Nat) : Kernel :=
  if page_present s pdir vaddr then
    writeEntry s (pde s pdir (PD_INDEX vaddr)).PageFrameNumber (PT_INDEX vaddr)
      { pte s pdir vaddr with Present := false }
  else s

/-- Modelled from the spec: `virtual_unmap` belongs to `Virtual.c`; "clears Present
on each of the `count` Page Table Entries if present; does not free the Page
Table itself".
Unmap `count` pages starting at `vaddr`. -/
def virtual_unmap (s : Kernel) (pdir vaddr count : Nat) : Kernel :=
  (List.range count).foldl
    (fun s k => unmap_page s pdir ((vaddr + k * PAGE_SIZE) % WORD)) s

/-- Modelled from the spec: one page of `virtual_map`, with `alloc` providing the frame of a
new page table (see `virtual_map_with`). -/
def map_page (alloc : Kernel → Nat × Kernel) (s : Kernel)
    (pdir vaddr paddr : Nat) (user : Bool) : Kernel :=
  let s1 :=
    if (pde s pdir (PD_INDEX vaddr)).Present then s
    else
      let r := alloc s
      writeEntry r.2 (pdir / PAGE_SIZE) (PD_INDEX vaddr) ⟨true, true, true, r.1 / PAGE_SIZE⟩
  writeEntry s1 (pde s1 pdir (PD_INDEX vaddr)).PageFrameNumber (PT_INDEX vaddr)
    ⟨true, true, user, paddr / PAGE_SIZE⟩

/-- Modelled from the spec: `virtual_map` belongs to `Virtual.c`; "for each of
`count` pages, ensures the owning Page Directory Entry is present — allocating a
fresh physical frame for a new Page Table via the Physical Allocator and
zero-initializing it on first reference to that 4 MiB region — then writes the
Page Table Entry with Present=1, Writable=1, UserAccessible=`userAccessible`".
The frame of a new table is obtained from `alloc`, which for `virtual_map` is
`memory_alloc_identity_page` (the spec's "mechanism for obtaining a page whose
physical and virtual addresses are guaranteed identical ... e.g. bootstrapping a
new page table"; it hands the page out zero-filled), because `Memory.c`
dereferences the frame address of a table directly.
Map `count` pages starting at `vaddr` to the frames starting at `paddr`. -/
def virtual_map_with (alloc : Kernel → Nat × Kernel) (s : Kernel)
    (pdir vaddr paddr count : Nat) (user : Bool) : Kernel :=
  (List.range count).foldl
    (fun s k => map_page alloc s pdir ((vaddr + k * PAGE_SIZE) % WORD)
      ((paddr + k * PAGE_SIZE) % WORD) user) s

/-! ## Allocation facade (`kernel/memory/Memory.c`) -/

/-- The scan of `memory_alloc_identity_page`: the first index among
`i, ..., i+n-1` whose page is not present in `pdir` and whose frame is not used. -/
def findIdentity (s : Kernel) (pdir : Nat) : Nat → Nat → Option Nat
  | 0, _ => none
  | n + 1, i =>
    if !page_present s pdir (i * PAGE_SIZE) && !physical_is_used s (i * PAGE_SIZE) 1 then some i
    else findIdentity s pdir n (i + 1)

/-- The function `memory_alloc_identity_page`, with `fuel` bounding the depth of
the calls it makes to itself through `virtual_map` (which asks it for the page
of a new page table). -/
def memory_alloc_identity_page_fuel : Nat → Kernel → Nat → Nat × Kernel
  | 0, s, _ => (0, s)
  | fuel + 1, s, pdir =>
    let s0 := atomic_begin s
    match findIdentity s0 pdir (256 * 1024 - 1) 1 with
    | some i =>
      let address := i * PAGE_SIZE
      let s1 := physical_set_used s0 address 1
      let s2 := virtual_map_with (fun t => memory_alloc_identity_page_fuel fuel t pdir)
        s1 pdir address address 1 false
      let s3 := atomic_end s2
      (address, memset_zero s3 address 1)
    | none => (0, atomic_end s0)

/-- The function `memory_alloc_identity_page`: every nested call marks one more of
the 262143 candidate frames used, so the nesting is at most 262143 deep. -/
def memory_alloc_identity_page (s : Kernel) (pdir : Nat) : Nat × Kernel :=
  memory_alloc_identity_page_fuel (256 * 1024) s pdir

/-- Modelled from the spec: the function `virtual_map` of `Virtual.c`, which is not at hand;
its loop is `virtual_map_with`, the page tables it needs come from
`memory_alloc_identity_page`. -/
def virtual_map (s : Kernel) (pdir vaddr paddr count : Nat) (user : Bool) : Kernel :=
  virtual_map_with (fun t => memory_alloc_identity_page t pdir) s pdir vaddr paddr count user

/-- Modelled from the spec: `virtual_alloc` belongs to `Virtual.c`, which is not at
hand; the facade "attempts to map them into `handle`'s free virtual range", the
failure being "no free virtual range". A user request is served from the private
directory entries 256..1023, a kernel request from the shared entries 0..255,
page 0 ("the null page, permanently reserved and unmappable") excepted; the
search is first fit.
Find `count` consecutive pages that are not present and map them to the
frames starting at `paddr`; the result is the address of the first page, or `0`. -/
def virtual_alloc (s : Kernel) (pdir paddr count : Nat) (user : Bool) : Nat × Kernel :=
  let lo := if user then 256 * 1024 else 1
  let hi := if user then 1024 * 1024 else 256 * 1024
  match findRun (fun i => page_present s pdir (i * PAGE_SIZE)) count (hi + 1 - lo - count) lo with
  | none => (0, s)
  | some i => (i * PAGE_SIZE, virtual_map s pdir (i * PAGE_SIZE) paddr count user)

/-- Link-time addresses of the kernel's static paging structures: the kernel page
directory `kpdir` and the array `kptable` of its 256 page tables. -/
structure Layout where
  kpdir : Nat
  kptable : Nat

/-- Whether `MEMORY_USER` is set in `flags` (the argument `flags & MEMORY_USER`). -/
def flag_user (flags : Nat) : Bool := flags &&& MEMORY_USER != 0

/-- Whether `MEMORY_CLEAR` is set in `flags`. -/
def flag_clear (flags : Nat) : Bool := flags &&& MEMORY_CLEAR != 0

/-- The function `memory_alloc` of `Memory.c`. -/
def memory_alloc (s : Kernel) (page_directory size flags : Nat) : Nat × Kernel :=
  if size = 0 then (0, s)
  else
    let page_count := PAGE_ALIGN_UP size / PAGE_SIZE
    let s0 := atomic_begin s
    let r := physical_alloc s0 page_count
    let physical_address := r.1
    if physical_address = 0 then (0, atomic_end r.2)
    else
      let v := virtual_alloc r.2 page_directory physical_address page_count (flag_user flags)
      let virtual_address := v.1
      if virtual_address = 0 then
        (0, atomic_end (physical_free v.2 physical_address page_count))
      else
        let s3 := atomic_end v.2
        (virtual_address,
          if flag_clear flags then memset_zero s3 virtual_address page_count else s3)

/-- The function `memory_free` of `Memory.c` (its argument `user` is unused). -/
def memory_free (s : Kernel) (pdir addr count : Nat) : Kernel :=
  let s0 := atomic_begin s
  let s1 :=
    if virtual_present s0 pdir addr count then
      virtual_unmap (physical_free s0 (virtual2physical s0 pdir addr) count) pdir addr count
    else s0
  atomic_end s1

/-- The function `memory_map` of `Memory.c`; it always returns `0`. -/
def memory_map (s : Kernel) (pdir addr count : Nat) (user : Bool) : Nat × Kernel :=
  let s0 := atomic_begin s
  let s1 := (List.range count).foldl
    (fun s i =>
      let vaddr := (addr + i * PAGE_SIZE) % WORD
      if !virtual_present s pdir vaddr 1 then
        let r := physical_alloc s 1
        virtual_map r.2 pdir vaddr r.1 1 user
      else s) s0
  (0, atomic_end s1)

/-- The function `memory_map_eternal` of `Memory.c`; the range is `(base, size)`. -/
def memory_map_eternal (s : Kernel) (pdir base size : Nat) : Nat × Kernel :=
  let page_count := PAGE_ALIGN_UP size / PAGE_SIZE
  let s0 := atomic_begin s
  let s1 := physical_set_used s0 base page_count
  let s2 := virtual_map s1 pdir base base page_count false
  (0, atomic_end s2)

/-- The function `memory_unmap` of `Memory.c`; it always returns `0`. -/
def memory_unmap (s : Kernel) (pdir addr count : Nat) : Nat × Kernel :=
  let s0 := atomic_begin s
  let s1 := (List.range count).foldl
    (fun s i =>
      let vaddr := (addr + i * PAGE_SIZE) % WORD
      if virtual_present s pdir vaddr 1 then
        virtual_unmap (physical_free s (virtual2physical s pdir vaddr) 1) pdir vaddr 1
      else s) s0
  (0, atomic_end s1)

/-- The entry written into slot `i < 256` of a page directory, by `memory_initialize`
for the kernel directory and by `memory_pdir_create` for a new one:
`User = 0`, `Write = 1`, `Present = 1`, `PageFrameNumber = &kptable[i] / PAGE_SIZE`. -/
def kernel_entry (L : Layout) (i : Nat) : Entry :=
  ⟨true, true, false, ((L.kptable + i * PAGE_SIZE) % WORD) / PAGE_SIZE⟩

/-- The loop that fills entries 0..255 of the directory at address `pdir`. -/
def fill_kernel_entries (L : Layout) (s : Kernel) (pdir : Nat) : Kernel :=
  (List.range 256).foldl (fun s i => writeEntry s (pdir / PAGE_SIZE) i (kernel_entry L i)) s

/-- The kernel directory set-up of `memory_initialize` (lines 30-38 of `Memory.c`). -/
def setup_kernel_directory (L : Layout) (s : Kernel) : Kernel :=
  fill_kernel_entries L s L.kpdir

/-- The function `memory_pdir_create` of `Memory.c`; `sizeof(PageDirectory)` is one
page. The result is the address of the new directory, or `0` (`NULL`). -/
def memory_pdir_create (L : Layout) (s : Kernel) : Nat × Kernel :=
  let s0 := atomic_begin s
  let r := memory_alloc s0 L.kpdir PAGE_SIZE MEMORY_CLEAR
  let pdir := r.1
  if pdir = 0 then (0, r.2)
  else
    let s2 := memset_zero r.2 pdir 1
    let s3 := fill_kernel_entries L s2 pdir
    (pdir, atomic_end s3)

/-- The inner loop of `memory_pdir_destroy`: free the frame of every present entry
of the page table at address `pt`. -/
def free_leaves (s : Kernel) (pt : Nat) : Kernel :=
  (List.range 1024).foldl
    (fun s i =>
      let p := s.pages (pt / PAGE_SIZE) i
      if p.Present then physical_free s ((p.PageFrameNumber * PAGE_SIZE) % WORD) 1 else s) s

/-- One iteration of the outer loop of `memory_pdir_destroy`, for directory entry `i`. -/
def destroy_entry (L : Layout) (s : Kernel) (pdir i : Nat) : Kernel :=
  let e := pde s pdir i
  if e.Present then
    let pt := (e.PageFrameNumber * PAGE_SIZE) % WORD
    memory_free (free_leaves s pt) L.kpdir pt 1
  else s

/-- The function `memory_pdir_destroy` of `Memory.c`. -/
def memory_pdir_destroy (L : Layout) (s : Kernel) (pdir : Nat) : Kernel :=
  let s0 := atomic_begin s
  let s1 := (List.range 768).foldl (fun s k => destroy_entry L s pdir (256 + k)) s0
  let s2 := memory_free s1 L.kpdir pdir 1
  atomic_end s2

/-! ## Concrete states used as test inputs -/

/-- A state whose directory at `0x100000` has every page present and whose only
used frame is frame 0. -/
def fullState : Kernel :=
  { MEMORY := fun f => f == 0, USED_MEMORY := 0, TOTAL_MEMORY := 0x1000000,
    pages := fun _ _ => ⟨true, true, false, 0⟩, depth := 0, initialized := true }

/-- A layout with the kernel directory at `0x100000` and `kptable` right after it. -/
def layout0 : Layout := ⟨0x100000, 0x101000⟩

/-- A state as left by boot for `layout0`: frame 0 and the frames 256..512 of the
kernel image are marked used, entries 0..255 of the kernel directory point at
`kptable`, and the kernel image is identity-mapped; page 0 is not present. -/
def bootState : Kernel :=
  { MEMORY := fun f => f == 0 || (256 ≤ f && f ≤ 512),
    USED_MEMORY := 0, TOTAL_MEMORY := 0x1000000,
    pages := fun n i =>
      if n = 256 then (if i < 256 then kernel_entry layout0 i else Entry.zero)
      else if n = 257 then (if 256 ≤ i ∧ i ≤ 512 then ⟨true, true, false, i⟩ else Entry.zero)
      else Entry.zero,
    depth := 0, initialized := true }

/-- The state `bootState` with a fragmented bitmap: frames 5 and 9 are the only free ones. -/
def fragState : Kernel :=
  { bootState with MEMORY := fun f => !(f == 5 || f == 9) }

/-! ## Well-formed directories -/

/-- Number of pages of the 32-bit address space. -/
def PAGE_COUNT : Nat := 1024 * 1024

/-- Whether the page with number `n` is present in the directory at `pdir`. -/
def mapped (s : Kernel) (pdir n : Nat) : Prop := page_present s pdir (n * PAGE_SIZE) = true

/-- A well-formed directory, following the data model: its entries 0..255 are
populated; the page holding the directory and the page holding each of its page
tables are present in the directory itself, at the address through which the
kernel reads and writes them; a page table is not the directory and is owned by
one directory entry only. -/
structure WF (s : Kernel) (pdir : Nat) : Prop where
  low : ∀ j, j < 256 → (pde s pdir j).Present = true
  dir_mapped : mapped s pdir (pdir / PAGE_SIZE)
  dir_lt : pdir / PAGE_SIZE < PAGE_COUNT
  table_lt : ∀ j, j < 1024 → (pde s pdir j).Present = true →
    (pde s pdir j).PageFrameNumber < PAGE_COUNT
  table_mapped : ∀ j, j < 1024 → (pde s pdir j).Present = true →
    mapped s pdir (pde s pdir j).PageFrameNumber
  table_ne_dir : ∀ j, j < 1024 → (pde s pdir j).Present = true →
    (pde s pdir j).PageFrameNumber ≠ pdir / PAGE_SIZE
  table_inj : ∀ j k, j < 1024 → k < 1024 → (pde s pdir j).Present = true →
    (pde s pdir k).Present = true →
    (pde s pdir j).PageFrameNumber = (pde s pdir k).PageFrameNumber → j = k

/-- Whether page `i` is a candidate of the scan of `memory_alloc_identity_page`:
not present in the directory and its frame not marked used. -/
def candidate (s : Kernel) (pdir i : Nat) : Bool :=
  !page_present s pdir (i * PAGE_SIZE) && !s.MEMORY i

/-- The state `memory_alloc_identity_page` leaves when it picks page `i` in a
directory whose entry for that page is present: the frame is marked used, the
page is mapped onto itself, non-user, and zero-filled. -/
def identity_state (s : Kernel) (pdir i : Nat) : Kernel :=
  memset_zero
    (atomic_end
      (writeEntry (physical_set_used (atomic_begin s) (i * PAGE_SIZE) 1)
        (pde s pdir (i / 1024)).PageFrameNumber (i % 1024) ⟨true, true, false, i⟩))
    (i * PAGE_SIZE) 1

/-- The effect of mapping page `x` with entry `e` on a directory: `t` is well
formed, page `x` is present with entry `e`, the other present pages keep their
translation, the only other page that may have become present is a page handed
out by `memory_alloc_identity_page` for a new page table, the bitmap only gained
bits (none when the directory entry of `x` was present), and the counters and the
nesting depth are unchanged. -/
structure MapStep (s t : Kernel) (pdir x : Nat) (e : Entry) : Prop where
  wf : WF t pdir
  here : mapped t pdir x ∧ pte t pdir (x * PAGE_SIZE) = e
  keep : ∀ z, z < PAGE_COUNT → z ≠ x → mapped s pdir z →
    mapped t pdir z ∧ pte t pdir (z * PAGE_SIZE) = pte s pdir (z * PAGE_SIZE)
  fresh : ∀ z, z < PAGE_COUNT → mapped t pdir z →
    z = x ∨ mapped s pdir z ∨ (1 ≤ z ∧ z < 256 * 1024 ∧ s.MEMORY z = false)
  mem : ∀ f, s.MEMORY f = true → t.MEMORY f = true
  mem_new : ∀ f, t.MEMORY f = true →
    s.MEMORY f = true ∨ (1 ≤ f ∧ f < 256 * 1024 ∧ ¬ mapped s pdir f)
  mem_eq : (pde s pdir (x / 1024)).Present = true → t.MEMORY = s.MEMORY
  pde_keep : ∀ j, (pde s pdir j).Present = true → pde t pdir j = pde s pdir j
  pde_new : ∀ j, (pde t pdir j).Present = true →
    (pde s pdir j).Present = true ∨
    (j = x / 1024 ∧ 256 ≤ j ∧ 1 ≤ (pde t pdir j).PageFrameNumber ∧
      (pde t pdir j).PageFrameNumber < 256 * 1024 ∧
      s.MEMORY (pde t pdir j).PageFrameNumber = false ∧
      ¬ mapped s pdir (pde t pdir j).PageFrameNumber)
  used : t.USED_MEMORY = s.USED_MEMORY
  total : t.TOTAL_MEMORY = s.TOTAL_MEMORY
  depth : t.depth = s.depth

/-- Every page table that `virtual_map` had to create while mapping the `count`
pages was obtained: whenever the directory entry of a page was not present,
`memory_alloc_identity_page` returned a page. -/
def tables_obtained (s : Kernel) (pdir vaddr paddr count : Nat) (user : Bool) : Prop :=
  ∀ k, k < count →
    (pde (virtual_map s pdir vaddr paddr k user) pdir
      (PD_INDEX ((vaddr + k * PAGE_SIZE) % WORD))).Present = true ∨
    (memory_alloc_identity_page (virtual_map s pdir vaddr paddr k user) pdir).1 ≠ 0

instance (s : Kernel) (pdir vaddr paddr count : Nat) (user : Bool) :
    Decidable (tables_obtained s pdir vaddr paddr count user) := by
  unfold tables_obtained; infer_instance

/-- The effect of `virtual_map` of the `n` pages from page `x` on, page `x + k`
receiving the entry `E k`; the fields are those of `MapStep`. -/
structure MapRange (s t : Kernel) (pdir x n : Nat) (E : Nat → Entry) : Prop where
  wf : WF t pdir
  here : ∀ k, k < n → mapped t pdir (x + k) ∧ pte t pdir ((x + k) * PAGE_SIZE) = E k
  keep : ∀ z, z < PAGE_COUNT → (z < x ∨ x + n ≤ z) → mapped s pdir z →
    mapped t pdir z ∧ pte t pdir (z * PAGE_SIZE) = pte s pdir (z * PAGE_SIZE)
  fresh : ∀ z, z < PAGE_COUNT → mapped t pdir z →
    (x ≤ z ∧ z < x + n) ∨ mapped s pdir z ∨ (1 ≤ z ∧ z < 256 * 1024 ∧ s.MEMORY z = false)
  mem : ∀ f, s.MEMORY f = true → t.MEMORY f = true
  mem_new : ∀ f, t.MEMORY f = true →
    s.MEMORY f = true ∨ (1 ≤ f ∧ f < 256 * 1024 ∧ ¬ mapped s pdir f)
  mem_eq : (∀ k, k < n → (pde s pdir ((x + k) / 1024)).Present = true) → t.MEMORY = s.MEMORY
  pde_keep : ∀ j, (pde s pdir j).Present = true → pde t pdir j = pde s pdir j
  pde_new : ∀ j, (pde t pdir j).Present = true →
    (pde s pdir j).Present = true ∨
    ((∃ k, k < n ∧ j = (x + k) / 1024) ∧ 256 ≤ j ∧ 1 ≤ (pde t pdir j).PageFrameNumber ∧
      (pde t pdir j).PageFrameNumber < 256 * 1024 ∧
      s.MEMORY (pde t pdir j).PageFrameNumber = false ∧
      ¬ mapped s pdir (pde t pdir j).PageFrameNumber)
  used : t.USED_MEMORY = s.USED_MEMORY
  total : t.TOTAL_MEMORY = s.TOTAL_MEMORY
  depth : t.depth = s.depth

/-! ## Directories of processes -/

/-- A process directory at address `P`, following the data model, as seen from the
kernel directory: the kernel directory is well formed; the page of `P` is present
in it and is neither the kernel directory nor one of its page tables; each page
table of a present private entry (256..1023) of `P` is owned by that entry only,
is no other paging structure, and is mapped onto itself in the kernel directory
(it was handed out by `memory_alloc_identity_page`); frame numbers are 20 bits
wide. -/
structure Process (s : Kernel) (L : Layout) (P : Nat) : Prop where
  kernel : WF s L.kpdir
  dirs : L.kpdir / PAGE_SIZE ≠ P / PAGE_SIZE
  dir_lt : P / PAGE_SIZE < PAGE_COUNT
  dir_mapped : mapped s L.kpdir (P / PAGE_SIZE)
  dir_frame : (pte s L.kpdir (P / PAGE_SIZE * PAGE_SIZE)).PageFrameNumber < PAGE_COUNT
  dir_table : ∀ j, j < 1024 → (pde s L.kpdir j).Present = true →
    (pde s L.kpdir j).PageFrameNumber ≠ P / PAGE_SIZE
  tab_lt : ∀ i, 256 ≤ i → i < 1024 → (pde s P i).Present = true →
    (pde s P i).PageFrameNumber < PAGE_COUNT
  tab_ne : ∀ i, 256 ≤ i → i < 1024 → (pde s P i).Present = true →
    (pde s P i).PageFrameNumber ≠ P / PAGE_SIZE ∧
    (pde s P i).PageFrameNumber ≠ L.kpdir / PAGE_SIZE
  tab_ktab : ∀ i, 256 ≤ i → i < 1024 → (pde s P i).Present = true →
    ∀ j, j < 1024 → (pde s L.kpdir j).Present = true →
      (pde s P i).PageFrameNumber ≠ (pde s L.kpdir j).PageFrameNumber
  tab_inj : ∀ i k, 256 ≤ i → i < 1024 → 256 ≤ k → k < 1024 →
    (pde s P i).Present = true → (pde s P k).Present = true →
    (pde s P i).PageFrameNumber = (pde s P k).PageFrameNumber → i = k
  tab_id : ∀ i, 256 ≤ i → i < 1024 → (pde s P i).Present = true →
    mapped s L.kpdir (pde s P i).PageFrameNumber ∧
    (pte s L.kpdir ((pde s P i).PageFrameNumber * PAGE_SIZE)).PageFrameNumber
      = (pde s P i).PageFrameNumber
  leaf_lt : ∀ i, 256 ≤ i → i < 1024 → (pde s P i).Present = true →
    ∀ q, q < 1024 → (s.pages (pde s P i).PageFrameNumber q).Present = true →
      (s.pages (pde s P i).PageFrameNumber q).PageFrameNumber < PAGE_COUNT

/-- Whether frame `f` is reachable from the private entry `i` of the directory at
`P`: it is the page table of the entry or a present leaf of that table. -/
def reachable (s : Kernel) (P i f : Nat) : Prop :=
  f = (pde s P i).PageFrameNumber ∨
  ∃ q, q < 1024 ∧ (s.pages (pde s P i).PageFrameNumber q).Present = true ∧
    f = (s.pages (pde s P i).PageFrameNumber q).PageFrameNumber

/-- The state `u` reached by `memory_pdir_destroy` from `s` after the private
entries `256 .. 256 + k - 1` of `P` were processed. -/
structure Destroying (s u : Kernel) (L : Layout) (P k : Nat) : Prop where
  wf : WF u L.kpdir
  rows : ∀ r, (∀ j, j < 1024 → (pde s L.kpdir j).Present = true →
    r ≠ (pde s L.kpdir j).PageFrameNumber) → u.pages r = s.pages r
  kview : ∀ z, z < PAGE_COUNT →
    (∀ i, 256 ≤ i → i < 256 + k → (pde s P i).Present = true →
      z ≠ (pde s P i).PageFrameNumber) →
    mapped s L.kpdir z →
    mapped u L.kpdir z ∧ pte u L.kpdir (z * PAGE_SIZE) = pte s L.kpdir (z * PAGE_SIZE)
  mem_le : ∀ f, u.MEMORY f = true → s.MEMORY f = true
  freed : ∀ i, 256 ≤ i → i < 256 + k → i < 1024 → (pde s P i).Present = true →
    ∀ f, reachable s P i f → u.MEMORY f = false
  only : ∀ f, s.MEMORY f = true → u.MEMORY f = false →
    ∃ i, 256 ≤ i ∧ i < 256 + k ∧ i < 1024 ∧ (pde s P i).Present = true ∧ reachable s P i f

/-- The state `s` with the entries 0..255 of the directory at `P` replaced by `g`. -/
def set_low_entries (s : Kernel) (P : Nat) (g : Nat → Entry) : Kernel :=
  { s with pages := fun r q => if r = P / PAGE_SIZE ∧ q < 256 then g q else s.pages r q }

/-- The state `bootState` with a process directory in page 600 (frame 700): its
entries 0..255 are those of the kernel directory, its entry 256 points at the
page table in page 601, which is mapped onto itself in the kernel directory and
whose entry 0 maps a leaf page to frame 800. -/
def procState : Kernel :=
  { MEMORY := fun f => f == 0 || (256 ≤ f && f ≤ 512) || f == 601 || f == 700 || f == 800,
    USED_MEMORY := 0x3000, TOTAL_MEMORY := 0x1000000,
    pages := fun n i =>
      if n = 256 then (if i < 256 then kernel_entry layout0 i else Entry.zero)
      else if n = 257 then
        (if 256 ≤ i ∧ i ≤ 512 then ⟨true, true, false, i⟩
         else if i = 600 then ⟨true, true, false, 700⟩
         else if i = 601 then ⟨true, true, false, 601⟩
         else Entry.zero)
      else if n = 600 then
        (if i < 256 then kernel_entry layout0 i
         else if i = 256 then ⟨true, true, true, 601⟩
         else Entry.zero)
      else if n = 601 then (if i = 0 then ⟨true, true, true, 800⟩ else Entry.zero)
      else Entry.zero,
    depth := 0, initialized := true }

/-- The state `bootState` with an almost exhausted bitmap: frame 5 is the only free one. -/
def lastFrameState : Kernel :=
  { bootState with MEMORY := fun f => !(f == 5) }

/-! ## The dump of a directory (`memory_pdir_dump`) -/

/-- What `memory_pdir_dump` prints, piece by piece: the opening of a region
(`MEMORY_DUMP_REGION_START`: virtual address, physical address), its closing
(`MEMORY_DUMP_REGION_END`: physical address, virtual address), the break printed
inside a region when the physical addresses stop being contiguous, and the
marker `[empty]`. -/
inductive DumpEvent where
  | region_start (vaddr paddr : Nat)
  | region_end (paddr vaddr : Nat)
  | region_split (current_physical new_physical : Nat)
  | empty
  deriving DecidableEq

/-- The local variables of `memory_pdir_dump`, and the output so far. -/
structure DumpState where
  memory_used : Bool
  memory_empty : Bool
  current_physical : Nat
  out : List DumpEvent

/-- The macro `MEMORY_DUMP_REGION_START` at address `addr`. -/
def dump_region_start (s : Kernel) (pdir : Nat) (d : DumpState) (addr : Nat) : DumpState :=
  { memory_used := true, memory_empty := false,
    current_physical := virtual2physical s pdir addr,
    out := d.out ++ [DumpEvent.region_start addr (virtual2physical s pdir addr)] }

/-- The macro `MEMORY_DUMP_REGION_END` at address `addr`. -/
def dump_region_end (s : Kernel) (pdir : Nat) (d : DumpState) (addr : Nat) : DumpState :=
  { d with memory_used := false,
           out := d.out ++ [DumpEvent.region_end (virtual2physical s pdir addr) addr] }

/-- The body of the inner loop of `memory_pdir_dump`, for entry `j` of the page
table of directory entry `i`; addresses are 32-bit. -/
def dump_page (s : Kernel) (pdir i : Nat) (d : DumpState) (j : Nat) : DumpState :=
  let p := s.pages ((pde s pdir i).PageFrameNumber * PAGE_SIZE % WORD / PAGE_SIZE) j
  if p.Present && !d.memory_used then
    dump_region_start s pdir d ((i * 1024 + j) * PAGE_SIZE % WORD)
  else if !p.Present && d.memory_used then
    dump_region_end s pdir d (((i * 1024 + j) * PAGE_SIZE + WORD - PAGE_SIZE) % WORD)
  else if p.Present then
    let new_physical := virtual2physical s pdir ((i * 1024 + j) * PAGE_SIZE % WORD)
    { d with current_physical := new_physical,
             out := if (d.current_physical + PAGE_SIZE) % WORD = new_physical then d.out
               else d.out ++ [DumpEvent.region_split d.current_physical new_physical] }
  else d

/-- The body of the outer loop of `memory_pdir_dump`, for directory entry `i`. -/
def dump_entry (s : Kernel) (pdir : Nat) (d : DumpState) (i : Nat) : DumpState :=
  if (pde s pdir i).Present then (List.range 1024).foldl (dump_page s pdir i) d
  else if d.memory_used then
    dump_region_end s pdir d ((i * 1024 * PAGE_SIZE + WORD - PAGE_SIZE) % WORD)
  else d

/-- The function `memory_pdir_dump` of `Memory.c`: the sequence of pieces it prints. -/
def memory_pdir_dump (s : Kernel) (pdir : Nat) (user : Bool) : List DumpEvent :=
  if !s.initialized then []
  else
    let lo := if user then 256 else 0
    let d := (List.range (1024 - lo)).foldl (fun d k => dump_entry s pdir d (lo + k))
      ⟨false, true, 0, []⟩
    if d.memory_empty then d.out ++ [DumpEvent.empty] else d.out

/-- The state `bootState` with one more page: the last page of the address space,
`0xFFFFF000`, is present in the kernel directory (directory entry 1023 points at
the page table in page `0x300`, whose entry 1023 holds frame `0x400`). -/
def lastPageState : Kernel :=
  { bootState with pages := fun n i =>
      if n = 0x100 ∧ i = 1023 then ⟨true, true, true, 0x300⟩
      else if n = 0x300 ∧ i = 1023 then ⟨true, true, true, 0x400⟩
      else bootState.pages n i }

/-! ## Unmapping ranges -/

/-- The part of `WF` that unmapping preserves: no present directory entry uses the
page of the directory as its page table, and no two present entries share a page
table. -/
structure Tables (s : Kernel) (pdir : Nat) : Prop where
  table_ne_dir : ∀ j, j < 1024 → (pde s pdir j).Present = true →
    (pde s pdir j).PageFrameNumber ≠ pdir / PAGE_SIZE
  table_inj : ∀ j k, j < 1024 → k < 1024 → (pde s pdir j).Present = true →
    (pde s pdir k).Present = true →
    (pde s pdir j).PageFrameNumber = (pde s pdir k).PageFrameNumber → j = k

/-- The body of the loop of `memory_unmap`, for page `i` of the range at `addr`. -/
def memory_unmap_page (pdir addr : Nat) (s : Kernel) (i : Nat) : Kernel :=
  let vaddr := (addr + i * PAGE_SIZE) % WORD
  if virtual_present s pdir vaddr 1 then
    virtual_unmap (physical_free s (virtual2physical s pdir vaddr) 1) pdir vaddr 1
  else s

/-- The state `t` of the loop of `memory_unmap` after `k` iterations from `s`, on a
range that starts at page `x` and whose frames start at frame `f`: the directory
entries are those of `s`, pages outside `x .. x+k-1` translate as in `s`, and
the `k` frames have been released one by one. -/
structure Unmapping (s t : Kernel) (pdir x k f : Nat) : Prop where
  tables : Tables t pdir
  pde_eq : ∀ j, pde t pdir j = pde s pdir j
  pte_eq : ∀ z, z < PAGE_COUNT → (z < x ∨ x + k ≤ z) →
    (pde s pdir (z / 1024)).Present = true → pte t pdir (z * PAGE_SIZE) = pte s pdir (z * PAGE_SIZE)
  mem : t.MEMORY = setBits s.MEMORY f k false
  used : t.USED_MEMORY = (s.USED_MEMORY + WORD - (k * PAGE_SIZE) % WORD) % WORD
  total : t.TOTAL_MEMORY = s.TOTAL_MEMORY
  depth : t.depth = s.depth
  init : t.initialized = s.initialized

/-! ## Boot (`memory_initialize`) -/

/-- A range of memory: base address and size in bytes (`MemoryRange`). -/
structure MemoryRange where
  base : Nat
  size : Nat

/-- Modelled from the spec: the enumeration of the types of a memory-map entry is
not part of the sources at hand; "type∈{Available, Reserved,…}". -/
inductive MemoryMapEntryType where
  | AVAILABLE
  | RESERVED
  | OTHER (code : Nat)
  deriving DecidableEq

/-- One entry of the boot memory map (`MemoryMapEntry`). -/
structure MemoryMapEntry where
  range : MemoryRange
  type : MemoryMapEntryType

/-- The boot input read by `memory_initialize`: the memory map, the ranges of the
modules (`modules[i].range`) and the usable memory reported by the loader. -/
structure Multiboot where
  memory_map : List MemoryMapEntry
  modules : List MemoryRange
  memory_usable : Nat

/-- The loop of `memory_initialize` over the memory map (lines 40-48 of `Memory.c`). -/
def free_available (s : Kernel) (memory_map : List MemoryMapEntry) : Kernel :=
  memory_map.foldl
    (fun s e =>
      if e.type = MemoryMapEntryType.AVAILABLE then
        physical_set_free s e.range.base (e.range.size / PAGE_SIZE)
      else s) s

/-- The loop of `memory_initialize` over the modules (lines 57-60 of `Memory.c`). -/
def map_modules (s : Kernel) (pdir : Nat) (modules : List MemoryRange) : Kernel :=
  modules.foldl (fun s m => (memory_map_eternal s pdir m.base m.size).2) s

/-- The function `memory_initialize` of `Memory.c`. The range `K` stands for
`kernel_memory_range()`, which is derived from the linker symbols `__start` and
`__end`; loading the directory and enabling paging do not change the state. -/
def memory_initialize (L : Layout) (K : MemoryRange) (s : Kernel) (multiboot : Multiboot) :
    Kernel :=
  let s1 := { s with MEMORY := fun f => if f < 1024 * 1024 then true else s.MEMORY f }
  let s2 := setup_kernel_directory L s1
  let s3 := free_available s2 multiboot.memory_map
  let s4 := { s3 with USED_MEMORY := 0, TOTAL_MEMORY := multiboot.memory_usable }
  let s5 := (memory_map_eternal s4 L.kpdir K.base K.size).2
  let s6 := map_modules s5 L.kpdir multiboot.modules
  let s7 := virtual_unmap s6 L.kpdir 0 1
  let s8 := physical_set_used s7 0 1
  { s8 with initialized := true }

/-- The frames that `physical_set_free(range.base, range.size / PAGE_SIZE)` covers:
the whole frames of the range when its base is page-aligned. -/
def covers (r : MemoryRange) (f : Nat) : Prop :=
  r.base / PAGE_SIZE ≤ f ∧ f < r.base / PAGE_SIZE + r.size / PAGE_SIZE

/-- The range of `n` pages from page `x` on is held eternally in the directory at
`pdir`: its frames are marked used, its pages are present, not user-accessible,
and mapped onto themselves. -/
def Eternal (s : Kernel) (pdir x n : Nat) : Prop :=
  ∀ k, k < n → s.MEMORY (x + k) = true ∧ mapped s pdir (x + k) ∧
    pte s pdir ((x + k) * PAGE_SIZE) = ⟨true, true, false, x + k⟩

/-- Every page table needed while the modules are mapped one after the other is
obtained (see `tables_obtained`). -/
def modules_tables (pdir : Nat) : Kernel → List MemoryRange → Prop
  | _, [] => True
  | s, m :: ms =>
    tables_obtained (physical_set_used (atomic_begin s) m.base (PAGE_ALIGN_UP m.size / PAGE_SIZE))
      pdir m.base m.base (PAGE_ALIGN_UP m.size / PAGE_SIZE) false ∧
    modules_tables pdir (memory_map_eternal s pdir m.base m.size).2 ms

/-- A boot input the kernel can be started with: the kernel image is page-aligned,
lies in the first GiB and holds the static kernel directory `kpdir` and the 256
static page tables `kptable`, which are page-aligned and apart from each other;
the entries 256..1023 of `kpdir` are zero-initialised; every module is
page-aligned and lies in the 32-bit address space, and the rounding of its size
does not wrap. -/
structure Bootable (L : Layout) (K : MemoryRange) (s : Kernel) (multiboot : Multiboot) :
    Prop where
  kernel_aligned : K.base % PAGE_SIZE = 0
  kernel_low : K.base + K.size ≤ 256 * 1024 * PAGE_SIZE
  kpdir_aligned : L.kpdir % PAGE_SIZE = 0
  kpdir_in : K.base ≤ L.kpdir ∧ L.kpdir + PAGE_SIZE ≤ K.base + K.size
  kptable_aligned : L.kptable % PAGE_SIZE = 0
  kptable_in : K.base ≤ L.kptable ∧ L.kptable + 256 * PAGE_SIZE ≤ K.base + K.size
  apart : L.kpdir + PAGE_SIZE ≤ L.kptable ∨ L.kptable + 256 * PAGE_SIZE ≤ L.kpdir
  high_absent : ∀ j, 256 ≤ j → j < 1024 → (pde s L.kpdir j).Present = false
  modules_ok : ∀ m, m ∈ multiboot.modules →
    m.base % PAGE_SIZE = 0 ∧ m.base + m.size ≤ WORD ∧ m.size + PAGE_SIZE ≤ WORD

/-- The first part of `memory_initialize` (lines 23-51 of `Memory.c`): the bitmap is
filled, the kernel directory set up, the `AVAILABLE` entries freed and the
counters set. -/
def boot_prepared (L : Layout) (s : Kernel) (multiboot : Multiboot) : Kernel :=
  { free_available
      (setup_kernel_directory L
        { s with MEMORY := fun f => if f < 1024 * 1024 then true else s.MEMORY f })
      multiboot.memory_map with
    USED_MEMORY := 0, TOTAL_MEMORY := multiboot.memory_usable }

/-- The last part of `memory_initialize` (lines 62-73 of `Memory.c`): page 0 is
unmapped, frame 0 marked used, and the subsystem flagged as initialized. -/
def boot_finish (L : Layout) (s : Kernel) : Kernel :=
  { physical_set_used (virtual_unmap s L.kpdir 0 1) 0 1 with initialized := true }

/-- What holds of the kernel directory from the moment the kernel image is mapped:
it is well formed, its entries 0..255 are those written at boot, no other entry
uses frame 0 as its page table, the counters are those set at boot, and every free
frame is covered by an `AVAILABLE` entry of the memory map. -/
structure Booted (L : Layout) (multiboot : Multiboot) (s : Kernel) : Prop where
  wf : WF s L.kpdir
  low : ∀ i, i < 256 → pde s L.kpdir i = kernel_entry L i
  high : ∀ j, 256 ≤ j → j < 1024 → (pde s L.kpdir j).Present = true →
    1 ≤ (pde s L.kpdir j).PageFrameNumber
  used : s.USED_MEMORY = 0
  total : s.TOTAL_MEMORY = multiboot.memory_usable
  free : ∀ f, f < 1024 * 1024 → s.MEMORY f = false →
    ∃ e, e ∈ multiboot.memory_map ∧ e.type = MemoryMapEntryType.AVAILABLE ∧ covers e.range f

/-- The state at power-on for `layout0`: the bitmap, the counters and the static
paging structures are zero. -/
def zeroState : Kernel :=
  { MEMORY := fun _ => false, USED_MEMORY := 0, TOTAL_MEMORY := 0,
    pages := fun _ _ => Entry.zero, depth := 0, initialized := false }

/-- The kernel image for `layout0`: the 257 pages from `0x100000` on, which hold
`kpdir` and `kptable`. -/
def kernel0 : MemoryRange := ⟨0x100000, 0x101000⟩

/-- A boot input with two `AVAILABLE` entries and a module in the first page of
memory, which covers address 0. -/
def multiboot0 : Multiboot :=
  { memory_map := [⟨⟨0, 0x9F000⟩, MemoryMapEntryType.AVAILABLE⟩,
      ⟨⟨0xF0000, 0x10000⟩, MemoryMapEntryType.RESERVED⟩,
      ⟨⟨0x100000, 0xF00000⟩, MemoryMapEntryType.AVAILABLE⟩],
    modules := [⟨0, 0x1000⟩],
    memory_usable := 0xF9F000 }

/-- A boot input as `multiboot0`, with its module right after the kernel image. -/
def multiboot1 : Multiboot :=
  { multiboot0 with modules := [⟨0x201000, 0x2000⟩] }

/-! ## Sequences of facade calls on one directory -/

/-- A call of the allocation facade on a given directory: `memory_alloc`,
`memory_alloc_identity_page`, `memory_map_eternal` or `memory_map`. -/
inductive Call where
  | alloc (size flags : Nat)
  | identity
  | map_eternal (base size : Nat)
  | map (addr count : Nat) (user : Bool)

/-- The result and the state after call `c` on the directory at `pdir`. -/
def Call.exec (pdir : Nat) (s : Kernel) : Call → Nat × Kernel
  | Call.alloc size flags => memory_alloc s pdir size flags
  | Call.identity => memory_alloc_identity_page s pdir
  | Call.map_eternal base size => memory_map_eternal s pdir base size
  | Call.map addr count user => memory_map s pdir addr count user

/-- The state after the calls `cs`, made one after the other on the directory at `pdir`. -/
def exec_calls (pdir : Nat) (s : Kernel) (cs : List Call) : Kernel :=
  cs.foldl (fun s c => (c.exec pdir s).2) s

/-- The body of the loop of `memory_map`, for page `i` of the range at `addr`. -/
def memory_map_page (pdir addr : Nat) (user : Bool) (s : Kernel) (i : Nat) : Kernel :=
  let vaddr := (addr + i * PAGE_SIZE) % WORD
  if !virtual_present s pdir vaddr 1 then
    let r := physical_alloc s 1
    virtual_map r.2 pdir vaddr r.1 1 user
  else s

/-- Every page table that `memory_map` needs while populating the `n` pages from
page `i` of the range at `addr` on is obtained (see `tables_obtained`); `s` is the
state at the start of iteration `i` of its loop. -/
def map_tables (pdir addr : Nat) (user : Bool) : Kernel → Nat → Nat → Prop
  | _, _, 0 => True
  | s, i, n + 1 =>
    (virtual_present s pdir ((addr + i * PAGE_SIZE) % WORD) 1 = false →
      tables_obtained (physical_alloc s 1).2 pdir ((addr + i * PAGE_SIZE) % WORD)
        (physical_alloc s 1).1 1 user) ∧
    map_tables pdir addr user (memory_map_page pdir addr user s i) (i + 1) n

/-- The conditions under which call `c` is analysed: the range of a mapping call
is page-aligned and lies in the address space, and every page table the call
needs is obtained. -/
def Call.ok (pdir : Nat) (s : Kernel) : Call → Prop
  | Call.alloc size flags =>
    (memory_alloc s pdir size flags).1 ≠ 0 →
      tables_obtained
        (physical_alloc (atomic_begin s) (PAGE_ALIGN_UP size / PAGE_SIZE)).2 pdir
        (memory_alloc s pdir size flags).1
        (physical_alloc (atomic_begin s) (PAGE_ALIGN_UP size / PAGE_SIZE)).1
        (PAGE_ALIGN_UP size / PAGE_SIZE) (flag_user flags)
  | Call.identity => True
  | Call.map_eternal base size =>
    base % PAGE_SIZE = 0 ∧ base + size ≤ WORD ∧ size + PAGE_SIZE ≤ WORD ∧
    tables_obtained (physical_set_used (atomic_begin s) base (PAGE_ALIGN_UP size / PAGE_SIZE))
      pdir base base (PAGE_ALIGN_UP size / PAGE_SIZE) false
  | Call.map addr count user =>
    addr % PAGE_SIZE = 0 ∧ addr / PAGE_SIZE + count ≤ PAGE_COUNT ∧
    map_tables pdir addr user (atomic_begin s) 0 count

/-- The condition `Call.ok` for each call of a sequence, in the state it is made in. -/
def calls_ok (pdir : Nat) : Kernel → List Call → Prop
  | _, [] => True
  | s, c :: cs => c.ok pdir s ∧ calls_ok pdir (c.exec pdir s).2 cs

/-- Whether `c` is one of the two allocating calls, `memory_alloc` or
`memory_alloc_identity_page`. -/
def Call.allocating : Call → Prop
  | Call.alloc _ _ => True
  | Call.identity => True
  | _ => False

/-- What a mapping call keeps, from the state `s` before it to the state `t`
after it: the directory is well formed, no bit of the bitmap is cleared, and no
present page stops being present. -/
structure Keep (s t : Kernel) (pdir : Nat) : Prop where
  wf : WF t pdir
  mem : ∀ f, s.MEMORY f = true → t.MEMORY f = true
  held : ∀ z, z < PAGE_COUNT → mapped s pdir z → mapped t pdir z

/-- The state `bootState` out of physical memory: every frame is marked used. -/
def noFrameState : Kernel :=
  { bootState with MEMORY := fun _ => true }

/-! # Theorems -/

/-! ## Basic facts about the first-fit scan -/

theorem runFree_iff (bm : Nat → Bool) (j c : Nat) :
    runFree bm j c = true ↔ ∀ k, k < c → bm (j + k) = false := by
  simp [runFree, List.all_eq_true]

theorem findRun_some {bm : Nat → Bool} {c : Nat} :
    ∀ {n i j : Nat}, findRun bm c n i = some j →
      i ≤ j ∧ j < i + n ∧ runFree bm j c = true := by
  intro n
  induction n with
  | zero => intro i j h; simp [findRun] at h
  | succ n ih =>
    intro i j h
    unfold findRun at h
    by_cases hr : runFree bm i c = true
    · rw [if_pos hr] at h
      cases h
      exact ⟨le_refl _, by omega, hr⟩
    · rw [if_neg hr] at h
      obtain ⟨h1, h2, h3⟩ := ih h
      exact ⟨by omega, by omega, h3⟩

theorem findRun_first {bm : Nat → Bool} {c : Nat} :
    ∀ {n i j : Nat}, findRun bm c n i = some j →
      ∀ m, i ≤ m → m < j → runFree bm m c = false := by
  intro n
  induction n with
  | zero => intro i j h; simp [findRun] at h
  | succ n ih =>
    intro i j h m hm hmj
    unfold findRun at h
    by_cases hr : runFree bm i c = true
    · rw [if_pos hr] at h
      cases h
      omega
    · rw [if_neg hr] at h
      by_cases hmi : m = i
      · subst hmi; simpa using hr
      · exact ih h m (by omega) hmj

theorem findRun_none {bm : Nat → Bool} {c : Nat} :
    ∀ {n i : Nat}, findRun bm c n i = none →
      ∀ m, i ≤ m → m < i + n → runFree bm m c = false := by
  intro n
  induction n with
  | zero => intro i _ m h1 h2; omega
  | succ n ih =>
    intro i h m hm hmn
    unfold findRun at h
    by_cases hr : runFree bm i c = true
    · rw [if_pos hr] at h; cases h
    · rw [if_neg hr] at h
      by_cases hmi : m = i
      · subst hmi; simpa using hr
      · exact ih h m (by omega) (by omega)

theorem findRun_none_of_forall {bm : Nat → Bool} {c : Nat} :
    ∀ {n i : Nat}, (∀ m, i ≤ m → m < i + n → runFree bm m c = false) →
      findRun bm c n i = none := by
  intro n
  induction n with
  | zero => intro i _; rfl
  | succ n ih =>
    intro i h
    unfold findRun
    rw [if_neg (by rw [h i (le_refl _) (by omega)]; simp)]
    exact ih (fun m h1 h2 => h m (by omega) (by omega))

theorem setBits_restore (bm : Nat → Bool) (j c : Nat)
    (h : ∀ k, k < c → bm (j + k) = false) :
    setBits (setBits bm j c true) j c false = bm := by
  funext f
  unfold setBits
  by_cases hf : j ≤ f ∧ f < j + c
  · simp only [hf, and_self, if_true]
    have := h (f - j) (by omega)
    rw [show j + (f - j) = f by omega] at this
    exact this.symm
  · simp only [hf, if_false]

theorem used_restore (u c : Nat) (hu : u < WORD) :
    ((u + c) % WORD + WORD - c % WORD) % WORD = u := by
  unfold WORD at *
  omega

/-! ## Physical allocator -/

theorem physical_alloc_none {s : Kernel} {c : Nat}
    (h : findRun s.MEMORY c (FRAME_COUNT + 1 - c) 0 = none) :
    physical_alloc s c = (0, s) := by
  unfold physical_alloc; rw [h]

theorem physical_alloc_some {s : Kernel} {c i : Nat}
    (h : findRun s.MEMORY c (FRAME_COUNT + 1 - c) 0 = some i) :
    physical_alloc s c = (i * PAGE_SIZE, frames_taken s i c) := by
  unfold physical_alloc; rw [h]

/-- What a call of `physical_alloc` did, whatever it returned. -/
theorem physical_alloc_cases (s : Kernel) (c : Nat) :
    physical_alloc s c = (0, s) ∨
    ∃ i, findRun s.MEMORY c (FRAME_COUNT + 1 - c) 0 = some i ∧
      physical_alloc s c = (i * PAGE_SIZE, frames_taken s i c) := by
  cases h : findRun s.MEMORY c (FRAME_COUNT + 1 - c) 0 with
  | none => exact Or.inl (physical_alloc_none h)
  | some i => exact Or.inr ⟨i, rfl, physical_alloc_some h⟩

theorem mul_page_div (i : Nat) : i * PAGE_SIZE / PAGE_SIZE = i := by
  unfold PAGE_SIZE; omega

/-! ## Virtual allocator -/

theorem virtual_alloc_cases (s : Kernel) (pdir pa c : Nat) (user : Bool) :
    virtual_alloc s pdir pa c user = (0, s) ∨
    ∃ i, findRun (fun i => page_present s pdir (i * PAGE_SIZE)) c
          ((if user then 1024 * 1024 else 256 * 1024) + 1
            - (if user then 256 * 1024 else 1) - c)
          (if user then 256 * 1024 else 1) = some i ∧
      virtual_alloc s pdir pa c user =
        (i * PAGE_SIZE, virtual_map s pdir (i * PAGE_SIZE) pa c user) := by
  unfold virtual_alloc
  simp only
  cases h : findRun (fun i => page_present s pdir (i * PAGE_SIZE)) c
          ((if user then 1024 * 1024 else 256 * 1024) + 1
            - (if user then 256 * 1024 else 1) - c)
          (if user then 256 * 1024 else 1) with
  | none => exact Or.inl rfl
  | some i => exact Or.inr ⟨i, rfl, rfl⟩

theorem virtual_alloc_zero {s : Kernel} {pdir pa c : Nat} {user : Bool}
    (h : (virtual_alloc s pdir pa c user).1 = 0) :
    virtual_alloc s pdir pa c user = (0, s) := by
  rcases virtual_alloc_cases s pdir pa c user with h0 | ⟨i, hi, hv⟩
  · exact h0
  · exfalso
    rw [hv] at h
    have hlo := (findRun_some hi).1
    have : 1 ≤ i := by
      cases user <;> simp at hlo <;> omega
    simp only [PAGE_SIZE] at h
    omega

/-- C1: when `memory_alloc` fails because `size` is 0, because `physical_alloc` finds
no run of free frames, or because `physical_alloc` obtained frames at a non-zero
address and `virtual_alloc` then found no room, it returns 0 and the frame bitmap
and `USED_MEMORY` (a 32-bit counter) are exactly what they were before the call. -/
theorem memory_alloc_failure_restores (s : Kernel) (pdir size flags : Nat)
    (hu : s.USED_MEMORY < WORD)
    (h : size = 0 ∨
      findRun s.MEMORY (PAGE_ALIGN_UP size / PAGE_SIZE)
        (FRAME_COUNT + 1 - PAGE_ALIGN_UP size / PAGE_SIZE) 0 = none ∨
      ((physical_alloc (atomic_begin s) (PAGE_ALIGN_UP size / PAGE_SIZE)).1 ≠ 0 ∧
       (virtual_alloc (physical_alloc (atomic_begin s) (PAGE_ALIGN_UP size / PAGE_SIZE)).2 pdir
          (physical_alloc (atomic_begin s) (PAGE_ALIGN_UP size / PAGE_SIZE)).1
          (PAGE_ALIGN_UP size / PAGE_SIZE) (flag_user flags)).1 = 0)) :
    (memory_alloc s pdir size flags).1 = 0 ∧
    (memory_alloc s pdir size flags).2.MEMORY = s.MEMORY ∧
    (memory_alloc s pdir size flags).2.USED_MEMORY = s.USED_MEMORY := by
  by_cases hs : size = 0
  · simp [memory_alloc, hs]
  · rcases h with h | h | ⟨hp, hv⟩
    · exact absurd h hs
    · have hp : physical_alloc (atomic_begin s) (PAGE_ALIGN_UP size / PAGE_SIZE)
          = (0, atomic_begin s) := physical_alloc_none (s := atomic_begin s) h
      unfold memory_alloc
      simp only [hs, if_false, hp, if_true]
      exact ⟨trivial, rfl, rfl⟩
    · have hv0 := virtual_alloc_zero hv
      rcases physical_alloc_cases (atomic_begin s) (PAGE_ALIGN_UP size / PAGE_SIZE) with
        h0 | ⟨i, hi, ha⟩
      · rw [h0] at hp; exact absurd rfl hp
      · have hfree := (runFree_iff _ _ _).1 (findRun_some hi).2.2
        rw [ha] at hv0 hp
        simp only at hv0 hp
        unfold memory_alloc
        simp only [hs, if_false, ha, hv0, if_true, if_neg hp]
        refine ⟨trivial, ?_, ?_⟩
        · simp only [atomic_end, physical_free, mul_page_div, frames_taken]
          exact setBits_restore _ _ _ hfree
        · simp only [atomic_end, physical_free, atomic_begin, frames_taken]
          exact used_restore _ _ hu

theorem runFree_false_of_used {bm : Nat → Bool} {m c : Nat} (h : bm m = true) (hc : 0 < c) :
    runFree bm m c = false := by
  cases hr : runFree bm m c with
  | false => rfl
  | true =>
    have := (runFree_iff bm m c).1 hr 0 hc
    simp [h] at this

/-- When every page is present, `virtual_alloc` finds no room. -/
theorem virtual_alloc_no_room (s : Kernel) (pdir pa c : Nat) (user : Bool)
    (h : ∀ i, page_present s pdir (i * PAGE_SIZE) = true) (hc : 0 < c) :
    virtual_alloc s pdir pa c user = (0, s) := by
  unfold virtual_alloc
  simp only
  rw [findRun_none_of_forall (fun m _ _ => runFree_false_of_used (h m) hc)]

theorem physical_alloc_pages (s : Kernel) (c : Nat) :
    (physical_alloc s c).2.pages = s.pages := by
  rcases physical_alloc_cases s c with h | ⟨i, _, h⟩
  · rw [h]
  · rw [h]; rfl

theorem fullState_present (s : Kernel) (pdir v : Nat) (h : s.pages = fullState.pages) :
    page_present s pdir v = true := by
  simp [page_present, pde, pte, h, fullState]

/-- Witness for C1: one page is obtained at frame 1, no virtual room is found, and
the frame is given back. -/
theorem memory_alloc_failure_restores_witness :
    (memory_alloc fullState 0x100000 4096 0).1 = 0 ∧
    (memory_alloc fullState 0x100000 4096 0).2.MEMORY = fullState.MEMORY ∧
    (memory_alloc fullState 0x100000 4096 0).2.USED_MEMORY = fullState.USED_MEMORY :=
  memory_alloc_failure_restores fullState 0x100000 4096 0 (by decide)
    (Or.inr (Or.inr ⟨by decide, by
      rw [virtual_alloc_no_room
        (physical_alloc (atomic_begin fullState) (PAGE_ALIGN_UP 4096 / PAGE_SIZE)).2
        0x100000 _ _ _
        (fun i => fullState_present _ _ _ (physical_alloc_pages _ _)) (by decide)]⟩))

/-! ## `memory_free` -/

theorem atomic_end_begin (s : Kernel) : atomic_end (atomic_begin s) = s := by
  cases s
  simp [atomic_end, atomic_begin]

theorem virtual_present_atomic_begin (s : Kernel) (pdir addr count : Nat) :
    virtual_present (atomic_begin s) pdir addr count = virtual_present s pdir addr count := rfl

theorem virtual_present_iff (s : Kernel) (pdir addr count : Nat) :
    virtual_present s pdir addr count = true ↔
      ∀ k, k < count → page_present s pdir ((addr + k * PAGE_SIZE) % WORD) = true := by
  simp [virtual_present, List.all_eq_true]

/-- C5: if at least one of the `count` pages starting at `addr` is not present,
`memory_free` changes nothing: the whole state (bitmap, `USED_MEMORY`, every
page-table entry) is as before the call. -/
theorem memory_free_partial_noop (s : Kernel) (pdir addr count : Nat)
    (h : ∃ k, k < count ∧ page_present s pdir ((addr + k * PAGE_SIZE) % WORD) = false) :
    memory_free s pdir addr count = s := by
  obtain ⟨k, hk, hp⟩ := h
  have hv : virtual_present (atomic_begin s) pdir addr count = false := by
    cases hvp : virtual_present (atomic_begin s) pdir addr count with
    | false => rfl
    | true =>
      have := (virtual_present_iff _ _ _ _).1 hvp k hk
      rw [show page_present (atomic_begin s) pdir ((addr + k * PAGE_SIZE) % WORD)
            = page_present s pdir ((addr + k * PAGE_SIZE) % WORD) from rfl, hp] at this
      cases this
  unfold memory_free
  simp only [hv]
  exact atomic_end_begin s

/-- Witness for C5: pages 511 and 512 of the kernel image are present, page 513 is
not, and freeing the three pages changes nothing. -/
theorem memory_free_partial_noop_witness :
    (∃ k, k < 3 ∧ page_present bootState 0x100000 ((0x1FF000 + k * PAGE_SIZE) % WORD) = false) ∧
    memory_free bootState 0x100000 0x1FF000 3 = bootState :=
  ⟨⟨2, by decide, by decide⟩,
   memory_free_partial_noop bootState 0x100000 0x1FF000 3 ⟨2, by decide, by decide⟩⟩

/-- C4 (the code at a failing input): `memory_map` populates the two pages at
`0x1000` page by page with the frames 5 and 9; the range is then fully present,
and `memory_free` of the two pages clears the bits of frames 5 and 6: frame 9,
which backed the second page, stays marked used, frame 6, which backed no page of
the range, is cleared, and both pages are unmapped. -/
theorem memory_free_nonconsecutive_frames :
    virtual_present (memory_map fragState 0x100000 0x1000 2 false).2 0x100000 0x1000 2 = true ∧
    virtual2physical (memory_map fragState 0x100000 0x1000 2 false).2 0x100000 0x1000 = 0x5000 ∧
    virtual2physical (memory_map fragState 0x100000 0x1000 2 false).2 0x100000 0x2000 = 0x9000 ∧
    (memory_map fragState 0x100000 0x1000 2 false).2.MEMORY 6 = true ∧
    (memory_free (memory_map fragState 0x100000 0x1000 2 false).2 0x100000 0x1000 2).MEMORY 5 = false ∧
    (memory_free (memory_map fragState 0x100000 0x1000 2 false).2 0x100000 0x1000 2).MEMORY 6 = false ∧
    (memory_free (memory_map fragState 0x100000 0x1000 2 false).2 0x100000 0x1000 2).MEMORY 9 = true ∧
    page_present (memory_free (memory_map fragState 0x100000 0x1000 2 false).2 0x100000 0x1000 2)
      0x100000 0x1000 = false ∧
    page_present (memory_free (memory_map fragState 0x100000 0x1000 2 false).2 0x100000 0x1000 2)
      0x100000 0x2000 = false := by
  decide

/-! ## `memory_pdir_create` -/

theorem writeEntry_pages (s : Kernel) (n i : Nat) (e : Entry) (m j : Nat) :
    (writeEntry s n i e).pages m j = if m = n ∧ j = i then e else s.pages m j := rfl

theorem fill_entries_pages (L : Layout) (pdir : Nat) (m : Nat) (s : Kernel) (n i : Nat) :
    ((List.range m).foldl
        (fun s i => writeEntry s (pdir / PAGE_SIZE) i (kernel_entry L i)) s).pages n i =
      if n = pdir / PAGE_SIZE ∧ i < m then kernel_entry L i else s.pages n i := by
  induction m with
  | zero => simp
  | succ m ih =>
    rw [List.range_succ, List.foldl_append]
    simp only [List.foldl_cons, List.foldl_nil]
    rw [writeEntry_pages, ih]
    by_cases hn : n = pdir / PAGE_SIZE
    · by_cases hi : i = m
      · subst hi; simp [hn]
      · by_cases hlt : i < m
        · simp [hn, hi, hlt, Nat.lt_succ_of_lt hlt]
        · have : ¬ i < m + 1 := by omega
          simp [hn, hi, hlt, this]
    · simp [hn]

theorem fill_kernel_entries_pages (L : Layout) (s : Kernel) (pdir n i : Nat) :
    (fill_kernel_entries L s pdir).pages n i =
      if n = pdir / PAGE_SIZE ∧ i < 256 then kernel_entry L i else s.pages n i :=
  fill_entries_pages L pdir 256 s n i

theorem setup_kernel_directory_pde (L : Layout) (s : Kernel) (i : Nat) (hi : i < 256) :
    pde (setup_kernel_directory L s) L.kpdir i = kernel_entry L i := by
  simp [pde, setup_kernel_directory, fill_kernel_entries_pages, hi]

/-- C6: when `memory_pdir_create` succeeds, each entry `i < 256` of the new
directory is present, writable, non-user and carries the page-table frame number
`&kptable[i] / PAGE_SIZE`, the one `memory_initialize` stores in entry `i` of the
kernel directory; every entry in 256..1023 is not present. -/
theorem memory_pdir_create_entries (L : Layout) (s : Kernel)
    (h : (memory_pdir_create L s).1 ≠ 0) :
    (∀ i, i < 256 →
      (pde (memory_pdir_create L s).2 (memory_pdir_create L s).1 i).Present = true ∧
      (pde (memory_pdir_create L s).2 (memory_pdir_create L s).1 i).Write = true ∧
      (pde (memory_pdir_create L s).2 (memory_pdir_create L s).1 i).User = false ∧
      ∀ s0 : Kernel,
        (pde (memory_pdir_create L s).2 (memory_pdir_create L s).1 i).PageFrameNumber =
          (pde (setup_kernel_directory L s0) L.kpdir i).PageFrameNumber) ∧
    (∀ i, 256 ≤ i → i < 1024 →
      (pde (memory_pdir_create L s).2 (memory_pdir_create L s).1 i).Present = false) := by
  have hr : (memory_alloc (atomic_begin s) L.kpdir PAGE_SIZE MEMORY_CLEAR).1 ≠ 0 := by
    intro h0
    apply h
    unfold memory_pdir_create
    simp only [h0, if_true]
  have hc : memory_pdir_create L s =
      ((memory_alloc (atomic_begin s) L.kpdir PAGE_SIZE MEMORY_CLEAR).1,
        atomic_end (fill_kernel_entries L
          (memset_zero (memory_alloc (atomic_begin s) L.kpdir PAGE_SIZE MEMORY_CLEAR).2
            (memory_alloc (atomic_begin s) L.kpdir PAGE_SIZE MEMORY_CLEAR).1 1)
          (memory_alloc (atomic_begin s) L.kpdir PAGE_SIZE MEMORY_CLEAR).1)) := by
    unfold memory_pdir_create
    simp only [if_neg hr]
  rw [hc]
  simp only
  generalize (memory_alloc (atomic_begin s) L.kpdir PAGE_SIZE MEMORY_CLEAR).1 = pdir
  generalize (memory_alloc (atomic_begin s) L.kpdir PAGE_SIZE MEMORY_CLEAR).2 = s1
  constructor
  · intro i hi
    have he : pde (atomic_end (fill_kernel_entries L (memset_zero s1 pdir 1) pdir)) pdir i
        = kernel_entry L i := by
      simp [pde, atomic_end, fill_kernel_entries_pages, hi]
    rw [he]
    refine ⟨rfl, rfl, rfl, ?_⟩
    intro s0
    rw [setup_kernel_directory_pde L s0 i hi]
  · intro i hi _
    have he : pde (atomic_end (fill_kernel_entries L (memset_zero s1 pdir 1) pdir)) pdir i
        = Entry.zero := by
      have : ¬ i < 256 := by omega
      simp [pde, atomic_end, fill_kernel_entries_pages, this, memset_zero]
    rw [he]
    rfl

/-- Witness for C6: creating a directory in `bootState` succeeds with the directory at `0x1000`. -/
theorem memory_pdir_create_entries_witness :
    (memory_pdir_create layout0 bootState).1 ≠ 0 ∧
    (∀ i, i < 256 →
      (pde (memory_pdir_create layout0 bootState).2 (memory_pdir_create layout0 bootState).1 i).Present = true ∧
      (pde (memory_pdir_create layout0 bootState).2 (memory_pdir_create layout0 bootState).1 i).Write = true ∧
      (pde (memory_pdir_create layout0 bootState).2 (memory_pdir_create layout0 bootState).1 i).User = false ∧
      ∀ s0 : Kernel,
        (pde (memory_pdir_create layout0 bootState).2 (memory_pdir_create layout0 bootState).1 i).PageFrameNumber =
          (pde (setup_kernel_directory layout0 s0) layout0.kpdir i).PageFrameNumber) ∧
    (∀ i, 256 ≤ i → i < 1024 →
      (pde (memory_pdir_create layout0 bootState).2 (memory_pdir_create layout0 bootState).1 i).Present = false) :=
  ⟨by decide, memory_pdir_create_entries layout0 bootState (by decide)⟩

/-! ## Address arithmetic -/

theorem PD_INDEX_page (x : Nat) : PD_INDEX (x * PAGE_SIZE) = x / 1024 := by
  unfold PD_INDEX PAGE_SIZE; omega

theorem PT_INDEX_page (x : Nat) : PT_INDEX (x * PAGE_SIZE) = x % 1024 := by
  unfold PT_INDEX PAGE_SIZE; omega

theorem page_add_mod (x k : Nat) (h : x + k < PAGE_COUNT) :
    (x * PAGE_SIZE + k * PAGE_SIZE) % WORD = (x + k) * PAGE_SIZE := by
  unfold PAGE_COUNT at h
  unfold PAGE_SIZE WORD; omega

theorem page_index_lt {x : Nat} (h : x < PAGE_COUNT) : x / 1024 < 1024 := by
  unfold PAGE_COUNT at h; omega

theorem page_split_inj {x z : Nat} (h1 : x / 1024 = z / 1024) (h2 : x % 1024 = z % 1024) :
    x = z := by omega

/-! ## Reading the paging structures -/

theorem pde_def (s : Kernel) (pdir j : Nat) : pde s pdir j = s.pages (pdir / PAGE_SIZE) j := rfl

theorem pte_page (s : Kernel) (pdir x : Nat) :
    pte s pdir (x * PAGE_SIZE) = s.pages (pde s pdir (x / 1024)).PageFrameNumber (x % 1024) := by
  unfold pte; rw [PD_INDEX_page, PT_INDEX_page]

theorem page_present_page (s : Kernel) (pdir x : Nat) :
    page_present s pdir (x * PAGE_SIZE) =
      ((pde s pdir (x / 1024)).Present &&
        (s.pages (pde s pdir (x / 1024)).PageFrameNumber (x % 1024)).Present) := by
  unfold page_present; rw [pte_page, PD_INDEX_page]

theorem mapped_iff (s : Kernel) (pdir x : Nat) :
    mapped s pdir x ↔ (pde s pdir (x / 1024)).Present = true ∧
        (s.pages (pde s pdir (x / 1024)).PageFrameNumber (x % 1024)).Present = true := by
  unfold mapped; rw [page_present_page]; simp

/-- Two states with the same page contents have the same present pages. -/
theorem page_present_congr {s t : Kernel} (h : s.pages = t.pages) (pdir v : Nat) :
    page_present s pdir v = page_present t pdir v := by
  unfold page_present pte pde; rw [h]

theorem WF_congr {s t : Kernel} (h : s.pages = t.pages) {pdir : Nat} (w : WF s pdir) :
    WF t pdir := by
  have hp : ∀ v, page_present t pdir v = page_present s pdir v :=
    fun v => (page_present_congr h pdir v).symm
  have hd : ∀ j, pde t pdir j = pde s pdir j := fun j => by unfold pde; rw [h]
  constructor
  · intro j hj; rw [hd]; exact w.low j hj
  · unfold mapped; rw [hp]; exact w.dir_mapped
  · exact w.dir_lt
  · intro j hj hpj; rw [hd] at hpj ⊢; exact w.table_lt j hj hpj
  · intro j hj hpj; rw [hd] at hpj ⊢; unfold mapped; rw [hp]; exact w.table_mapped j hj hpj
  · intro j hj hpj; rw [hd] at hpj ⊢; exact w.table_ne_dir j hj hpj
  · intro j k hj hk hpj hpk; rw [hd] at hpj; rw [hd] at hpk; rw [hd, hd]
    exact w.table_inj j k hj hk hpj hpk

/-! ## Writes that keep a directory well formed -/

/-- Two states whose directory page and page-table pages hold the same entries
show the same directory, the same translations and the same present pages. -/
theorem same_view {s t : Kernel} {pdir : Nat} (w : WF s pdir)
    (hd : ∀ j, t.pages (pdir / PAGE_SIZE) j = s.pages (pdir / PAGE_SIZE) j)
    (ht : ∀ j, j < 1024 → (pde s pdir j).Present = true →
      ∀ i, t.pages (pde s pdir j).PageFrameNumber i = s.pages (pde s pdir j).PageFrameNumber i) :
    (∀ j, pde t pdir j = pde s pdir j) ∧
    (∀ z, z < PAGE_COUNT → (mapped t pdir z ↔ mapped s pdir z)) ∧
    (∀ z, z < PAGE_COUNT → (pde s pdir (z / 1024)).Present = true →
      pte t pdir (z * PAGE_SIZE) = pte s pdir (z * PAGE_SIZE)) ∧
    WF t pdir := by
  have h1 : ∀ j, pde t pdir j = pde s pdir j := fun j => hd j
  have h3 : ∀ z, z < PAGE_COUNT → (pde s pdir (z / 1024)).Present = true →
      pte t pdir (z * PAGE_SIZE) = pte s pdir (z * PAGE_SIZE) := by
    intro z hz hp
    rw [pte_page, pte_page, h1]
    exact ht _ (page_index_lt hz) hp _
  have h2 : ∀ z, z < PAGE_COUNT → (mapped t pdir z ↔ mapped s pdir z) := by
    intro z hz
    rw [mapped_iff, mapped_iff, h1]
    constructor
    · rintro ⟨a, b⟩
      exact ⟨a, by rw [← ht _ (page_index_lt hz) a]; exact b⟩
    · rintro ⟨a, b⟩
      exact ⟨a, by rw [ht _ (page_index_lt hz) a]; exact b⟩
  refine ⟨h1, h2, h3, ?_⟩
  constructor
  · intro j hj; rw [h1]; exact w.low j hj
  · exact (h2 _ w.dir_lt).2 w.dir_mapped
  · exact w.dir_lt
  · intro j hj hp; rw [h1] at hp ⊢; exact w.table_lt j hj hp
  · intro j hj hp; rw [h1] at hp ⊢
    exact (h2 _ (w.table_lt j hj hp)).2 (w.table_mapped j hj hp)
  · intro j hj hp; rw [h1] at hp ⊢; exact w.table_ne_dir j hj hp
  · intro j k hj hk hpj hpk; rw [h1] at hpj; rw [h1] at hpk; rw [h1, h1]
    exact w.table_inj j k hj hk hpj hpk

/-- Writing a present entry into the table slot of page `x`, whose directory
entry is present: only the translation of page `x` changes. -/
theorem write_pte {s : Kernel} {pdir x : Nat} (w : WF s pdir) (hx : x < PAGE_COUNT)
    (hp : (pde s pdir (x / 1024)).Present = true) (e : Entry) (he : e.Present = true) :
    (∀ j, pde (writeEntry s (pde s pdir (x / 1024)).PageFrameNumber (x % 1024) e) pdir j
        = pde s pdir j) ∧
    pte (writeEntry s (pde s pdir (x / 1024)).PageFrameNumber (x % 1024) e) pdir (x * PAGE_SIZE)
        = e ∧
    (∀ z, z < PAGE_COUNT → z ≠ x → (pde s pdir (z / 1024)).Present = true →
      pte (writeEntry s (pde s pdir (x / 1024)).PageFrameNumber (x % 1024) e) pdir (z * PAGE_SIZE)
        = pte s pdir (z * PAGE_SIZE)) ∧
    (∀ z, z < PAGE_COUNT → mapped s pdir z →
      mapped (writeEntry s (pde s pdir (x / 1024)).PageFrameNumber (x % 1024) e) pdir z) ∧
    (∀ z, z < PAGE_COUNT → z ≠ x →
      mapped (writeEntry s (pde s pdir (x / 1024)).PageFrameNumber (x % 1024) e) pdir z →
      mapped s pdir z) ∧
    WF (writeEntry s (pde s pdir (x / 1024)).PageFrameNumber (x % 1024) e) pdir := by
  have hne := w.table_ne_dir _ (page_index_lt hx) hp
  have h1 : ∀ j, pde (writeEntry s (pde s pdir (x / 1024)).PageFrameNumber (x % 1024) e) pdir j
        = pde s pdir j := by
    intro j
    rw [pde_def, writeEntry_pages, if_neg (fun h => hne h.1.symm)]
    rfl
  have h2 : pte (writeEntry s (pde s pdir (x / 1024)).PageFrameNumber (x % 1024) e) pdir
      (x * PAGE_SIZE) = e := by
    rw [pte_page, h1, writeEntry_pages, if_pos ⟨rfl, rfl⟩]
  have h3 : ∀ z, z < PAGE_COUNT → z ≠ x → (pde s pdir (z / 1024)).Present = true →
      pte (writeEntry s (pde s pdir (x / 1024)).PageFrameNumber (x % 1024) e) pdir (z * PAGE_SIZE)
        = pte s pdir (z * PAGE_SIZE) := by
    intro z hz hzx hpz
    rw [pte_page, pte_page, h1, writeEntry_pages, if_neg]
    rintro ⟨ha, hb⟩
    exact hzx (page_split_inj
      (w.table_inj _ _ (page_index_lt hz) (page_index_lt hx) hpz hp ha) hb)
  have h4 : ∀ z, z < PAGE_COUNT → mapped s pdir z →
      mapped (writeEntry s (pde s pdir (x / 1024)).PageFrameNumber (x % 1024) e) pdir z := by
    intro z hz hm
    by_cases hzx : z = x
    · subst hzx
      unfold mapped page_present
      rw [h2, PD_INDEX_page, h1, hp, he]; rfl
    · have hpz := ((mapped_iff s pdir z).1 hm).1
      unfold mapped page_present at hm ⊢
      rw [h3 z hz hzx hpz, PD_INDEX_page, h1]
      rw [PD_INDEX_page] at hm
      exact hm
  have h5 : ∀ z, z < PAGE_COUNT → z ≠ x →
      mapped (writeEntry s (pde s pdir (x / 1024)).PageFrameNumber (x % 1024) e) pdir z →
      mapped s pdir z := by
    intro z hz hzx hm
    unfold mapped page_present at hm ⊢
    rw [PD_INDEX_page, h1] at hm
    rw [PD_INDEX_page]
    have hpz : (pde s pdir (z / 1024)).Present = true := by
      cases hq : (pde s pdir (z / 1024)).Present with
      | true => rfl
      | false => rw [hq] at hm; simp at hm
    rw [h3 z hz hzx hpz] at hm
    exact hm
  refine ⟨h1, h2, h3, h4, h5, ?_⟩
  constructor
  · intro j hj; rw [h1]; exact w.low j hj
  · exact h4 _ w.dir_lt w.dir_mapped
  · exact w.dir_lt
  · intro j hj hq; rw [h1] at hq ⊢; exact w.table_lt j hj hq
  · intro j hj hq; rw [h1] at hq ⊢
    exact h4 _ (w.table_lt j hj hq) (w.table_mapped j hj hq)
  · intro j hj hq; rw [h1] at hq ⊢; exact w.table_ne_dir j hj hq
  · intro j k hj hk hpj hpk; rw [h1] at hpj; rw [h1] at hpk; rw [h1, h1]
    exact w.table_inj j k hj hk hpj hpk

/-! ## The scan of `memory_alloc_identity_page` -/

theorem physical_is_used_one (s : Kernel) (i : Nat) :
    physical_is_used s (i * PAGE_SIZE) 1 = s.MEMORY i := by
  simp [physical_is_used, mul_page_div, List.range_succ]

theorem findIdentity_congr {s t : Kernel} {pdir : Nat} (hp : s.pages = t.pages)
    (hm : s.MEMORY = t.MEMORY) :
    ∀ n i, findIdentity s pdir n i = findIdentity t pdir n i := by
  intro n
  induction n with
  | zero => intro i; rfl
  | succ n ih =>
    intro i
    unfold findIdentity
    rw [ih, page_present_congr hp, physical_is_used_one, physical_is_used_one, hm]

theorem findIdentity_some {s : Kernel} {pdir : Nat} :
    ∀ {n i j : Nat}, findIdentity s pdir n i = some j →
      i ≤ j ∧ j < i + n ∧ candidate s pdir j = true ∧
      ∀ m, i ≤ m → m < j → candidate s pdir m = false := by
  intro n
  induction n with
  | zero => intro i j h; simp [findIdentity] at h
  | succ n ih =>
    intro i j h
    unfold findIdentity at h
    rw [physical_is_used_one] at h
    by_cases hc : candidate s pdir i = true
    · have hc2 := hc
      unfold candidate at hc2
      rw [if_pos hc2] at h
      cases h
      exact ⟨le_refl _, by omega, hc, fun m h1 h2 => by omega⟩
    · have hc2 := hc
      unfold candidate at hc2
      rw [if_neg hc2] at h
      obtain ⟨h1, h2, h3, h4⟩ := ih h
      refine ⟨by omega, by omega, h3, ?_⟩
      intro m hm hmj
      by_cases hmi : m = i
      · subst hmi; simpa using hc
      · exact h4 m (by omega) hmj

theorem findIdentity_none {s : Kernel} {pdir : Nat} :
    ∀ {n i : Nat}, findIdentity s pdir n i = none →
      ∀ m, i ≤ m → m < i + n → candidate s pdir m = false := by
  intro n
  induction n with
  | zero => intro i _ m h1 h2; omega
  | succ n ih =>
    intro i h m hm hmn
    unfold findIdentity at h
    rw [physical_is_used_one] at h
    by_cases hc : candidate s pdir i = true
    · have hc2 := hc
      unfold candidate at hc2
      rw [if_pos hc2] at h; cases h
    · have hc2 := hc
      unfold candidate at hc2
      rw [if_neg hc2] at h
      by_cases hmi : m = i
      · subst hmi; simpa using hc
      · exact ih h m (by omega) (by omega)

theorem findIdentity_of_candidates {s : Kernel} {pdir : Nat} :
    ∀ {n i : Nat}, (∀ m, i ≤ m → m < i + n → candidate s pdir m = false) →
      findIdentity s pdir n i = none := by
  intro n
  induction n with
  | zero => intro i _; rfl
  | succ n ih =>
    intro i h
    unfold findIdentity
    rw [physical_is_used_one]
    have hc := h i (le_refl _) (by omega)
    unfold candidate at hc
    rw [if_neg (by rw [hc]; simp)]
    exact ih (fun m h1 h2 => h m (by omega) (by omega))

/-! ## `virtual_map` of one page and `memory_alloc_identity_page` -/

theorem map_page_of_present (alloc : Kernel → Nat × Kernel) (s : Kernel)
    (pdir vaddr paddr : Nat) (user : Bool)
    (h : (pde s pdir (PD_INDEX vaddr)).Present = true) :
    map_page alloc s pdir vaddr paddr user =
      writeEntry s (pde s pdir (PD_INDEX vaddr)).PageFrameNumber (PT_INDEX vaddr)
        ⟨true, true, user, paddr / PAGE_SIZE⟩ := by
  unfold map_page
  simp only [h, if_true]

theorem virtual_map_with_one (alloc : Kernel → Nat × Kernel) (s : Kernel)
    (pdir vaddr paddr : Nat) (user : Bool) :
    virtual_map_with alloc s pdir vaddr paddr 1 user =
      map_page alloc s pdir (vaddr % WORD) (paddr % WORD) user := by
  simp [virtual_map_with, List.range_succ]

theorem page_mod_word {i : Nat} (h : i < PAGE_COUNT) : i * PAGE_SIZE % WORD = i * PAGE_SIZE := by
  unfold PAGE_COUNT at h
  unfold PAGE_SIZE WORD; omega

/-- The function `memory_alloc_identity_page` on a directory whose entries 0..255
are present: it makes no nested call. -/
theorem memory_alloc_identity_page_eq (s : Kernel) (pdir : Nat)
    (hlow : ∀ j, j < 256 → (pde s pdir j).Present = true) :
    memory_alloc_identity_page s pdir =
      match findIdentity s pdir (256 * 1024 - 1) 1 with
      | some i => (i * PAGE_SIZE, identity_state s pdir i)
      | none => (0, s) := by
  show memory_alloc_identity_page_fuel (262143 + 1) s pdir = _
  unfold memory_alloc_identity_page_fuel
  simp only
  rw [findIdentity_congr (s := atomic_begin s) (t := s) rfl rfl]
  cases hf : findIdentity s pdir (256 * 1024 - 1) 1 with
  | none => simp only; rw [atomic_end_begin]
  | some i =>
    simp only
    obtain ⟨h1, h2, _, _⟩ := findIdentity_some hf
    have hi : i < PAGE_COUNT := by unfold PAGE_COUNT; omega
    have hpd : (pde (physical_set_used (atomic_begin s) (i * PAGE_SIZE) 1) pdir
        (PD_INDEX (i * PAGE_SIZE))).Present = true := by
      rw [PD_INDEX_page]
      exact hlow _ (by omega)
    rw [virtual_map_with_one, page_mod_word hi, map_page_of_present _ _ _ _ _ _ hpd]
    unfold identity_state
    rw [PD_INDEX_page, PT_INDEX_page, mul_page_div]
    rfl

theorem pde_congr {s t : Kernel} (h : s.pages = t.pages) (pdir j : Nat) :
    pde s pdir j = pde t pdir j := by
  unfold pde; rw [h]

theorem pte_congr {s t : Kernel} (h : s.pages = t.pages) (pdir v : Nat) :
    pte s pdir v = pte t pdir v := by
  unfold pte pde; rw [h]

theorem memset_zero_pages (s : Kernel) (addr count m j : Nat) :
    (memset_zero s addr count).pages m j =
      if addr / PAGE_SIZE ≤ m ∧ m < addr / PAGE_SIZE + count then Entry.zero else s.pages m j :=
  rfl

/-- A page that is not present is neither the directory page nor a page table of
a well-formed directory. -/
theorem unmapped_ne {s : Kernel} {pdir i : Nat} (w : WF s pdir) (hi : ¬ mapped s pdir i) :
    i ≠ pdir / PAGE_SIZE ∧
    ∀ j, j < 1024 → (pde s pdir j).Present = true → i ≠ (pde s pdir j).PageFrameNumber := by
  constructor
  · intro h; exact hi (h ▸ w.dir_mapped)
  · intro j hj hp h; exact hi (h ▸ w.table_mapped j hj hp)

/-- Zero-filling pages that hold neither the directory nor one of its page tables
changes nothing in the directory. -/
theorem memset_zero_view {s : Kernel} {pdir : Nat} (w : WF s pdir) (addr count : Nat)
    (h : ∀ m, addr / PAGE_SIZE ≤ m → m < addr / PAGE_SIZE + count →
      m ≠ pdir / PAGE_SIZE ∧
      ∀ j, j < 1024 → (pde s pdir j).Present = true → m ≠ (pde s pdir j).PageFrameNumber) :
    (∀ j, pde (memset_zero s addr count) pdir j = pde s pdir j) ∧
    (∀ z, z < PAGE_COUNT → (mapped (memset_zero s addr count) pdir z ↔ mapped s pdir z)) ∧
    (∀ z, z < PAGE_COUNT → (pde s pdir (z / 1024)).Present = true →
      pte (memset_zero s addr count) pdir (z * PAGE_SIZE) = pte s pdir (z * PAGE_SIZE)) ∧
    WF (memset_zero s addr count) pdir := by
  apply same_view w
  · intro j
    rw [memset_zero_pages, if_neg]
    rintro ⟨h1, h2⟩
    exact (h _ h1 h2).1 rfl
  · intro j hj hp i
    rw [memset_zero_pages, if_neg]
    rintro ⟨h1, h2⟩
    exact (h _ h1 h2).2 j hj hp rfl

theorem candidate_iff (s : Kernel) (pdir i : Nat) :
    candidate s pdir i = true ↔ ¬ mapped s pdir i ∧ s.MEMORY i = false := by
  unfold candidate mapped
  simp

/-- What `memory_alloc_identity_page` does to a well-formed directory when it picks
page `i`: frame `i` is marked used, page `i` is mapped onto itself, non-user, and
zero-filled; nothing else changes in the directory, which stays well formed. -/
theorem identity_state_spec {s : Kernel} {pdir i : Nat} (w : WF s pdir)
    (hi : i < 256 * 1024) (hc : candidate s pdir i = true) :
    (identity_state s pdir i).MEMORY = setBits s.MEMORY i 1 true ∧
    (identity_state s pdir i).USED_MEMORY = s.USED_MEMORY ∧
    (identity_state s pdir i).depth = s.depth ∧
    (∀ j, pde (identity_state s pdir i) pdir j = pde s pdir j) ∧
    pte (identity_state s pdir i) pdir (i * PAGE_SIZE) = ⟨true, true, false, i⟩ ∧
    (∀ z, z < PAGE_COUNT → z ≠ i → (pde s pdir (z / 1024)).Present = true →
      pte (identity_state s pdir i) pdir (z * PAGE_SIZE) = pte s pdir (z * PAGE_SIZE)) ∧
    (∀ z, z < PAGE_COUNT → mapped s pdir z → mapped (identity_state s pdir i) pdir z) ∧
    (∀ z, z < PAGE_COUNT → z ≠ i → mapped (identity_state s pdir i) pdir z → mapped s pdir z) ∧
    (∀ j, (identity_state s pdir i).pages i j = Entry.zero) ∧
    WF (identity_state s pdir i) pdir := by
  have hiP : i < PAGE_COUNT := by unfold PAGE_COUNT; omega
  have hnm := ((candidate_iff s pdir i).1 hc).1
  have hp : (pde s pdir (i / 1024)).Present = true := w.low _ (by omega)
  obtain ⟨a1, a2, a3, a4, a5, a6⟩ := write_pte w hiP hp ⟨true, true, false, i⟩ rfl
  have hne := unmapped_ne w hnm
  obtain ⟨b1, b2, b3, b4⟩ := memset_zero_view a6 (i * PAGE_SIZE) 1 (by
    intro m h1 h2
    rw [mul_page_div] at h1 h2
    have hm : m = i := by omega
    subst hm
    refine ⟨hne.1, fun j hj hpj => ?_⟩
    rw [a1 j] at hpj ⊢
    exact hne.2 j hj hpj)
  -- the pages of the result are those of the write followed by the zero-fill
  have hu : (identity_state s pdir i).pages =
      (memset_zero (writeEntry s (pde s pdir (i / 1024)).PageFrameNumber (i % 1024)
        ⟨true, true, false, i⟩) (i * PAGE_SIZE) 1).pages := rfl
  have hm : ∀ z, mapped (identity_state s pdir i) pdir z ↔
      mapped (memset_zero (writeEntry s (pde s pdir (i / 1024)).PageFrameNumber (i % 1024)
        ⟨true, true, false, i⟩) (i * PAGE_SIZE) 1) pdir z := by
    intro z; unfold mapped; rw [page_present_congr hu]
  refine ⟨?_, rfl, ?_, ?_, ?_, ?_, ?_, ?_, ?_, WF_congr hu.symm b4⟩
  · simp [identity_state, memset_zero, atomic_end, writeEntry, physical_set_used, atomic_begin,
      mul_page_div]
  · simp [identity_state, memset_zero, atomic_end, writeEntry, physical_set_used, atomic_begin]
  · intro j; rw [pde_congr hu]; exact (b1 j).trans (a1 j)
  · rw [pte_congr hu]; exact (b3 i hiP (by rw [a1]; exact hp)).trans a2
  · intro z hz hzi hpz
    rw [pte_congr hu]
    exact (b3 z hz (by rw [a1]; exact hpz)).trans (a3 z hz hzi hpz)
  · intro z hz hmz
    exact (hm z).2 ((b2 z hz).2 (a4 z hz hmz))
  · intro z hz hzi hmz
    exact a5 z hz hzi ((b2 z hz).1 ((hm z).1 hmz))
  · intro j
    rw [hu, memset_zero_pages, mul_page_div, if_pos ⟨le_refl _, by omega⟩]

theorem kernel_entry_frame (i : Nat) (hi : i < 256) :
    (kernel_entry layout0 i).PageFrameNumber = 257 + i := by
  simp only [kernel_entry, layout0, PAGE_SIZE, WORD]
  omega

theorem bootState_pde (j : Nat) :
    pde bootState 0x100000 j = if j < 256 then kernel_entry layout0 j else Entry.zero := by
  simp [pde, bootState, PAGE_SIZE]

theorem bootState_mapped {x : Nat} (h1 : 256 ≤ x) (h2 : x ≤ 512) :
    mapped bootState 0x100000 x := by
  rw [mapped_iff]
  have hx : x / 1024 = 0 := by omega
  have hm : x % 1024 = x := by omega
  rw [hx, hm, bootState_pde, if_pos (by omega), kernel_entry_frame 0 (by omega)]
  refine ⟨rfl, ?_⟩
  simp [bootState, h1, h2]

/-- The state `bootState` is well formed for the kernel directory. -/
theorem bootState_WF : WF bootState 0x100000 := by
  constructor
  · intro j hj; rw [bootState_pde, if_pos hj]; rfl
  · exact bootState_mapped (by decide) (by decide)
  · decide
  · intro j hj hp
    rw [bootState_pde] at hp ⊢
    by_cases h : j < 256
    · rw [if_pos h, kernel_entry_frame j h]; unfold PAGE_COUNT; omega
    · rw [if_neg h] at hp; cases hp
  · intro j hj hp
    rw [bootState_pde] at hp ⊢
    by_cases h : j < 256
    · rw [if_pos h, kernel_entry_frame j h]; exact bootState_mapped (by omega) (by omega)
    · rw [if_neg h] at hp; cases hp
  · intro j hj hp
    rw [bootState_pde] at hp ⊢
    by_cases h : j < 256
    · rw [if_pos h, kernel_entry_frame j h]; simp only [PAGE_SIZE]; omega
    · rw [if_neg h] at hp; cases hp
  · intro j k hj hk hpj hpk he
    rw [bootState_pde] at hpj hpk he
    rw [bootState_pde] at he
    by_cases h : j < 256
    · by_cases h' : k < 256
      · rw [if_pos h, if_pos h', kernel_entry_frame j h, kernel_entry_frame k h'] at he
        omega
      · rw [if_neg h'] at hpk; cases hpk
    · rw [if_neg h] at hpj; cases hpj

/-- C10: in a well-formed directory, when `memory_alloc_identity_page` returns a
non-zero address `a`, then `a = i * 4096` for the smallest `i` in 1..262143 whose
page was not present and whose frame was not marked used before the call;
afterwards frame `i` is marked used and page `a` is present, not user-accessible
and translates to `a` itself; `USED_MEMORY` is unchanged; `a` is not page 0. -/
theorem memory_alloc_identity_page_spec (s : Kernel) (pdir : Nat) (w : WF s pdir)
    (h : (memory_alloc_identity_page s pdir).1 ≠ 0) :
    ∃ i, 1 ≤ i ∧ i < 256 * 1024 ∧
      (memory_alloc_identity_page s pdir).1 = i * PAGE_SIZE ∧
      page_present s pdir (i * PAGE_SIZE) = false ∧ s.MEMORY i = false ∧
      (∀ m, 1 ≤ m → m < i →
        page_present s pdir (m * PAGE_SIZE) = true ∨ s.MEMORY m = true) ∧
      (memory_alloc_identity_page s pdir).2.MEMORY i = true ∧
      page_present (memory_alloc_identity_page s pdir).2 pdir (i * PAGE_SIZE) = true ∧
      (pte (memory_alloc_identity_page s pdir).2 pdir (i * PAGE_SIZE)).User = false ∧
      virtual2physical (memory_alloc_identity_page s pdir).2 pdir (i * PAGE_SIZE)
        = i * PAGE_SIZE ∧
      (memory_alloc_identity_page s pdir).2.USED_MEMORY = s.USED_MEMORY ∧
      (memory_alloc_identity_page s pdir).1 / PAGE_SIZE ≠ 0 := by
  rw [memory_alloc_identity_page_eq s pdir w.low] at h ⊢
  cases hf : findIdentity s pdir (256 * 1024 - 1) 1 with
  | none => rw [hf] at h; exact absurd rfl h
  | some i =>
    simp only
    obtain ⟨h1, h2, h3, h4⟩ := findIdentity_some hf
    have hi : i < 256 * 1024 := by omega
    have hiP : i < PAGE_COUNT := by unfold PAGE_COUNT; omega
    obtain ⟨c1, c2⟩ := (candidate_iff s pdir i).1 h3
    obtain ⟨m1, m2, _, _, m5, _, m7, _, _, m10⟩ := identity_state_spec w hi h3
    have hmap : mapped (identity_state s pdir i) pdir i := by
      rw [mapped_iff]
      refine ⟨by rw [m10.low _ (by omega)], ?_⟩
      rw [← pte_page, m5]
    refine ⟨i, h1, hi, rfl, ?_, c2, ?_, ?_, hmap, ?_, ?_, m2, ?_⟩
    · unfold mapped at c1; simpa using c1
    · intro m hm1 hm2
      have := h4 m hm1 hm2
      unfold candidate at this
      cases hpm : page_present s pdir (m * PAGE_SIZE) with
      | true => exact Or.inl rfl
      | false =>
        right
        rw [hpm] at this
        simpa using this
    · rw [m1]; simp [setBits]
    · rw [m5]
    · unfold virtual2physical
      rw [m5]
      simp only
      have : i * PAGE_SIZE % PAGE_SIZE = 0 := by unfold PAGE_SIZE; omega
      rw [this, Nat.add_zero, page_mod_word hiP]
    · rw [mul_page_div]; omega

/-- Witness for C10: in `bootState` the identity page handed out is page 1. -/
theorem memory_alloc_identity_page_spec_witness :
    (memory_alloc_identity_page bootState 0x100000).1 ≠ 0 ∧
    ∃ i, 1 ≤ i ∧ i < 256 * 1024 ∧
      (memory_alloc_identity_page bootState 0x100000).1 = i * PAGE_SIZE ∧
      page_present bootState 0x100000 (i * PAGE_SIZE) = false ∧ bootState.MEMORY i = false ∧
      (∀ m, 1 ≤ m → m < i →
        page_present bootState 0x100000 (m * PAGE_SIZE) = true ∨ bootState.MEMORY m = true) ∧
      (memory_alloc_identity_page bootState 0x100000).2.MEMORY i = true ∧
      page_present (memory_alloc_identity_page bootState 0x100000).2 0x100000 (i * PAGE_SIZE)
        = true ∧
      (pte (memory_alloc_identity_page bootState 0x100000).2 0x100000 (i * PAGE_SIZE)).User
        = false ∧
      virtual2physical (memory_alloc_identity_page bootState 0x100000).2 0x100000 (i * PAGE_SIZE)
        = i * PAGE_SIZE ∧
      (memory_alloc_identity_page bootState 0x100000).2.USED_MEMORY = bootState.USED_MEMORY ∧
      (memory_alloc_identity_page bootState 0x100000).1 / PAGE_SIZE ≠ 0 :=
  ⟨by decide, memory_alloc_identity_page_spec bootState 0x100000 bootState_WF (by decide)⟩

/-- Installing a zero-filled page table `i` in the directory entry `j`, which was
not present: no page becomes present and no translation changes. -/
theorem write_pde {s : Kernel} {pdir j i : Nat} (w : WF s pdir)
    (hnp : (pde s pdir j).Present = false) (hi : i < PAGE_COUNT) (him : mapped s pdir i)
    (hiD : i ≠ pdir / PAGE_SIZE)
    (hiT : ∀ k, k < 1024 → (pde s pdir k).Present = true → i ≠ (pde s pdir k).PageFrameNumber)
    (hz : ∀ q, s.pages i q = Entry.zero) :
    pde (writeEntry s (pdir / PAGE_SIZE) j ⟨true, true, true, i⟩) pdir j
      = ⟨true, true, true, i⟩ ∧
    (∀ k, k ≠ j → pde (writeEntry s (pdir / PAGE_SIZE) j ⟨true, true, true, i⟩) pdir k
      = pde s pdir k) ∧
    (∀ z, z < PAGE_COUNT →
      (mapped (writeEntry s (pdir / PAGE_SIZE) j ⟨true, true, true, i⟩) pdir z ↔
        mapped s pdir z)) ∧
    (∀ z, z < PAGE_COUNT → (pde s pdir (z / 1024)).Present = true →
      pte (writeEntry s (pdir / PAGE_SIZE) j ⟨true, true, true, i⟩) pdir (z * PAGE_SIZE)
        = pte s pdir (z * PAGE_SIZE)) ∧
    WF (writeEntry s (pdir / PAGE_SIZE) j ⟨true, true, true, i⟩) pdir := by
  have h1 : pde (writeEntry s (pdir / PAGE_SIZE) j ⟨true, true, true, i⟩) pdir j
      = ⟨true, true, true, i⟩ := by
    rw [pde_def, writeEntry_pages, if_pos ⟨rfl, rfl⟩]
  have h2 : ∀ k, k ≠ j → pde (writeEntry s (pdir / PAGE_SIZE) j ⟨true, true, true, i⟩) pdir k
      = pde s pdir k := by
    intro k hk
    rw [pde_def, writeEntry_pages, if_neg (fun h => hk h.2)]
    rfl
  -- rows other than the directory page are unchanged
  have hrow : ∀ m q, m ≠ pdir / PAGE_SIZE →
      (writeEntry s (pdir / PAGE_SIZE) j ⟨true, true, true, i⟩).pages m q = s.pages m q := by
    intro m q hm
    rw [writeEntry_pages, if_neg (fun h => hm h.1)]
  have h4 : ∀ z, z < PAGE_COUNT → (pde s pdir (z / 1024)).Present = true →
      pte (writeEntry s (pdir / PAGE_SIZE) j ⟨true, true, true, i⟩) pdir (z * PAGE_SIZE)
        = pte s pdir (z * PAGE_SIZE) := by
    intro z hz' hp
    have hzj : z / 1024 ≠ j := by
      intro h; rw [h, hnp] at hp; cases hp
    rw [pte_page, pte_page, h2 _ hzj, hrow _ _ (w.table_ne_dir _ (page_index_lt hz') hp)]
  have h3 : ∀ z, z < PAGE_COUNT →
      (mapped (writeEntry s (pdir / PAGE_SIZE) j ⟨true, true, true, i⟩) pdir z ↔
        mapped s pdir z) := by
    intro z hz'
    rw [mapped_iff, mapped_iff]
    by_cases hzj : z / 1024 = j
    · rw [hzj, h1, hnp]
      simp only [hrow _ _ hiD, hz]
      simp [Entry.zero]
    · rw [h2 _ hzj]
      constructor
      · rintro ⟨a, b⟩
        refine ⟨a, ?_⟩
        rw [hrow _ _ (w.table_ne_dir _ (page_index_lt hz') a)] at b
        exact b
      · rintro ⟨a, b⟩
        refine ⟨a, ?_⟩
        rw [hrow _ _ (w.table_ne_dir _ (page_index_lt hz') a)]
        exact b
  refine ⟨h1, h2, h3, h4, ?_⟩
  have hpres : ∀ k, k < 1024 →
      (pde (writeEntry s (pdir / PAGE_SIZE) j ⟨true, true, true, i⟩) pdir k).Present = true →
      k = j ∨ (k ≠ j ∧ (pde s pdir k).Present = true) := by
    intro k _ hp
    by_cases hkj : k = j
    · exact Or.inl hkj
    · rw [h2 k hkj] at hp; exact Or.inr ⟨hkj, hp⟩
  constructor
  · intro k hk
    have hkj : k ≠ j := by
      intro h; have := w.low k hk; rw [h, hnp] at this; cases this
    rw [h2 k hkj]; exact w.low k hk
  · exact (h3 _ w.dir_lt).2 w.dir_mapped
  · exact w.dir_lt
  · intro k hk hp
    rcases hpres k hk hp with h | ⟨hkj, hpk⟩
    · rw [h, h1]; exact hi
    · rw [h2 k hkj]; exact w.table_lt k hk hpk
  · intro k hk hp
    rcases hpres k hk hp with h | ⟨hkj, hpk⟩
    · rw [h, h1]; exact (h3 _ hi).2 him
    · rw [h2 k hkj]; exact (h3 _ (w.table_lt k hk hpk)).2 (w.table_mapped k hk hpk)
  · intro k hk hp
    rcases hpres k hk hp with h | ⟨hkj, hpk⟩
    · rw [h, h1]; exact hiD
    · rw [h2 k hkj]; exact w.table_ne_dir k hk hpk
  · intro k l hk hl hpk hpl he
    rcases hpres k hk hpk with h | ⟨hkj, hpk'⟩
    · rcases hpres l hl hpl with h' | ⟨hlj, hpl'⟩
      · rw [h, h']
      · rw [h, h1, h2 l hlj] at he
        exact absurd he (hiT l hl hpl')
    · rcases hpres l hl hpl with h' | ⟨hlj, hpl'⟩
      · rw [h', h1, h2 k hkj] at he
        exact absurd he.symm (hiT k hk hpk')
      · rw [h2 k hkj, h2 l hlj] at he
        exact w.table_inj k l hk hl hpk' hpl' he

theorem map_page_of_absent (alloc : Kernel → Nat × Kernel) (s : Kernel)
    (pdir vaddr paddr : Nat) (user : Bool)
    (h : (pde s pdir (PD_INDEX vaddr)).Present = false) :
    map_page alloc s pdir vaddr paddr user =
      writeEntry
        (writeEntry (alloc s).2 (pdir / PAGE_SIZE) (PD_INDEX vaddr)
          ⟨true, true, true, (alloc s).1 / PAGE_SIZE⟩)
        (pde (writeEntry (alloc s).2 (pdir / PAGE_SIZE) (PD_INDEX vaddr)
          ⟨true, true, true, (alloc s).1 / PAGE_SIZE⟩) pdir (PD_INDEX vaddr)).PageFrameNumber
        (PT_INDEX vaddr) ⟨true, true, user, paddr / PAGE_SIZE⟩ := by
  unfold map_page
  simp [h]

theorem mapped_of_pte {s : Kernel} {pdir x : Nat}
    (hp : (pde s pdir (x / 1024)).Present = true)
    (he : (pte s pdir (x * PAGE_SIZE)).Present = true) : mapped s pdir x := by
  rw [mapped_iff, ← pte_page]; exact ⟨hp, he⟩

theorem pde_of_mapped {s : Kernel} {pdir x : Nat} (h : mapped s pdir x) :
    (pde s pdir (x / 1024)).Present = true := ((mapped_iff s pdir x).1 h).1

/-- One page of `virtual_map` on a well-formed directory, when the page table it
may need is obtained. -/
theorem map_page_step {s : Kernel} {pdir x : Nat} (y : Nat) (user : Bool) (w : WF s pdir)
    (hx : x < PAGE_COUNT)
    (hok : (pde s pdir (x / 1024)).Present = true ∨ (memory_alloc_identity_page s pdir).1 ≠ 0) :
    MapStep s
      (map_page (fun t => memory_alloc_identity_page t pdir) s pdir
        (x * PAGE_SIZE) (y * PAGE_SIZE) user)
      pdir x ⟨true, true, user, y⟩ := by
  by_cases hp : (pde s pdir (x / 1024)).Present = true
  · rw [map_page_of_present _ _ _ _ _ _ (by rw [PD_INDEX_page]; exact hp),
      PD_INDEX_page, PT_INDEX_page, mul_page_div]
    obtain ⟨a1, a2, a3, a4, a5, a6⟩ := write_pte w hx hp ⟨true, true, user, y⟩ rfl
    exact {
      wf := a6
      here := ⟨mapped_of_pte (by rw [a1]; exact hp) (by rw [a2]), a2⟩
      keep := fun z hz hzx hm => ⟨a4 z hz hm, a3 z hz hzx (pde_of_mapped hm)⟩
      fresh := fun z hz hm => by
        by_cases hzx : z = x
        · exact Or.inl hzx
        · exact Or.inr (Or.inl (a5 z hz hzx hm))
      mem := fun f hf => hf
      mem_new := fun f hf => Or.inl hf
      mem_eq := fun _ => rfl
      pde_keep := fun j _ => a1 j
      pde_new := fun j hj => Or.inl (by rw [a1 j] at hj; exact hj)
      used := rfl
      total := rfl
      depth := rfl }
  · have hnp : (pde s pdir (x / 1024)).Present = false := by
      cases h : (pde s pdir (x / 1024)).Present with
      | true => exact absurd h hp
      | false => rfl
    have hne : (memory_alloc_identity_page s pdir).1 ≠ 0 := by
      rcases hok with h | h
      · exact absurd h hp
      · exact h
    rw [map_page_of_absent _ _ _ _ _ _ (by rw [PD_INDEX_page]; exact hnp),
      PD_INDEX_page, PT_INDEX_page, mul_page_div]
    rw [memory_alloc_identity_page_eq s pdir w.low] at hne ⊢
    cases hf : findIdentity s pdir (256 * 1024 - 1) 1 with
    | none => rw [hf] at hne; exact absurd rfl hne
    | some i =>
      simp only
      rw [mul_page_div]
      obtain ⟨f1, f2, f3, _⟩ := findIdentity_some hf
      have hi : i < 256 * 1024 := by omega
      have hiP : i < PAGE_COUNT := by unfold PAGE_COUNT; omega
      obtain ⟨c1, c2⟩ := (candidate_iff s pdir i).1 f3
      obtain ⟨m1, m2, m3, m4, m5, m6, m7, m8, m9, m10⟩ := identity_state_spec w hi f3
      have hmi : mapped (identity_state s pdir i) pdir i :=
        mapped_of_pte (by rw [m4]; exact w.low _ (by omega)) (by rw [m5])
      have hne2 := unmapped_ne w c1
      obtain ⟨b1, b2, b3, b4, b5⟩ := write_pde (j := x / 1024) m10
        (by rw [m4]; exact hnp) hiP hmi hne2.1
        (fun k hk hpk => by rw [m4] at hpk ⊢; exact hne2.2 k hk hpk) m9
      have hp1 : (pde (writeEntry (identity_state s pdir i) (pdir / PAGE_SIZE) (x / 1024)
          ⟨true, true, true, i⟩) pdir (x / 1024)).Present = true := by rw [b1]
      obtain ⟨a1, a2, a3, a4, a5, a6⟩ := write_pte b5 hx hp1 ⟨true, true, user, y⟩ rfl
      exact {
        wf := a6
        here := ⟨mapped_of_pte (by rw [a1]; exact hp1) (by rw [a2]), a2⟩
        keep := fun z hz hzx hm => by
          have hzi : z ≠ i := fun h => c1 (h ▸ hm)
          have hm1 := m7 z hz hm
          have hm2 := (b3 z hz).2 hm1
          refine ⟨a4 z hz hm2, ?_⟩
          rw [a3 z hz hzx (pde_of_mapped hm2), b4 z hz (pde_of_mapped hm1),
            m6 z hz hzi (pde_of_mapped hm)]
        fresh := fun z hz hm => by
          by_cases hzx : z = x
          · exact Or.inl hzx
          · have hm1 := (b3 z hz).1 (a5 z hz hzx hm)
            by_cases hzi : z = i
            · exact Or.inr (Or.inr ⟨by omega, by omega, by rw [hzi]; exact c2⟩)
            · exact Or.inr (Or.inl (m8 z hz hzi hm1))
        mem := fun f hf => by
          show (identity_state s pdir i).MEMORY f = true
          rw [m1]; unfold setBits; split
          · rfl
          · exact hf
        mem_new := fun f hf => by
          have hf' : (identity_state s pdir i).MEMORY f = true := hf
          rw [m1] at hf'
          unfold setBits at hf'
          by_cases hfi : i ≤ f ∧ f < i + 1
          · have : f = i := by omega
            exact Or.inr ⟨by omega, by omega, by rw [this]; exact c1⟩
          · rw [if_neg hfi] at hf'; exact Or.inl hf'
        mem_eq := fun h => absurd h hp
        pde_keep := fun j hj => by
          have hjx : j ≠ x / 1024 := by
            intro h; rw [h, hnp] at hj; cases hj
          rw [a1 j, b2 j hjx, m4 j]
        pde_new := fun j hj => by
          by_cases hjx : j = x / 1024
          · right
            have hlow : 256 ≤ j := by
              by_contra hlt
              have := w.low j (by omega)
              rw [hjx, hnp] at this; cases this
            rw [a1 j, hjx, b1]
            exact ⟨rfl, hjx ▸ hlow, f1, hi, c2, c1⟩
          · left
            rw [a1 j, b2 j hjx, m4 j] at hj
            exact hj
        used := m2
        total := rfl
        depth := m3 }

/-! ## `virtual_map` of a range -/

theorem virtual_map_zero (s : Kernel) (pdir vaddr paddr : Nat) (user : Bool) :
    virtual_map s pdir vaddr paddr 0 user = s := rfl

theorem virtual_map_succ (s : Kernel) (pdir vaddr paddr n : Nat) (user : Bool) :
    virtual_map s pdir vaddr paddr (n + 1) user =
      map_page (fun t => memory_alloc_identity_page t pdir)
        (virtual_map s pdir vaddr paddr n user) pdir
        ((vaddr + n * PAGE_SIZE) % WORD) ((paddr + n * PAGE_SIZE) % WORD) user := by
  unfold virtual_map virtual_map_with
  rw [List.range_succ, List.foldl_append]
  rfl

theorem tables_obtained_succ {s : Kernel} {pdir vaddr paddr n : Nat} {user : Bool}
    (h : tables_obtained s pdir vaddr paddr (n + 1) user) :
    tables_obtained s pdir vaddr paddr n user ∧
    ((pde (virtual_map s pdir vaddr paddr n user) pdir
      (PD_INDEX ((vaddr + n * PAGE_SIZE) % WORD))).Present = true ∨
    (memory_alloc_identity_page (virtual_map s pdir vaddr paddr n user) pdir).1 ≠ 0) :=
  ⟨fun k hk => h k (Nat.lt_succ_of_lt hk), h n (Nat.lt_succ_self n)⟩

/-- The function `virtual_map` on a well-formed directory, when every page table
it needs is obtained: the `n` pages from page `x` on are mapped to the frames from
frame `y` on, and nothing else changes in the directory. -/
theorem virtual_map_range {s : Kernel} {pdir : Nat} (x y : Nat) (user : Bool) (w : WF s pdir) :
    ∀ n, x + n ≤ PAGE_COUNT → y + n ≤ PAGE_COUNT →
      tables_obtained s pdir (x * PAGE_SIZE) (y * PAGE_SIZE) n user →
      MapRange s (virtual_map s pdir (x * PAGE_SIZE) (y * PAGE_SIZE) n user) pdir x n
        (fun k => ⟨true, true, user, y + k⟩) := by
  intro n
  induction n with
  | zero =>
    intro _ _ _
    rw [virtual_map_zero]
    exact {
      wf := w
      here := fun k hk => absurd hk (Nat.not_lt_zero k)
      keep := fun z _ _ hm => ⟨hm, rfl⟩
      fresh := fun z _ hm => Or.inr (Or.inl hm)
      mem := fun f hf => hf
      mem_new := fun f hf => Or.inl hf
      mem_eq := fun _ => rfl
      pde_keep := fun _ _ => rfl
      pde_new := fun _ hj => Or.inl hj
      used := rfl
      total := rfl
      depth := rfl }
  | succ n ih =>
    intro hx hy ht
    obtain ⟨ht1, ht2⟩ := tables_obtained_succ ht
    have r := ih (by omega) (by omega) ht1
    have hxn : x + n < PAGE_COUNT := by omega
    have hyn : y + n < PAGE_COUNT := by omega
    rw [virtual_map_succ, page_add_mod x n hxn, page_add_mod y n hyn]
    rw [page_add_mod x n hxn, PD_INDEX_page] at ht2
    have st := map_page_step (y + n) user r.wf hxn ht2
    exact {
      wf := st.wf
      here := fun k hk => by
        by_cases hkn : k = n
        · subst hkn; exact st.here
        · have hk' : k < n := by omega
          have h1 := r.here k hk'
          have h2 := st.keep (x + k) (by omega) (by omega) h1.1
          exact ⟨h2.1, h2.2.trans h1.2⟩
      keep := fun z hz hzr hm => by
        have h1 := r.keep z hz (by omega) hm
        have h2 := st.keep z hz (by omega) h1.1
        exact ⟨h2.1, h2.2.trans h1.2⟩
      fresh := fun z hz hm => by
        rcases st.fresh z hz hm with h | h | ⟨h1, h2, h3⟩
        · exact Or.inl ⟨by omega, by omega⟩
        · rcases r.fresh z hz h with h' | h' | h'
          · exact Or.inl ⟨h'.1, by omega⟩
          · exact Or.inr (Or.inl h')
          · exact Or.inr (Or.inr h')
        · refine Or.inr (Or.inr ⟨h1, h2, ?_⟩)
          cases hs : s.MEMORY z with
          | false => rfl
          | true => rw [r.mem z hs] at h3; cases h3
      mem := fun f hf => st.mem f (r.mem f hf)
      mem_new := fun f hf => by
        rcases st.mem_new f hf with h | ⟨h1, h2, h3⟩
        · exact r.mem_new f h
        · by_cases hs : s.MEMORY f = true
          · exact Or.inl hs
          · refine Or.inr ⟨h1, h2, ?_⟩
            intro hm
            apply h3
            by_cases hin : x ≤ f ∧ f < x + n
            · have := (r.here (f - x) (by omega)).1
              rw [show x + (f - x) = f by omega] at this
              exact this
            · exact (r.keep f (by unfold PAGE_COUNT; omega) (by omega) hm).1
      mem_eq := fun h => by
        have h1 := r.mem_eq (fun k hk => h k (by omega))
        have h2 := st.mem_eq (by rw [r.pde_keep _ (h n (by omega))]; exact h n (by omega))
        exact h2.trans h1
      pde_keep := fun j hj => by
        rw [st.pde_keep j (by rw [r.pde_keep j hj]; exact hj), r.pde_keep j hj]
      pde_new := fun j hj => by
        rcases st.pde_new j hj with h | ⟨h1, h2, h3, h4, h5, h6⟩
        · rcases r.pde_new j h with h' | ⟨⟨k, hk, hjk⟩, g2, g3, g4, g5, g6⟩
          · exact Or.inl h'
          · right
            rw [st.pde_keep j h]
            exact ⟨⟨k, by omega, hjk⟩, g2, g3, g4, g5, g6⟩
        · by_cases hs : (pde s pdir j).Present = true
          · exact Or.inl hs
          · right
            refine ⟨⟨n, by omega, h1⟩, h2, h3, h4, ?_, ?_⟩
            · cases hm : s.MEMORY (pde (map_page (fun t => memory_alloc_identity_page t pdir)
                  (virtual_map s pdir (x * PAGE_SIZE) (y * PAGE_SIZE) n user) pdir
                  ((x + n) * PAGE_SIZE) ((y + n) * PAGE_SIZE) user) pdir j).PageFrameNumber with
              | false => rfl
              | true => rw [r.mem _ hm] at h5; cases h5
            · intro hm
              apply h6
              generalize (pde (map_page (fun t => memory_alloc_identity_page t pdir)
                  (virtual_map s pdir (x * PAGE_SIZE) (y * PAGE_SIZE) n user) pdir
                  ((x + n) * PAGE_SIZE) ((y + n) * PAGE_SIZE) user) pdir j).PageFrameNumber = f
                at h4 hm ⊢
              by_cases hin : x ≤ f ∧ f < x + n
              · have := (r.here (f - x) (by omega)).1
                rw [show x + (f - x) = f by omega] at this
                exact this
              · exact (r.keep f (by unfold PAGE_COUNT; omega) (by omega) hm).1
      used := st.used.trans r.used
      total := st.total.trans r.total
      depth := st.depth.trans r.depth }

/-! ## `memory_alloc` -/

theorem runFree_zero (bm : Nat → Bool) (i : Nat) : runFree bm i 0 = true := rfl

/-- The page count of a request that wraps around to zero pages is never served:
`physical_alloc 0` returns address 0. -/
theorem findRun_count_pos {bm : Nat → Bool} {c n j : Nat}
    (h : findRun bm c n 0 = some j) (hj : j ≠ 0) : 0 < c := by
  by_contra hc
  have hc0 : c = 0 := by omega
  subst hc0
  have := findRun_first h 0 (le_refl _) (by omega)
  rw [runFree_zero] at this
  cases this

theorem page_align_up_div {size : Nat} (hs : size < WORD)
    (h : 0 < PAGE_ALIGN_UP size / PAGE_SIZE) :
    PAGE_ALIGN_UP size / PAGE_SIZE = (size + PAGE_SIZE - 1) / PAGE_SIZE := by
  unfold PAGE_ALIGN_UP PAGE_SIZE WORD at *
  omega

/-- The shape of a successful `memory_alloc`: frames `j ..` were free and are
obtained, pages `x ..` were not present and are mapped. -/
theorem memory_alloc_success_shape {s : Kernel} {pdir size flags : Nat}
    (hv : (memory_alloc s pdir size flags).1 ≠ 0) :
    ∃ j x, j ≠ 0 ∧ x ≠ 0 ∧ 0 < PAGE_ALIGN_UP size / PAGE_SIZE ∧
      j + PAGE_ALIGN_UP size / PAGE_SIZE ≤ FRAME_COUNT ∧
      x + PAGE_ALIGN_UP size / PAGE_SIZE ≤ PAGE_COUNT ∧
      (if flag_user flags then 256 * 1024 else 1) ≤ x ∧
      x + PAGE_ALIGN_UP size / PAGE_SIZE ≤ (if flag_user flags then 1024 * 1024 else 256 * 1024) ∧
      (∀ k, k < PAGE_ALIGN_UP size / PAGE_SIZE → s.MEMORY (j + k) = false) ∧
      (∀ k, k < PAGE_ALIGN_UP size / PAGE_SIZE →
        page_present s pdir ((x + k) * PAGE_SIZE) = false) ∧
      physical_alloc (atomic_begin s) (PAGE_ALIGN_UP size / PAGE_SIZE) =
        (j * PAGE_SIZE, frames_taken (atomic_begin s) j (PAGE_ALIGN_UP size / PAGE_SIZE)) ∧
      memory_alloc s pdir size flags =
        (x * PAGE_SIZE,
          if flag_clear flags then
            memset_zero
              (atomic_end (virtual_map
                (physical_alloc (atomic_begin s) (PAGE_ALIGN_UP size / PAGE_SIZE)).2 pdir
                (x * PAGE_SIZE) (j * PAGE_SIZE) (PAGE_ALIGN_UP size / PAGE_SIZE)
                (flag_user flags)))
              (x * PAGE_SIZE) (PAGE_ALIGN_UP size / PAGE_SIZE)
          else
            atomic_end (virtual_map
              (physical_alloc (atomic_begin s) (PAGE_ALIGN_UP size / PAGE_SIZE)).2 pdir
              (x * PAGE_SIZE) (j * PAGE_SIZE) (PAGE_ALIGN_UP size / PAGE_SIZE)
              (flag_user flags))) := by
  generalize hn : PAGE_ALIGN_UP size / PAGE_SIZE = n at *
  have hs : size ≠ 0 := by
    intro h; apply hv; unfold memory_alloc; rw [if_pos h]
  have hdef : memory_alloc s pdir size flags =
      if (physical_alloc (atomic_begin s) n).1 = 0 then
        (0, atomic_end (physical_alloc (atomic_begin s) n).2)
      else if (virtual_alloc (physical_alloc (atomic_begin s) n).2 pdir
          (physical_alloc (atomic_begin s) n).1 n (flag_user flags)).1 = 0 then
        (0, atomic_end (physical_free
          (virtual_alloc (physical_alloc (atomic_begin s) n).2 pdir
            (physical_alloc (atomic_begin s) n).1 n (flag_user flags)).2
          (physical_alloc (atomic_begin s) n).1 n))
      else
        ((virtual_alloc (physical_alloc (atomic_begin s) n).2 pdir
            (physical_alloc (atomic_begin s) n).1 n (flag_user flags)).1,
          if flag_clear flags then
            memset_zero (atomic_end (virtual_alloc (physical_alloc (atomic_begin s) n).2 pdir
              (physical_alloc (atomic_begin s) n).1 n (flag_user flags)).2)
              (virtual_alloc (physical_alloc (atomic_begin s) n).2 pdir
                (physical_alloc (atomic_begin s) n).1 n (flag_user flags)).1 n
          else atomic_end (virtual_alloc (physical_alloc (atomic_begin s) n).2 pdir
              (physical_alloc (atomic_begin s) n).1 n (flag_user flags)).2) := by
    unfold memory_alloc
    rw [if_neg hs, hn]
  rw [hdef] at hv ⊢
  rcases physical_alloc_cases (atomic_begin s) n with h0 | ⟨j, hj, ha⟩
  · rw [h0] at hv; simp at hv
  · rw [ha] at hv ⊢
    simp only at hv ⊢
    by_cases hj0 : j * PAGE_SIZE = 0
    · rw [if_pos hj0] at hv; exact absurd rfl hv
    · rw [if_neg hj0] at hv ⊢
      have hjne : j ≠ 0 := by intro h; apply hj0; rw [h]; rfl
      have hnpos : 0 < n := findRun_count_pos hj hjne
      obtain ⟨_, p2, p3⟩ := findRun_some hj
      rcases virtual_alloc_cases (frames_taken (atomic_begin s) j n)
          pdir (j * PAGE_SIZE) n (flag_user flags) with v0 | ⟨x, hx, hva⟩
      · rw [v0] at hv; simp at hv
      · rw [hva] at hv ⊢
        simp only at hv ⊢
        by_cases hx0 : x * PAGE_SIZE = 0
        · rw [if_pos hx0] at hv; exact absurd rfl hv
        · rw [if_neg hx0]
          have hxne : x ≠ 0 := by intro h; apply hx0; rw [h]; rfl
          obtain ⟨q1, q2, q3⟩ := findRun_some hx
          have hfc : j + n ≤ FRAME_COUNT := by
            unfold FRAME_COUNT at p2 ⊢; omega
          have hrange : (if flag_user flags then 256 * 1024 else 1) ≤ x ∧
              x + n ≤ (if flag_user flags then 1024 * 1024 else 256 * 1024) := by
            cases hu : flag_user flags
            · rw [hu] at q1 q2; simp at q1 q2 ⊢; omega
            · rw [hu] at q1 q2; simp at q1 q2 ⊢; omega
          have hpc : x + n ≤ PAGE_COUNT := by
            have h2 := hrange.2
            unfold PAGE_COUNT
            cases hu : flag_user flags
            · rw [hu] at h2; simp at h2; omega
            · rw [hu] at h2; simp at h2; omega
          refine ⟨j, x, hjne, hxne, hnpos, hfc, hpc, hrange.1, hrange.2,
            (runFree_iff _ _ _).1 p3, ?_, rfl, rfl⟩
          intro k hk
          have := (runFree_iff _ _ _).1 q3 k hk
          simp only [Bool.not_eq_true] at this
          exact this

theorem frames_taken_WF {s : Kernel} {pdir : Nat} (w : WF s pdir) (j n : Nat) :
    WF (frames_taken (atomic_begin s) j n) pdir :=
  WF_congr (show s.pages = (frames_taken (atomic_begin s) j n).pages from rfl) w

theorem not_mapped_of_absent {s : Kernel} {pdir x : Nat}
    (h : page_present s pdir (x * PAGE_SIZE) = false) : ¬ mapped s pdir x := by
  unfold mapped; rw [h]; simp

/-- The pages of a range that `virtual_alloc` found free hold neither the
directory nor one of its page tables after `virtual_map` mapped the range. -/
theorem range_holds_no_structure {s t : Kernel} {pdir x n y : Nat} {user : Bool}
    (w : WF s pdir) (r : MapRange s t pdir x n (fun k => ⟨true, true, user, y + k⟩))
    (hfree : ∀ k, k < n → page_present s pdir ((x + k) * PAGE_SIZE) = false)
    (hreg : 256 * 1024 ≤ x ∨ x + n ≤ 256 * 1024) :
    ∀ m, x ≤ m → m < x + n →
      m ≠ pdir / PAGE_SIZE ∧
      ∀ j, j < 1024 → (pde t pdir j).Present = true → m ≠ (pde t pdir j).PageFrameNumber := by
  intro m h1 h2
  have hm : ¬ mapped s pdir m := by
    have := hfree (m - x) (by omega)
    rw [show x + (m - x) = m by omega] at this
    exact not_mapped_of_absent this
  have hne := unmapped_ne w hm
  refine ⟨hne.1, ?_⟩
  intro j hj hp
  rcases r.pde_new j hp with h | ⟨⟨k, hk, hjk⟩, g2, _, g4, _, _⟩
  · rw [r.pde_keep j h]; exact hne.2 j hj h
  · have : 256 * 1024 ≤ x := by
      rcases hreg with h | h
      · exact h
      · omega
    omega

/-- The region a successful `memory_alloc` hands out: its pages are present and
translate to the frames obtained from `physical_alloc`, which are marked used. -/
theorem memory_alloc_region {s : Kernel} {pdir size flags : Nat} (w : WF s pdir)
    (hword : size < WORD)
    (hv : (memory_alloc s pdir size flags).1 ≠ 0)
    (ht : tables_obtained
      (physical_alloc (atomic_begin s) (PAGE_ALIGN_UP size / PAGE_SIZE)).2 pdir
      (memory_alloc s pdir size flags).1
      (physical_alloc (atomic_begin s) (PAGE_ALIGN_UP size / PAGE_SIZE)).1
      (PAGE_ALIGN_UP size / PAGE_SIZE) (flag_user flags)) :
    PAGE_ALIGN_UP size / PAGE_SIZE = (size + PAGE_SIZE - 1) / PAGE_SIZE ∧
    (∀ k, k < PAGE_ALIGN_UP size / PAGE_SIZE →
      page_present (memory_alloc s pdir size flags).2 pdir
        ((memory_alloc s pdir size flags).1 + k * PAGE_SIZE) = true ∧
      virtual2physical (memory_alloc s pdir size flags).2 pdir
        ((memory_alloc s pdir size flags).1 + k * PAGE_SIZE) =
          (physical_alloc (atomic_begin s) (PAGE_ALIGN_UP size / PAGE_SIZE)).1 + k * PAGE_SIZE ∧
      (pte (memory_alloc s pdir size flags).2 pdir
        ((memory_alloc s pdir size flags).1 + k * PAGE_SIZE)).User = flag_user flags ∧
      (memory_alloc s pdir size flags).2.MEMORY
        ((physical_alloc (atomic_begin s) (PAGE_ALIGN_UP size / PAGE_SIZE)).1 / PAGE_SIZE + k)
          = true) ∧
    (memory_alloc s pdir size flags).2.USED_MEMORY =
      (s.USED_MEMORY + PAGE_ALIGN_UP size / PAGE_SIZE * PAGE_SIZE) % WORD := by
  obtain ⟨j, x, _, _, hn, hfc, hpc, hlo, hhi, _, hfree, hpa, hma⟩ :=
    memory_alloc_success_shape hv
  refine ⟨page_align_up_div hword hn, ?_⟩
  rw [hma] at ht ⊢
  rw [hpa] at ht ⊢
  simp only at ht ⊢
  generalize PAGE_ALIGN_UP size / PAGE_SIZE = n at *
  have w1 := frames_taken_WF w j n
  have r := virtual_map_range x j (flag_user flags) w1 n hpc
    (by unfold FRAME_COUNT at hfc; unfold PAGE_COUNT; exact hfc) ht
  have hreg : 256 * 1024 ≤ x ∨ x + n ≤ 256 * 1024 := by
    cases hfu : flag_user flags
    · rw [hfu] at hhi; simp at hhi; right; omega
    · rw [hfu] at hlo; simp at hlo; left; omega
  have hstruct := range_holds_no_structure w1 r hfree hreg
  have wt : WF (atomic_end (virtual_map (frames_taken (atomic_begin s) j n) pdir
      (x * PAGE_SIZE) (j * PAGE_SIZE) n (flag_user flags))) pdir :=
    WF_congr (show (virtual_map (frames_taken (atomic_begin s) j n) pdir
      (x * PAGE_SIZE) (j * PAGE_SIZE) n (flag_user flags)).pages = (atomic_end _).pages
        from rfl) r.wf
  obtain ⟨_, b2, b3, _⟩ := memset_zero_view wt (x * PAGE_SIZE) n (by
    intro m h1 h2
    rw [mul_page_div] at h1 h2
    exact hstruct m h1 h2)
  -- the entry of page `x + k`, whether or not the region was zero-filled
  have key : ∀ t : Kernel,
      (∀ z, z < PAGE_COUNT → (mapped t pdir z ↔ mapped (atomic_end (virtual_map
        (frames_taken (atomic_begin s) j n) pdir (x * PAGE_SIZE) (j * PAGE_SIZE) n
        (flag_user flags))) pdir z)) →
      (∀ z, z < PAGE_COUNT → (pde (atomic_end (virtual_map
        (frames_taken (atomic_begin s) j n) pdir (x * PAGE_SIZE) (j * PAGE_SIZE) n
        (flag_user flags))) pdir (z / 1024)).Present = true →
        pte t pdir (z * PAGE_SIZE) = pte (atomic_end (virtual_map
        (frames_taken (atomic_begin s) j n) pdir (x * PAGE_SIZE) (j * PAGE_SIZE) n
        (flag_user flags))) pdir (z * PAGE_SIZE)) →
      t.MEMORY = (virtual_map (frames_taken (atomic_begin s) j n) pdir (x * PAGE_SIZE)
        (j * PAGE_SIZE) n (flag_user flags)).MEMORY →
      ∀ k, k < n →
        page_present t pdir (x * PAGE_SIZE + k * PAGE_SIZE) = true ∧
        virtual2physical t pdir (x * PAGE_SIZE + k * PAGE_SIZE) = j * PAGE_SIZE + k * PAGE_SIZE ∧
        (pte t pdir (x * PAGE_SIZE + k * PAGE_SIZE)).User = flag_user flags ∧
        t.MEMORY (j * PAGE_SIZE / PAGE_SIZE + k) = true := by
    intro t c2 c3 c4 k hk
    have hxk : x * PAGE_SIZE + k * PAGE_SIZE = (x + k) * PAGE_SIZE := by ring
    have hjk : j * PAGE_SIZE + k * PAGE_SIZE = (j + k) * PAGE_SIZE := by ring
    obtain ⟨h1, h2⟩ := r.here k hk
    have hlt : x + k < PAGE_COUNT := by omega
    have hm : mapped (atomic_end (virtual_map (frames_taken (atomic_begin s) j n) pdir
        (x * PAGE_SIZE) (j * PAGE_SIZE) n (flag_user flags))) pdir (x + k) := h1
    have hpte : pte t pdir ((x + k) * PAGE_SIZE) = ⟨true, true, flag_user flags, j + k⟩ :=
      (c3 (x + k) hlt (pde_of_mapped hm)).trans h2
    rw [hxk, hjk]
    refine ⟨(c2 (x + k) hlt).2 hm, ?_, by rw [hpte], ?_⟩
    · unfold virtual2physical
      rw [hpte]
      simp only
      have : (x + k) * PAGE_SIZE % PAGE_SIZE = 0 := by unfold PAGE_SIZE; omega
      rw [this, Nat.add_zero]
      exact page_mod_word (by unfold FRAME_COUNT at hfc; unfold PAGE_COUNT; omega)
    · rw [c4, mul_page_div]
      apply r.mem
      show setBits s.MEMORY j n true (j + k) = true
      unfold setBits
      rw [if_pos ⟨by omega, by omega⟩]
  have hused : (virtual_map (frames_taken (atomic_begin s) j n) pdir (x * PAGE_SIZE)
      (j * PAGE_SIZE) n (flag_user flags)).USED_MEMORY
        = (s.USED_MEMORY + n * PAGE_SIZE) % WORD := by
    rw [r.used]; rfl
  cases hc : flag_clear flags
  · simp only [Bool.false_eq_true, if_false]
    exact ⟨key _ (fun _ _ => Iff.rfl) (fun _ _ _ => rfl) rfl, hused⟩
  · simp only [if_true]
    exact ⟨key _ b2 b3 rfl, hused⟩

/-- C2: in a well-formed directory, when `memory_alloc` returns a non-zero address
`v` and every page table the mapping needed was obtained: with
`n = ceil(size / 4096)` pages and `p` the base of the run returned by
`physical_alloc n`, each page `v + k * 4096`, `k < n`, is present, translates to
`p + k * 4096` and is user-accessible exactly when `MEMORY_USER` is set in `flags`,
and `USED_MEMORY` (which does not overflow) has grown by exactly `n * 4096`. -/
theorem memory_alloc_success (s : Kernel) (pdir size flags : Nat) (w : WF s pdir)
    (hword : size < WORD)
    (hu : s.USED_MEMORY + PAGE_ALIGN_UP size / PAGE_SIZE * PAGE_SIZE < WORD)
    (hv : (memory_alloc s pdir size flags).1 ≠ 0)
    (ht : tables_obtained
      (physical_alloc (atomic_begin s) (PAGE_ALIGN_UP size / PAGE_SIZE)).2 pdir
      (memory_alloc s pdir size flags).1
      (physical_alloc (atomic_begin s) (PAGE_ALIGN_UP size / PAGE_SIZE)).1
      (PAGE_ALIGN_UP size / PAGE_SIZE) (flag_user flags)) :
    PAGE_ALIGN_UP size / PAGE_SIZE = (size + PAGE_SIZE - 1) / PAGE_SIZE ∧
    (∀ k, k < PAGE_ALIGN_UP size / PAGE_SIZE →
      page_present (memory_alloc s pdir size flags).2 pdir
        ((memory_alloc s pdir size flags).1 + k * PAGE_SIZE) = true ∧
      virtual2physical (memory_alloc s pdir size flags).2 pdir
        ((memory_alloc s pdir size flags).1 + k * PAGE_SIZE) =
          (physical_alloc (atomic_begin s) (PAGE_ALIGN_UP size / PAGE_SIZE)).1 + k * PAGE_SIZE ∧
      (pte (memory_alloc s pdir size flags).2 pdir
        ((memory_alloc s pdir size flags).1 + k * PAGE_SIZE)).User = flag_user flags) ∧
    (memory_alloc s pdir size flags).2.USED_MEMORY =
      s.USED_MEMORY + PAGE_ALIGN_UP size / PAGE_SIZE * PAGE_SIZE := by
  obtain ⟨h1, h2, h3⟩ := memory_alloc_region w hword hv ht
  refine ⟨h1, fun k hk => ⟨(h2 k hk).1, (h2 k hk).2.1, (h2 k hk).2.2.1⟩, ?_⟩
  rw [h3]
  exact Nat.mod_eq_of_lt hu

/-- Witness for C2: a user request of 5000 bytes in `bootState` is served by two
pages at `0x40000000`, backed by the frames 1 and 2; the page table it needs is
obtained at page 3. -/
theorem memory_alloc_success_witness :
    (memory_alloc bootState 0x100000 5000 1).1 = 0x40000000 ∧
    PAGE_ALIGN_UP 5000 / PAGE_SIZE = (5000 + PAGE_SIZE - 1) / PAGE_SIZE ∧
    (∀ k, k < PAGE_ALIGN_UP 5000 / PAGE_SIZE →
      page_present (memory_alloc bootState 0x100000 5000 1).2 0x100000
        ((memory_alloc bootState 0x100000 5000 1).1 + k * PAGE_SIZE) = true ∧
      virtual2physical (memory_alloc bootState 0x100000 5000 1).2 0x100000
        ((memory_alloc bootState 0x100000 5000 1).1 + k * PAGE_SIZE) =
          (physical_alloc (atomic_begin bootState) (PAGE_ALIGN_UP 5000 / PAGE_SIZE)).1
            + k * PAGE_SIZE ∧
      (pte (memory_alloc bootState 0x100000 5000 1).2 0x100000
        ((memory_alloc bootState 0x100000 5000 1).1 + k * PAGE_SIZE)).User = flag_user 1) ∧
    (memory_alloc bootState 0x100000 5000 1).2.USED_MEMORY =
      bootState.USED_MEMORY + PAGE_ALIGN_UP 5000 / PAGE_SIZE * PAGE_SIZE :=
  ⟨by decide,
   memory_alloc_success bootState 0x100000 5000 1 bootState_WF (by decide) (by decide)
     (by decide) (by decide)⟩

theorem add_mul_page_div (p k : Nat) : (p + k * PAGE_SIZE) / PAGE_SIZE = p / PAGE_SIZE + k := by
  unfold PAGE_SIZE; omega

/-- C3: two successful `memory_alloc` calls on the same well-formed directory. The
region of the first call is held right after it (its pages are present, its frames
marked used); if it is still held in the state `s'` in which the second call is
made (no free of the first region in between), the two virtual ranges share no
page and the two runs of frames share no frame. -/
theorem memory_alloc_regions_disjoint (s : Kernel) (pdir size1 flags1 size2 flags2 : Nat)
    (w : WF s pdir) (hword : size1 < WORD)
    (hv1 : (memory_alloc s pdir size1 flags1).1 ≠ 0)
    (ht1 : tables_obtained
      (physical_alloc (atomic_begin s) (PAGE_ALIGN_UP size1 / PAGE_SIZE)).2 pdir
      (memory_alloc s pdir size1 flags1).1
      (physical_alloc (atomic_begin s) (PAGE_ALIGN_UP size1 / PAGE_SIZE)).1
      (PAGE_ALIGN_UP size1 / PAGE_SIZE) (flag_user flags1))
    (s' : Kernel)
    (hheld : ∀ k, k < PAGE_ALIGN_UP size1 / PAGE_SIZE →
      page_present s' pdir ((memory_alloc s pdir size1 flags1).1 + k * PAGE_SIZE) = true ∧
      s'.MEMORY ((physical_alloc (atomic_begin s) (PAGE_ALIGN_UP size1 / PAGE_SIZE)).1
        / PAGE_SIZE + k) = true)
    (hv2 : (memory_alloc s' pdir size2 flags2).1 ≠ 0) :
    (∀ k, k < PAGE_ALIGN_UP size1 / PAGE_SIZE →
      page_present (memory_alloc s pdir size1 flags1).2 pdir
        ((memory_alloc s pdir size1 flags1).1 + k * PAGE_SIZE) = true ∧
      (memory_alloc s pdir size1 flags1).2.MEMORY
        ((physical_alloc (atomic_begin s) (PAGE_ALIGN_UP size1 / PAGE_SIZE)).1
          / PAGE_SIZE + k) = true) ∧
    (∀ k1 k2, k1 < PAGE_ALIGN_UP size1 / PAGE_SIZE → k2 < PAGE_ALIGN_UP size2 / PAGE_SIZE →
      (memory_alloc s pdir size1 flags1).1 + k1 * PAGE_SIZE ≠
        (memory_alloc s' pdir size2 flags2).1 + k2 * PAGE_SIZE ∧
      (physical_alloc (atomic_begin s) (PAGE_ALIGN_UP size1 / PAGE_SIZE)).1 + k1 * PAGE_SIZE ≠
        (physical_alloc (atomic_begin s') (PAGE_ALIGN_UP size2 / PAGE_SIZE)).1
          + k2 * PAGE_SIZE) := by
  constructor
  · intro k hk
    obtain ⟨_, h2, _⟩ := memory_alloc_region w hword hv1 ht1
    exact ⟨(h2 k hk).1, (h2 k hk).2.2.2⟩
  · intro k1 k2 hk1 hk2
    obtain ⟨j, x, _, _, _, _, _, _, _, hframes, hfree, hpa, hma⟩ :=
      memory_alloc_success_shape hv2
    obtain ⟨g1, g2⟩ := hheld k1 hk1
    rw [hma, hpa]
    simp only
    constructor
    · intro he
      rw [he, show x * PAGE_SIZE + k2 * PAGE_SIZE = (x + k2) * PAGE_SIZE by ring,
        hfree k2 hk2] at g1
      cases g1
    · intro he
      rw [← add_mul_page_div, he, add_mul_page_div, mul_page_div, hframes k2 hk2] at g2
      cases g2

/-- Witness for C3: in `bootState`, a user request of 5000 bytes followed by a user
request of 4096 bytes: pages `0x40000000 ..` on frames 1, 2 and page `0x40002000`
on frame 4. -/
theorem memory_alloc_regions_disjoint_witness :
    (memory_alloc bootState 0x100000 5000 1).1 ≠ 0 ∧
    (memory_alloc (memory_alloc bootState 0x100000 5000 1).2 0x100000 4096 1).1 ≠ 0 ∧
    (∀ k, k < PAGE_ALIGN_UP 5000 / PAGE_SIZE →
      page_present (memory_alloc bootState 0x100000 5000 1).2 0x100000
        ((memory_alloc bootState 0x100000 5000 1).1 + k * PAGE_SIZE) = true ∧
      (memory_alloc bootState 0x100000 5000 1).2.MEMORY
        ((physical_alloc (atomic_begin bootState) (PAGE_ALIGN_UP 5000 / PAGE_SIZE)).1
          / PAGE_SIZE + k) = true) ∧
    (∀ k1 k2, k1 < PAGE_ALIGN_UP 5000 / PAGE_SIZE → k2 < PAGE_ALIGN_UP 4096 / PAGE_SIZE →
      (memory_alloc bootState 0x100000 5000 1).1 + k1 * PAGE_SIZE ≠
        (memory_alloc (memory_alloc bootState 0x100000 5000 1).2 0x100000 4096 1).1
          + k2 * PAGE_SIZE ∧
      (physical_alloc (atomic_begin bootState) (PAGE_ALIGN_UP 5000 / PAGE_SIZE)).1
          + k1 * PAGE_SIZE ≠
        (physical_alloc (atomic_begin (memory_alloc bootState 0x100000 5000 1).2)
          (PAGE_ALIGN_UP 4096 / PAGE_SIZE)).1 + k2 * PAGE_SIZE) :=
  ⟨by decide, by decide,
   memory_alloc_regions_disjoint bootState 0x100000 5000 1 4096 1 bootState_WF (by decide)
     (by decide) (by decide) (memory_alloc bootState 0x100000 5000 1).2 (by decide) (by decide)⟩

theorem tables_obtained_of_succ {s : Kernel} {pdir vaddr paddr n : Nat} {user : Bool}
    (h1 : tables_obtained s pdir vaddr paddr n user)
    (h2 : (pde (virtual_map s pdir vaddr paddr n user) pdir
        (PD_INDEX ((vaddr + n * PAGE_SIZE) % WORD))).Present = true ∨
      (memory_alloc_identity_page (virtual_map s pdir vaddr paddr n user) pdir).1 ≠ 0) :
    tables_obtained s pdir vaddr paddr (n + 1) user := by
  intro k hk
  by_cases hkn : k = n
  · subst hkn; exact h2
  · exact h1 k (by omega)

/-- Mapping pages whose directory entries are present needs no new page table. -/
theorem tables_obtained_of_present {s : Kernel} {pdir : Nat} (x y : Nat) (user : Bool)
    (w : WF s pdir) :
    ∀ n, x + n ≤ PAGE_COUNT → y + n ≤ PAGE_COUNT →
      (∀ k, k < n → (pde s pdir ((x + k) / 1024)).Present = true) →
      tables_obtained s pdir (x * PAGE_SIZE) (y * PAGE_SIZE) n user := by
  intro n
  induction n with
  | zero => intro _ _ _ k hk; omega
  | succ n ih =>
    intro hx hy hp
    have h1 := ih (by omega) (by omega) (fun k hk => hp k (by omega))
    have r := virtual_map_range x y user w n (by omega) (by omega) h1
    apply tables_obtained_of_succ h1
    left
    rw [page_add_mod x n (by omega), PD_INDEX_page, r.pde_keep _ (hp n (by omega))]
    exact hp n (by omega)

/-- The state a successful `memory_alloc` leaves, relative to the state `t` left
by its call of `virtual_map`: the optional zero-fill changes neither the
directory nor the bitmap, and the pages of the region hold no paging structure. -/
theorem memory_alloc_final {s : Kernel} {pdir size flags : Nat} (w : WF s pdir)
    (hv : (memory_alloc s pdir size flags).1 ≠ 0)
    (ht : tables_obtained
      (physical_alloc (atomic_begin s) (PAGE_ALIGN_UP size / PAGE_SIZE)).2 pdir
      (memory_alloc s pdir size flags).1
      (physical_alloc (atomic_begin s) (PAGE_ALIGN_UP size / PAGE_SIZE)).1
      (PAGE_ALIGN_UP size / PAGE_SIZE) (flag_user flags)) :
    ∃ j x t, j ≠ 0 ∧ x ≠ 0 ∧
      t = virtual_map (frames_taken (atomic_begin s) j (PAGE_ALIGN_UP size / PAGE_SIZE)) pdir
        (x * PAGE_SIZE) (j * PAGE_SIZE) (PAGE_ALIGN_UP size / PAGE_SIZE) (flag_user flags) ∧
      (memory_alloc s pdir size flags).1 = x * PAGE_SIZE ∧
      (∀ k, k < PAGE_ALIGN_UP size / PAGE_SIZE → s.MEMORY (j + k) = false) ∧
      (∀ k, k < PAGE_ALIGN_UP size / PAGE_SIZE → ¬ mapped s pdir (x + k)) ∧
      x + PAGE_ALIGN_UP size / PAGE_SIZE ≤ PAGE_COUNT ∧
      j + PAGE_ALIGN_UP size / PAGE_SIZE ≤ FRAME_COUNT ∧
      (flag_user flags = false → x + PAGE_ALIGN_UP size / PAGE_SIZE ≤ 256 * 1024) ∧
      MapRange (frames_taken (atomic_begin s) j (PAGE_ALIGN_UP size / PAGE_SIZE)) t pdir x
        (PAGE_ALIGN_UP size / PAGE_SIZE) (fun k => ⟨true, true, flag_user flags, j + k⟩) ∧
      WF (memory_alloc s pdir size flags).2 pdir ∧
      (memory_alloc s pdir size flags).2.MEMORY = t.MEMORY ∧
      (memory_alloc s pdir size flags).2.USED_MEMORY = t.USED_MEMORY ∧
      (memory_alloc s pdir size flags).2.depth = s.depth ∧
      (∀ i, pde (memory_alloc s pdir size flags).2 pdir i = pde t pdir i) ∧
      (∀ z, z < PAGE_COUNT →
        (mapped (memory_alloc s pdir size flags).2 pdir z ↔ mapped t pdir z)) ∧
      (∀ z, z < PAGE_COUNT → (pde t pdir (z / 1024)).Present = true →
        pte (memory_alloc s pdir size flags).2 pdir (z * PAGE_SIZE) = pte t pdir (z * PAGE_SIZE)) ∧
      (∀ m, x ≤ m → m < x + PAGE_ALIGN_UP size / PAGE_SIZE →
        m ≠ pdir / PAGE_SIZE ∧
        ∀ i, i < 1024 → (pde t pdir i).Present = true → m ≠ (pde t pdir i).PageFrameNumber) := by
  obtain ⟨j, x, hj, hx, hn, hfc, hpc, hlo, hhi, hframes, hfree, hpa, hma⟩ :=
    memory_alloc_success_shape hv
  rw [hma] at ht ⊢
  rw [hpa] at ht ⊢
  simp only at ht ⊢
  generalize PAGE_ALIGN_UP size / PAGE_SIZE = n at *
  have w1 := frames_taken_WF w j n
  have r := virtual_map_range x j (flag_user flags) w1 n hpc
    (by unfold FRAME_COUNT at hfc; unfold PAGE_COUNT; exact hfc) ht
  have hreg : 256 * 1024 ≤ x ∨ x + n ≤ 256 * 1024 := by
    cases hfu : flag_user flags
    · rw [hfu] at hhi; simp at hhi; right; omega
    · rw [hfu] at hlo; simp at hlo; left; omega
  have hstruct := range_holds_no_structure w1 r hfree hreg
  have wt : WF (atomic_end (virtual_map (frames_taken (atomic_begin s) j n) pdir
      (x * PAGE_SIZE) (j * PAGE_SIZE) n (flag_user flags))) pdir :=
    WF_congr (show (virtual_map (frames_taken (atomic_begin s) j n) pdir
      (x * PAGE_SIZE) (j * PAGE_SIZE) n (flag_user flags)).pages = (atomic_end _).pages
        from rfl) r.wf
  obtain ⟨b1, b2, b3, b4⟩ := memset_zero_view wt (x * PAGE_SIZE) n (by
    intro m h1 h2
    rw [mul_page_div] at h1 h2
    exact hstruct m h1 h2)
  have hdepth : (virtual_map (frames_taken (atomic_begin s) j n) pdir
      (x * PAGE_SIZE) (j * PAGE_SIZE) n (flag_user flags)).depth - 1 = s.depth := by
    rw [r.depth]
    show s.depth + 1 - 1 = s.depth
    omega
  refine ⟨j, x, _, hj, hx, rfl, rfl, hframes, fun k hk => not_mapped_of_absent (hfree k hk),
    hpc, hfc, ?_, r, ?_⟩
  · intro hfu
    rw [hfu] at hhi; simpa using hhi
  · cases hc : flag_clear flags
    · simp only [Bool.false_eq_true, if_false]
      exact ⟨wt, rfl, rfl, hdepth, fun _ => rfl, fun _ _ => Iff.rfl, fun _ _ _ => rfl, hstruct⟩
    · simp only [if_true]
      exact ⟨b4, rfl, rfl, hdepth, b1, b2, b3, hstruct⟩

/-- A kernel request (without `MEMORY_USER`) is served from the directory entries
0..255, which are present: no page table is needed. -/
theorem tables_obtained_kernel {s : Kernel} {pdir size flags : Nat} (w : WF s pdir)
    (hv : (memory_alloc s pdir size flags).1 ≠ 0) (hfu : flag_user flags = false) :
    tables_obtained
      (physical_alloc (atomic_begin s) (PAGE_ALIGN_UP size / PAGE_SIZE)).2 pdir
      (memory_alloc s pdir size flags).1
      (physical_alloc (atomic_begin s) (PAGE_ALIGN_UP size / PAGE_SIZE)).1
      (PAGE_ALIGN_UP size / PAGE_SIZE) (flag_user flags) := by
  obtain ⟨j, x, _, _, _, hfc, hpc, _, hhi, _, _, hpa, hma⟩ := memory_alloc_success_shape hv
  rw [hma, hpa]
  simp only
  rw [hfu] at hhi
  simp only [Bool.false_eq_true, if_false] at hhi
  apply tables_obtained_of_present x j _ (frames_taken_WF w j _) _ hpc
    (by unfold FRAME_COUNT at hfc; unfold PAGE_COUNT; exact hfc)
  intro k hk
  exact w.low _ (by omega)

theorem unmap_page_fields (s : Kernel) (pdir vaddr : Nat) :
    (unmap_page s pdir vaddr).MEMORY = s.MEMORY ∧
    (unmap_page s pdir vaddr).USED_MEMORY = s.USED_MEMORY ∧
    (unmap_page s pdir vaddr).depth = s.depth := by
  unfold unmap_page
  split <;> exact ⟨rfl, rfl, rfl⟩

theorem virtual_unmap_fields (s : Kernel) (pdir vaddr count : Nat) :
    (virtual_unmap s pdir vaddr count).MEMORY = s.MEMORY ∧
    (virtual_unmap s pdir vaddr count).USED_MEMORY = s.USED_MEMORY ∧
    (virtual_unmap s pdir vaddr count).depth = s.depth := by
  unfold virtual_unmap
  induction count with
  | zero => exact ⟨rfl, rfl, rfl⟩
  | succ n ih =>
    rw [List.range_succ, List.foldl_append]
    simp only [List.foldl_cons, List.foldl_nil]
    obtain ⟨a, b, c⟩ := unmap_page_fields
      ((List.range n).foldl (fun s k => unmap_page s pdir ((vaddr + k * PAGE_SIZE) % WORD)) s)
      pdir ((vaddr + n * PAGE_SIZE) % WORD)
    exact ⟨a.trans ih.1, b.trans ih.2.1, c.trans ih.2.2⟩

/-- The bitmap and the counter after `memory_free` of a fully present range. -/
theorem memory_free_present {s : Kernel} {pdir addr count : Nat}
    (h : virtual_present s pdir addr count = true) :
    (memory_free s pdir addr count).MEMORY =
      setBits s.MEMORY (virtual2physical s pdir addr / PAGE_SIZE) count false ∧
    (memory_free s pdir addr count).USED_MEMORY =
      (s.USED_MEMORY + WORD - (count * PAGE_SIZE) % WORD) % WORD ∧
    (memory_free s pdir addr count).depth = s.depth := by
  have h' : virtual_present (atomic_begin s) pdir addr count = true := h
  unfold memory_free
  simp only [h', if_true]
  obtain ⟨a, b, c⟩ := virtual_unmap_fields
    (physical_free (atomic_begin s) (virtual2physical (atomic_begin s) pdir addr) count)
    pdir addr count
  refine ⟨a, b, ?_⟩
  show (virtual_unmap _ pdir addr count).depth - 1 = s.depth
  rw [c]
  show s.depth + 1 - 1 = s.depth
  omega

theorem foldl_noop {α β : Type} (f : α → β → α) (l : List β) (a : α)
    (h : ∀ b, b ∈ l → f a b = a) : l.foldl f a = a := by
  induction l with
  | nil => rfl
  | cons b l ih =>
    rw [List.foldl_cons, h b (List.mem_cons_self _ _)]
    exact ih (fun c hc => h c (List.mem_cons_of_mem _ hc))

/-! ## `memory_pdir_create` and `memory_pdir_destroy` -/

theorem one_page_request : PAGE_ALIGN_UP PAGE_SIZE / PAGE_SIZE = 1 := by decide

theorem memory_pdir_create_eq {L : Layout} {s : Kernel}
    (h : (memory_pdir_create L s).1 ≠ 0) :
    (memory_alloc (atomic_begin s) L.kpdir PAGE_SIZE MEMORY_CLEAR).1 ≠ 0 ∧
    memory_pdir_create L s =
      ((memory_alloc (atomic_begin s) L.kpdir PAGE_SIZE MEMORY_CLEAR).1,
        atomic_end (fill_kernel_entries L
          (memset_zero (memory_alloc (atomic_begin s) L.kpdir PAGE_SIZE MEMORY_CLEAR).2
            (memory_alloc (atomic_begin s) L.kpdir PAGE_SIZE MEMORY_CLEAR).1 1)
          (memory_alloc (atomic_begin s) L.kpdir PAGE_SIZE MEMORY_CLEAR).1)) := by
  have hr : (memory_alloc (atomic_begin s) L.kpdir PAGE_SIZE MEMORY_CLEAR).1 ≠ 0 := by
    intro h0
    apply h
    unfold memory_pdir_create
    simp only [h0, if_true]
  refine ⟨hr, ?_⟩
  unfold memory_pdir_create
  simp only [if_neg hr]

theorem atomic_end_fields (s : Kernel) :
    (atomic_end s).MEMORY = s.MEMORY ∧ (atomic_end s).USED_MEMORY = s.USED_MEMORY ∧
    (atomic_end s).depth = s.depth - 1 ∧ (atomic_end s).pages = s.pages := ⟨rfl, rfl, rfl, rfl⟩

theorem atomic_begin_fields (s : Kernel) :
    (atomic_begin s).MEMORY = s.MEMORY ∧ (atomic_begin s).USED_MEMORY = s.USED_MEMORY ∧
    (atomic_begin s).depth = s.depth + 1 ∧ (atomic_begin s).pages = s.pages := ⟨rfl, rfl, rfl, rfl⟩

theorem memset_zero_fields (s : Kernel) (addr count : Nat) :
    (memset_zero s addr count).MEMORY = s.MEMORY ∧
    (memset_zero s addr count).USED_MEMORY = s.USED_MEMORY ∧
    (memset_zero s addr count).depth = s.depth := ⟨rfl, rfl, rfl⟩

theorem fill_entries_fields (L : Layout) (pdir : Nat) (m : Nat) (s : Kernel) :
    ((List.range m).foldl
        (fun s i => writeEntry s (pdir / PAGE_SIZE) i (kernel_entry L i)) s).MEMORY = s.MEMORY ∧
    ((List.range m).foldl
        (fun s i => writeEntry s (pdir / PAGE_SIZE) i (kernel_entry L i)) s).USED_MEMORY
          = s.USED_MEMORY ∧
    ((List.range m).foldl
        (fun s i => writeEntry s (pdir / PAGE_SIZE) i (kernel_entry L i)) s).depth = s.depth := by
  induction m with
  | zero => exact ⟨rfl, rfl, rfl⟩
  | succ m ih =>
    rw [List.range_succ, List.foldl_append]
    exact ih

theorem fill_kernel_entries_fields (L : Layout) (s : Kernel) (pdir : Nat) :
    (fill_kernel_entries L s pdir).MEMORY = s.MEMORY ∧
    (fill_kernel_entries L s pdir).USED_MEMORY = s.USED_MEMORY ∧
    (fill_kernel_entries L s pdir).depth = s.depth :=
  fill_entries_fields L pdir 256 s

/-- The state a successful `memory_pdir_create` leaves, for a well-formed kernel
directory: the new directory lives in page `x`, which was not present and is now
mapped to the frame `j`, which was free and is now marked used. -/
theorem memory_pdir_create_state {L : Layout} {s : Kernel} (w : WF s L.kpdir)
    (h : (memory_pdir_create L s).1 ≠ 0) :
    ∃ j x, x ≠ 0 ∧ x < 256 * 1024 ∧ j < FRAME_COUNT ∧
      (memory_pdir_create L s).1 = x * PAGE_SIZE ∧
      s.MEMORY j = false ∧ ¬ mapped s L.kpdir x ∧
      (memory_pdir_create L s).2.MEMORY = setBits s.MEMORY j 1 true ∧
      (memory_pdir_create L s).2.USED_MEMORY = (s.USED_MEMORY + PAGE_SIZE) % WORD ∧
      (memory_pdir_create L s).2.depth = s.depth ∧
      mapped (memory_pdir_create L s).2 L.kpdir x ∧
      pte (memory_pdir_create L s).2 L.kpdir (x * PAGE_SIZE) = ⟨true, true, false, j⟩ ∧
      (∀ i, (memory_pdir_create L s).2.pages x i =
        if i < 256 then kernel_entry L i else Entry.zero) ∧
      WF (memory_pdir_create L s).2 L.kpdir := by
  obtain ⟨hv, hc⟩ := memory_pdir_create_eq h
  have w0 : WF (atomic_begin s) L.kpdir :=
    WF_congr (show s.pages = (atomic_begin s).pages from rfl) w
  have hfu : flag_user MEMORY_CLEAR = false := by decide
  obtain ⟨j, x, t, hj, hx, ht, hm1, hframes, hnm, hpc, hfc, hlow, r, wm, mM, mU, mD, mpde, mmap,
    mpte, hstruct⟩ := memory_alloc_final w0 hv (tables_obtained_kernel w0 hv hfu)
  rw [hc]
  simp only
  rw [hm1]
  rw [one_page_request] at *
  rw [hfu] at r
  have hlow' := hlow hfu
  have hstr := hstruct x (le_refl _) (by omega)
  generalize (memory_alloc (atomic_begin s) L.kpdir PAGE_SIZE MEMORY_CLEAR).2 = m at *
  obtain ⟨fM, fU, fD⟩ := fill_kernel_entries_fields L (memset_zero m (x * PAGE_SIZE) 1)
    (x * PAGE_SIZE)
  -- the pages of the final state
  have hpages : ∀ n i, (atomic_end (fill_kernel_entries L (memset_zero m (x * PAGE_SIZE) 1)
      (x * PAGE_SIZE))).pages n i =
      if n = x then (if i < 256 then kernel_entry L i else Entry.zero) else m.pages n i := by
    intro n i
    rw [(atomic_end_fields _).2.2.2, fill_kernel_entries_pages, memset_zero_pages, mul_page_div]
    by_cases hn : n = x
    · subst hn
      by_cases hi : i < 256
      · simp [hi]
      · simp [hi]
    · have : ¬ (x ≤ n ∧ n < x + 1) := by omega
      simp [hn, this]
  obtain ⟨v1, v2, v3, v4⟩ := same_view (t := atomic_end (fill_kernel_entries L
      (memset_zero m (x * PAGE_SIZE) 1) (x * PAGE_SIZE))) wm
    (by intro i; rw [hpages, if_neg (Ne.symm hstr.1)])
    (by
      intro i hi hp q
      rw [hpages, if_neg]
      intro he
      rw [mpde] at hp he
      exact hstr.2 i hi hp he.symm)
  have hx0 := r.here 0 (by omega)
  rw [Nat.add_zero] at hx0
  have hxP : x < PAGE_COUNT := by omega
  have hmx : mapped m L.kpdir x := (mmap x hxP).2 hx0.1
  refine ⟨j, x, hx, by omega, by omega, rfl, ?_, ?_, ?_, ?_, ?_, (v2 x hxP).2 hmx, ?_, ?_, v4⟩
  · have := hframes 0 (by omega); simpa using this
  · intro hm; exact hnm 0 (by omega) (by simpa using hm)
  · rw [(atomic_end_fields _).1, fM, (memset_zero_fields _ _ _).1, mM,
      r.mem_eq (fun k hk => by
        have : (x + k) / 1024 < 256 := by omega
        exact w.low _ this)]
    rfl
  · rw [(atomic_end_fields _).2.1, fU, (memset_zero_fields _ _ _).2.1, mU, r.used]
    show (s.USED_MEMORY + 1 * PAGE_SIZE) % WORD = _
    rw [Nat.one_mul]
  · rw [(atomic_end_fields _).2.2.1, fD, (memset_zero_fields _ _ _).2.2, mD,
      (atomic_begin_fields _).2.2.1]
    omega
  · rw [v3 x hxP (pde_of_mapped hmx), mpte x hxP (pde_of_mapped hx0.1), hx0.2]
    rfl
  · intro i; rw [hpages, if_pos rfl]

theorem virtual_present_one (s : Kernel) (pdir x : Nat) (hx : x < PAGE_COUNT) :
    virtual_present s pdir (x * PAGE_SIZE) 1 = page_present s pdir (x * PAGE_SIZE) := by
  simp [virtual_present, List.range_succ, page_mod_word hx]

theorem virtual2physical_page {s : Kernel} {pdir x j : Nat} {e : Entry}
    (h : pte s pdir (x * PAGE_SIZE) = e) (he : e.PageFrameNumber = j) (hj : j < FRAME_COUNT) :
    virtual2physical s pdir (x * PAGE_SIZE) = j * PAGE_SIZE := by
  unfold virtual2physical
  rw [h, he]
  have : x * PAGE_SIZE % PAGE_SIZE = 0 := by unfold PAGE_SIZE; omega
  rw [this, Nat.add_zero]
  exact page_mod_word (by unfold FRAME_COUNT at hj; unfold PAGE_COUNT; exact hj)

/-- Destroying a directory whose entries 256..1023 are all absent only frees the
page of the directory. -/
theorem memory_pdir_destroy_empty (L : Layout) (s : Kernel) (pdir : Nat)
    (h : ∀ i, 256 ≤ i → i < 1024 → (pde s pdir i).Present = false) :
    memory_pdir_destroy L s pdir = atomic_end (memory_free (atomic_begin s) L.kpdir pdir 1) := by
  unfold memory_pdir_destroy
  simp only
  rw [foldl_noop]
  intro k hk
  have hk' : k < 768 := List.mem_range.1 hk
  unfold destroy_entry
  simp only
  rw [show pde (atomic_begin s) pdir (256 + k) = pde s pdir (256 + k) from rfl,
    h (256 + k) (by omega) (by omega)]
  simp

/-- C7: for a well-formed kernel directory, when `memory_pdir_create` succeeds,
`memory_pdir_destroy` of the new, unmodified directory frees exactly one frame,
the one backing the directory, and leaves the frame bitmap and `USED_MEMORY` (a
32-bit counter) as they were before `memory_pdir_create`. -/
theorem memory_pdir_create_destroy (L : Layout) (s : Kernel) (w : WF s L.kpdir)
    (hu : s.USED_MEMORY < WORD) (h : (memory_pdir_create L s).1 ≠ 0) :
    (memory_pdir_destroy L (memory_pdir_create L s).2 (memory_pdir_create L s).1).MEMORY
      = s.MEMORY ∧
    (memory_pdir_destroy L (memory_pdir_create L s).2 (memory_pdir_create L s).1).USED_MEMORY
      = s.USED_MEMORY ∧
    (∀ f,
      (memory_pdir_destroy L (memory_pdir_create L s).2 (memory_pdir_create L s).1).MEMORY f
          ≠ (memory_pdir_create L s).2.MEMORY f ↔
        f = virtual2physical (memory_pdir_create L s).2 L.kpdir (memory_pdir_create L s).1
          / PAGE_SIZE) := by
  obtain ⟨j, x, hx0, hxl, hj, hc1, hjf, _, cM, cU, _, cmap, cpte, cpages, _⟩ :=
    memory_pdir_create_state w h
  rw [hc1]
  generalize (memory_pdir_create L s).2 = c at *
  have hxP : x < PAGE_COUNT := by unfold PAGE_COUNT; omega
  have hempty : ∀ i, 256 ≤ i → i < 1024 → (pde c (x * PAGE_SIZE) i).Present = false := by
    intro i hi _
    rw [pde_def, mul_page_div, cpages, if_neg (by omega)]
    rfl
  have hv2p : virtual2physical c L.kpdir (x * PAGE_SIZE) = j * PAGE_SIZE :=
    virtual2physical_page cpte rfl hj
  have hpres : virtual_present (atomic_begin c) L.kpdir (x * PAGE_SIZE) 1 = true := by
    rw [virtual_present_one _ _ _ hxP]
    exact cmap
  obtain ⟨fM, fU, _⟩ := memory_free_present hpres
  have hM : (memory_pdir_destroy L c (x * PAGE_SIZE)).MEMORY = s.MEMORY := by
    rw [memory_pdir_destroy_empty L c _ hempty, (atomic_end_fields _).1, fM,
      show virtual2physical (atomic_begin c) L.kpdir (x * PAGE_SIZE)
        = virtual2physical c L.kpdir (x * PAGE_SIZE) from rfl,
      hv2p, mul_page_div, (atomic_begin_fields _).1, cM]
    exact setBits_restore _ _ _ (fun k hk => by
      have : k = 0 := by omega
      subst this; exact hjf)
  refine ⟨hM, ?_, ?_⟩
  · rw [memory_pdir_destroy_empty L c _ hempty, (atomic_end_fields _).2.1, fU,
      (atomic_begin_fields _).2.1, cU, Nat.one_mul]
    exact used_restore _ _ hu
  · intro f
    rw [hM, cM, hv2p, mul_page_div]
    unfold setBits
    by_cases hf : f = j
    · subst hf
      simp [hjf]
    · have : ¬ (j ≤ f ∧ f < j + 1) := by omega
      simp [this, hf]

/-- Witness for C7: in `bootState` the directory is created at page 1 on frame 1,
and destroying it restores the bitmap and the counter. -/
theorem memory_pdir_create_destroy_witness :
    (memory_pdir_create layout0 bootState).1 ≠ 0 ∧
    (memory_pdir_destroy layout0 (memory_pdir_create layout0 bootState).2
        (memory_pdir_create layout0 bootState).1).MEMORY = bootState.MEMORY ∧
    (memory_pdir_destroy layout0 (memory_pdir_create layout0 bootState).2
        (memory_pdir_create layout0 bootState).1).USED_MEMORY = bootState.USED_MEMORY ∧
    (∀ f,
      (memory_pdir_destroy layout0 (memory_pdir_create layout0 bootState).2
          (memory_pdir_create layout0 bootState).1).MEMORY f
          ≠ (memory_pdir_create layout0 bootState).2.MEMORY f ↔
        f = virtual2physical (memory_pdir_create layout0 bootState).2 layout0.kpdir
          (memory_pdir_create layout0 bootState).1 / PAGE_SIZE) :=
  ⟨by decide, memory_pdir_create_destroy layout0 bootState bootState_WF (by decide) (by decide)⟩

/-! ## Unmapping a page -/

/-- Clearing the table slot of page `x`, which holds neither the directory nor a
page table: only page `x` stops being present. -/
theorem clear_pte {s : Kernel} {pdir x : Nat} (w : WF s pdir) (hx : x < PAGE_COUNT)
    (hp : (pde s pdir (x / 1024)).Present = true)
    (hxD : x ≠ pdir / PAGE_SIZE)
    (hxT : ∀ j, j < 1024 → (pde s pdir j).Present = true → x ≠ (pde s pdir j).PageFrameNumber)
    (e : Entry) (he : e.Present = false) :
    (∀ j, pde (writeEntry s (pde s pdir (x / 1024)).PageFrameNumber (x % 1024) e) pdir j
        = pde s pdir j) ∧
    (∀ z, z < PAGE_COUNT → z ≠ x → (pde s pdir (z / 1024)).Present = true →
      pte (writeEntry s (pde s pdir (x / 1024)).PageFrameNumber (x % 1024) e) pdir (z * PAGE_SIZE)
        = pte s pdir (z * PAGE_SIZE)) ∧
    (∀ z, z < PAGE_COUNT → z ≠ x →
      (mapped (writeEntry s (pde s pdir (x / 1024)).PageFrameNumber (x % 1024) e) pdir z ↔
        mapped s pdir z)) ∧
    ¬ mapped (writeEntry s (pde s pdir (x / 1024)).PageFrameNumber (x % 1024) e) pdir x ∧
    WF (writeEntry s (pde s pdir (x / 1024)).PageFrameNumber (x % 1024) e) pdir := by
  have hne := w.table_ne_dir _ (page_index_lt hx) hp
  have h1 : ∀ j, pde (writeEntry s (pde s pdir (x / 1024)).PageFrameNumber (x % 1024) e) pdir j
        = pde s pdir j := by
    intro j
    rw [pde_def, writeEntry_pages, if_neg (fun h => hne h.1.symm)]
    rfl
  have h3 : ∀ z, z < PAGE_COUNT → z ≠ x → (pde s pdir (z / 1024)).Present = true →
      pte (writeEntry s (pde s pdir (x / 1024)).PageFrameNumber (x % 1024) e) pdir (z * PAGE_SIZE)
        = pte s pdir (z * PAGE_SIZE) := by
    intro z hz hzx hpz
    rw [pte_page, pte_page, h1, writeEntry_pages, if_neg]
    rintro ⟨ha, hb⟩
    exact hzx (page_split_inj
      (w.table_inj _ _ (page_index_lt hz) (page_index_lt hx) hpz hp ha) hb)
  have h4 : ∀ z, z < PAGE_COUNT → z ≠ x →
      (mapped (writeEntry s (pde s pdir (x / 1024)).PageFrameNumber (x % 1024) e) pdir z ↔
        mapped s pdir z) := by
    intro z hz hzx
    unfold mapped page_present
    rw [PD_INDEX_page, h1]
    cases hq : (pde s pdir (z / 1024)).Present with
    | false => simp
    | true => rw [h3 z hz hzx hq]
  have h5 : ¬ mapped (writeEntry s (pde s pdir (x / 1024)).PageFrameNumber (x % 1024) e) pdir x := by
    unfold mapped page_present
    rw [PD_INDEX_page, pte_page, h1, writeEntry_pages, if_pos ⟨rfl, rfl⟩, he]
    simp
  refine ⟨h1, h3, h4, h5, ?_⟩
  constructor
  · intro j hj; rw [h1]; exact w.low j hj
  · exact (h4 _ w.dir_lt (Ne.symm hxD)).2 w.dir_mapped
  · exact w.dir_lt
  · intro j hj hq; rw [h1] at hq ⊢; exact w.table_lt j hj hq
  · intro j hj hq; rw [h1] at hq ⊢
    exact (h4 _ (w.table_lt j hj hq) (Ne.symm (hxT j hj hq))).2 (w.table_mapped j hj hq)
  · intro j hj hq; rw [h1] at hq ⊢; exact w.table_ne_dir j hj hq
  · intro j k hj hk hpj hpk; rw [h1] at hpj; rw [h1] at hpk; rw [h1, h1]
    exact w.table_inj j k hj hk hpj hpk

theorem index_of_addr (v : Nat) :
    PD_INDEX v = v / PAGE_SIZE / 1024 ∧ PT_INDEX v = v / PAGE_SIZE % 1024 := by
  unfold PD_INDEX PT_INDEX PAGE_SIZE
  constructor <;> omega

/-- Presence and translation at an address depend on its page only. -/
theorem page_of_addr (s : Kernel) (pdir v : Nat) :
    page_present s pdir v = page_present s pdir (v / PAGE_SIZE * PAGE_SIZE) ∧
    pte s pdir v = pte s pdir (v / PAGE_SIZE * PAGE_SIZE) := by
  unfold page_present pte
  rw [(index_of_addr v).1, (index_of_addr v).2, PD_INDEX_page, PT_INDEX_page]
  exact ⟨rfl, rfl⟩

theorem addr_mod_word {v : Nat} (h : v / PAGE_SIZE < PAGE_COUNT) : v % WORD = v := by
  unfold PAGE_SIZE PAGE_COUNT at h
  unfold WORD; omega

/-- The function `memory_free` of one page that is present in a well-formed
directory: the frame the page translates to is released and the page unmapped. -/
theorem memory_free_one {s : Kernel} {pdir v : Nat} (hv : v / PAGE_SIZE < PAGE_COUNT)
    (hm : mapped s pdir (v / PAGE_SIZE)) :
    memory_free s pdir v 1 =
      writeEntry (physical_free s (virtual2physical s pdir v) 1)
        (pde s pdir (v / PAGE_SIZE / 1024)).PageFrameNumber (v / PAGE_SIZE % 1024)
        { pte s pdir (v / PAGE_SIZE * PAGE_SIZE) with Present := false } := by
  have hpp : page_present s pdir v = true := by
    rw [(page_of_addr s pdir v).1]; exact hm
  have hvp : virtual_present (atomic_begin s) pdir v 1 = true := by
    simp only [virtual_present, List.range_succ, List.range_zero, List.nil_append,
      List.all_cons, List.all_nil, Bool.and_true, Nat.zero_mul, Nat.add_zero, addr_mod_word hv]
    exact hpp
  unfold memory_free
  simp only [hvp, if_true]
  simp only [virtual_unmap, List.range_succ, List.range_zero, List.nil_append, List.foldl_cons,
    List.foldl_nil, Nat.zero_mul, Nat.add_zero, addr_mod_word hv]
  unfold unmap_page
  have hpp2 : page_present (physical_free (atomic_begin s)
      (virtual2physical (atomic_begin s) pdir v) 1) pdir v = true := hpp
  rw [if_pos hpp2, (index_of_addr v).1, (index_of_addr v).2]
  have e1 : pte (physical_free (atomic_begin s) (virtual2physical (atomic_begin s) pdir v) 1)
      pdir v = pte s pdir (v / PAGE_SIZE * PAGE_SIZE) := (page_of_addr s pdir v).2
  rw [e1]
  cases s
  simp [atomic_end, writeEntry, physical_free, atomic_begin, pde, virtual2physical, pte]

/-! ## `memory_pdir_destroy` -/

theorem physical_free_one_fields (s : Kernel) (f : Nat) (hf : f < PAGE_COUNT) :
    (physical_free s (f * PAGE_SIZE % WORD) 1).MEMORY = setBits s.MEMORY f 1 false ∧
    (physical_free s (f * PAGE_SIZE % WORD) 1).pages = s.pages ∧
    (physical_free s (f * PAGE_SIZE % WORD) 1).depth = s.depth := by
  rw [page_mod_word hf]
  refine ⟨?_, rfl, rfl⟩
  show setBits s.MEMORY (f * PAGE_SIZE / PAGE_SIZE) 1 false = _
  rw [mul_page_div]

theorem setBits_false_le (bm : Nat → Bool) (b c f : Nat) (h : setBits bm b c false f = true) :
    bm f = true := by
  unfold setBits at h
  split at h
  · cases h
  · exact h

theorem setBits_one_false (bm : Nat → Bool) (b f : Nat) :
    setBits bm b 1 false f = if f = b then false else bm f := by
  unfold setBits
  by_cases h : f = b
  · subst h; simp
  · have : ¬ (b ≤ f ∧ f < b + 1) := by omega
    simp [this, h]

/-- The inner loop of `memory_pdir_destroy` over the first `m` entries of the page
table in page `T`, whose present entries hold 20-bit frame numbers. -/
theorem free_leaves_prefix (s : Kernel) (T : Nat)
    (hl : ∀ q, q < 1024 → (s.pages T q).Present = true →
      (s.pages T q).PageFrameNumber < PAGE_COUNT) :
    ∀ m, m ≤ 1024 →
      ((List.range m).foldl (fun s i =>
          if (s.pages T i).Present then
            physical_free s (((s.pages T i).PageFrameNumber * PAGE_SIZE) % WORD) 1
          else s) s).pages = s.pages ∧
      ((List.range m).foldl (fun s i =>
          if (s.pages T i).Present then
            physical_free s (((s.pages T i).PageFrameNumber * PAGE_SIZE) % WORD) 1
          else s) s).depth = s.depth ∧
      (∀ f, ((List.range m).foldl (fun s i =>
          if (s.pages T i).Present then
            physical_free s (((s.pages T i).PageFrameNumber * PAGE_SIZE) % WORD) 1
          else s) s).MEMORY f = true → s.MEMORY f = true) ∧
      (∀ q, q < m → (s.pages T q).Present = true →
        ((List.range m).foldl (fun s i =>
          if (s.pages T i).Present then
            physical_free s (((s.pages T i).PageFrameNumber * PAGE_SIZE) % WORD) 1
          else s) s).MEMORY (s.pages T q).PageFrameNumber = false) ∧
      (∀ f, s.MEMORY f = true →
        ((List.range m).foldl (fun s i =>
          if (s.pages T i).Present then
            physical_free s (((s.pages T i).PageFrameNumber * PAGE_SIZE) % WORD) 1
          else s) s).MEMORY f = false →
        ∃ q, q < m ∧ (s.pages T q).Present = true ∧ f = (s.pages T q).PageFrameNumber) := by
  intro m
  induction m with
  | zero =>
    intro _
    refine ⟨rfl, rfl, fun f h => h, fun q hq => absurd hq (Nat.not_lt_zero q), ?_⟩
    intro f h1 h2
    simp at h2
    rw [h1] at h2; cases h2
  | succ m ih =>
    intro hm
    obtain ⟨i1, i2, i3, i4, i5⟩ := ih (by omega)
    rw [List.range_succ, List.foldl_append]
    simp only [List.foldl_cons, List.foldl_nil]
    generalize (List.range m).foldl (fun s i =>
          if (s.pages T i).Present then
            physical_free s (((s.pages T i).PageFrameNumber * PAGE_SIZE) % WORD) 1
          else s) s = u at *
    rw [i1]
    by_cases hp : (s.pages T m).Present = true
    · rw [if_pos hp]
      obtain ⟨p1, p2, p3⟩ := physical_free_one_fields u _ (hl m (by omega) hp)
      refine ⟨p2.trans i1, p3.trans i2, ?_, ?_, ?_⟩
      · intro f hf
        rw [p1] at hf
        exact i3 f (setBits_false_le _ _ _ _ hf)
      · intro q hq hpq
        rw [p1, setBits_one_false]
        by_cases hqm : q = m
        · subst hqm; simp
        · split
          · rfl
          · exact i4 q (by omega) hpq
      · intro f h1 h2
        rw [p1, setBits_one_false] at h2
        by_cases hf : f = (s.pages T m).PageFrameNumber
        · exact ⟨m, by omega, hp, hf⟩
        · rw [if_neg hf] at h2
          obtain ⟨q, hq, hpq, hfq⟩ := i5 f h1 h2
          exact ⟨q, by omega, hpq, hfq⟩
    · rw [if_neg hp]
      refine ⟨i1, i2, i3, ?_, ?_⟩
      · intro q hq hpq
        by_cases hqm : q = m
        · subst hqm; exact absurd hpq hp
        · exact i4 q (by omega) hpq
      · intro f h1 h2
        obtain ⟨q, hq, hpq, hfq⟩ := i5 f h1 h2
        exact ⟨q, by omega, hpq, hfq⟩

theorem free_leaves_spec (s : Kernel) (T : Nat) (hT : T < PAGE_COUNT)
    (hl : ∀ q, q < 1024 → (s.pages T q).Present = true →
      (s.pages T q).PageFrameNumber < PAGE_COUNT) :
    (free_leaves s (T * PAGE_SIZE % WORD)).pages = s.pages ∧
    (free_leaves s (T * PAGE_SIZE % WORD)).depth = s.depth ∧
    (∀ f, (free_leaves s (T * PAGE_SIZE % WORD)).MEMORY f = true → s.MEMORY f = true) ∧
    (∀ q, q < 1024 → (s.pages T q).Present = true →
      (free_leaves s (T * PAGE_SIZE % WORD)).MEMORY (s.pages T q).PageFrameNumber = false) ∧
    (∀ f, s.MEMORY f = true → (free_leaves s (T * PAGE_SIZE % WORD)).MEMORY f = false →
      ∃ q, q < 1024 ∧ (s.pages T q).Present = true ∧ f = (s.pages T q).PageFrameNumber) := by
  have h1024 : (1024 : Nat) ≤ 1024 := Nat.le_refl _
  have key := free_leaves_prefix s T hl 1024 h1024
  have e : free_leaves s (T * PAGE_SIZE % WORD) =
      (List.range 1024).foldl (fun s i =>
          if (s.pages T i).Present then
            physical_free s (((s.pages T i).PageFrameNumber * PAGE_SIZE) % WORD) 1
          else s) s := by
    unfold free_leaves
    simp only [page_mod_word hT, mul_page_div]
  rw [e]
  exact key

/-- A page that is not a page table of the kernel directory keeps its contents
while a directory is being destroyed; so do the entries of both directories. -/
theorem Destroying.private_rows {s u : Kernel} {L : Layout} {P k : Nat}
    (h : Process s L P) (d : Destroying s u L P k) :
    (∀ j, pde u L.kpdir j = pde s L.kpdir j) ∧
    (∀ j, pde u P j = pde s P j) ∧
    (∀ i, 256 ≤ i → i < 1024 → (pde s P i).Present = true →
      u.pages (pde s P i).PageFrameNumber = s.pages (pde s P i).PageFrameNumber) := by
  refine ⟨?_, ?_, ?_⟩
  · intro j
    rw [pde_def, pde_def, d.rows _ (fun j hj hp => (h.kernel.table_ne_dir j hj hp).symm)]
  · intro j
    rw [pde_def, pde_def, d.rows _ (fun j hj hp => (h.dir_table j hj hp).symm)]
  · intro i h1 h2 hp
    exact d.rows _ (fun j hj hpj => h.tab_ktab i h1 h2 hp j hj hpj)

theorem Destroying.start {s : Kernel} {L : Layout} {P : Nat} (h : Process s L P) :
    Destroying s (atomic_begin s) L P 0 where
  wf := WF_congr (show s.pages = (atomic_begin s).pages from rfl) h.kernel
  rows := fun _ _ => rfl
  kview := fun _ _ _ hm => ⟨hm, rfl⟩
  mem_le := fun _ hf => hf
  freed := fun i h1 h2 _ _ => by omega
  only := fun f h1 h2 => by
    have h3 : s.MEMORY f = false := h2
    rw [h1] at h3; cases h3

/-- One iteration of the outer loop of `memory_pdir_destroy`. -/
theorem destroy_entry_step {s u : Kernel} {L : Layout} {P k : Nat}
    (h : Process s L P) (d : Destroying s u L P k) (hk : k < 768) :
    Destroying s (destroy_entry L u P (256 + k)) L P (k + 1) := by
  obtain ⟨r1, r2, r3⟩ := d.private_rows h
  unfold destroy_entry
  simp only
  rw [r2]
  by_cases hp : (pde s P (256 + k)).Present = true
  · rw [if_pos hp]
    have hT := h.tab_lt _ (by omega) (by omega) hp
    have hrow := r3 _ (by omega) (by omega) hp
    generalize hTdef : (pde s P (256 + k)).PageFrameNumber = T at *
    obtain ⟨a1, a2, a3, a4, a5⟩ := free_leaves_spec u T hT (by
      intro q hq hpq
      rw [hrow] at hpq ⊢
      have := h.leaf_lt _ (by omega) (by omega) hp q hq (by rw [hTdef]; exact hpq)
      rw [hTdef] at this
      exact this)
    generalize free_leaves u (T * PAGE_SIZE % WORD) = u1 at *
    rw [page_mod_word hT]
    -- the page of the table is still mapped onto itself in the kernel directory
    have hid := h.tab_id _ (by omega) (by omega) hp
    rw [hTdef] at hid
    have hkv := d.kview T hT (by
      intro i h1 h2 hpi he
      have := h.tab_inj _ _ (by omega) (by omega) h1 (by omega) hp hpi (by rw [hTdef]; exact he)
      omega) hid.1
    have hm1 : mapped u1 L.kpdir T := by
      unfold mapped; rw [page_present_congr a1]; exact hkv.1
    have hpte1 : pte u1 L.kpdir (T * PAGE_SIZE) = pte s L.kpdir (T * PAGE_SIZE) := by
      rw [pte_congr a1]; exact hkv.2
    have w1 : WF u1 L.kpdir := WF_congr a1.symm d.wf
    have hpde1 : ∀ j, pde u1 L.kpdir j = pde s L.kpdir j := by
      intro j; rw [pde_congr a1]; exact r1 j
    have hv2p : virtual2physical u1 L.kpdir (T * PAGE_SIZE) = T * PAGE_SIZE :=
      virtual2physical_page hpte1 hid.2 (by unfold FRAME_COUNT; unfold PAGE_COUNT at hT; exact hT)
    have hne := h.tab_ne _ (by omega) (by omega) hp
    rw [hTdef] at hne
    have hkt := h.tab_ktab _ (by omega) (by omega) hp
    rw [hTdef] at hkt
    rw [memory_free_one (by rw [mul_page_div]; exact hT) (by rw [mul_page_div]; exact hm1),
      mul_page_div, hv2p]
    have hpk : (pde u1 L.kpdir (T / 1024)).Present = true := pde_of_mapped hm1
    obtain ⟨c1, c2, c3, c4, c5⟩ := @clear_pte
      (physical_free u1 (T * PAGE_SIZE) 1) L.kpdir T
      (WF_congr (show u1.pages = (physical_free u1 (T * PAGE_SIZE) 1).pages from rfl) w1)
      hT hpk hne.2
      (fun j hj hpj => by
        have e : pde (physical_free u1 (T * PAGE_SIZE) 1) L.kpdir j = pde s L.kpdir j := hpde1 j
        rw [e] at hpj ⊢
        exact hkt j hj hpj)
      { pte u1 L.kpdir (T * PAGE_SIZE) with Present := false } rfl
    change Destroying s (writeEntry (physical_free u1 (T * PAGE_SIZE) 1)
      (pde (physical_free u1 (T * PAGE_SIZE) 1) L.kpdir (T / 1024)).PageFrameNumber (T % 1024)
      { pte u1 L.kpdir (T * PAGE_SIZE) with Present := false }) L P (k + 1)
    have hM : ∀ f, (physical_free u1 (T * PAGE_SIZE) 1).MEMORY f
        = if f = T then false else u1.MEMORY f := by
      intro f
      show setBits u1.MEMORY (T * PAGE_SIZE / PAGE_SIZE) 1 false f = _
      rw [mul_page_div, setBits_one_false]
    exact {
      wf := c5
      rows := fun r hr => by
        rw [show (writeEntry (physical_free u1 (T * PAGE_SIZE) 1)
            (pde (physical_free u1 (T * PAGE_SIZE) 1) L.kpdir (T / 1024)).PageFrameNumber
            (T % 1024)
            { pte u1 L.kpdir (T * PAGE_SIZE) with Present := false }).pages r
            = u1.pages r from by
          funext q
          rw [writeEntry_pages, if_neg]
          · rfl
          · rintro ⟨e1, _⟩
            have e2 : r = (pde u1 L.kpdir (T / 1024)).PageFrameNumber := e1
            rw [hpde1] at e2 hpk
            exact hr _ (page_index_lt hT) hpk e2]
        rw [a1]
        exact d.rows r hr
      kview := fun z hz hzi hm => by
        have hzT : z ≠ T := by
          have := hzi (256 + k) (by omega) (by omega) hp
          rw [hTdef] at this; exact this
        have hk1 := d.kview z hz (fun i h1 h2 hpi => hzi i h1 (by omega) hpi) hm
        have hmu1 : mapped u1 L.kpdir z := by
          unfold mapped; rw [page_present_congr a1]; exact hk1.1
        refine ⟨(c3 z hz hzT).2 hmu1, ?_⟩
        rw [c2 z hz hzT (pde_of_mapped hmu1)]
        show pte u1 L.kpdir (z * PAGE_SIZE) = _
        rw [pte_congr a1]
        exact hk1.2
      mem_le := fun f hf => by
        have hf' : (physical_free u1 (T * PAGE_SIZE) 1).MEMORY f = true := hf
        rw [hM] at hf'
        split at hf'
        · cases hf'
        · exact d.mem_le f (a3 f hf')
      freed := fun i h1 h2 h3 hpi f hr => by
        show (physical_free u1 (T * PAGE_SIZE) 1).MEMORY f = false
        rw [hM]
        split
        · rfl
        · rename_i hfT
          by_cases hik : i = 256 + k
          · subst hik
            rcases hr with hr | ⟨q, hq, hpq, hfq⟩
            · rw [hTdef] at hr; exact absurd hr hfT
            · rw [hTdef] at hpq hfq
              rw [← hrow] at hpq hfq
              rw [hfq]
              exact a4 q hq hpq
          · have := d.freed i h1 (by omega) h3 hpi f hr
            cases hu1 : u1.MEMORY f with
            | false => rfl
            | true => rw [a3 f hu1] at this; cases this
      only := fun f hs hf => by
        have hf' : (physical_free u1 (T * PAGE_SIZE) 1).MEMORY f = false := hf
        rw [hM] at hf'
        by_cases hfT : f = T
        · exact ⟨256 + k, by omega, by omega, by omega, hp, Or.inl (by rw [hTdef]; exact hfT)⟩
        · rw [if_neg hfT] at hf'
          by_cases hu : u.MEMORY f = true
          · obtain ⟨q, hq, hpq, hfq⟩ := a5 f hu hf'
            rw [hrow] at hpq hfq
            exact ⟨256 + k, by omega, by omega, by omega, hp,
              Or.inr ⟨q, hq, by rw [hTdef]; exact hpq, by rw [hTdef]; exact hfq⟩⟩
          · have hu' : u.MEMORY f = false := by
              cases hq : u.MEMORY f with
              | false => rfl
              | true => exact absurd hq hu
            obtain ⟨i, h1, h2, h3, h4, h5⟩ := d.only f hs hu'
            exact ⟨i, h1, by omega, h3, h4, h5⟩ }
  · rw [if_neg hp]
    exact {
      wf := d.wf
      rows := d.rows
      kview := fun z hz hzi hm => d.kview z hz (fun i h1 h2 hpi => hzi i h1 (by omega) hpi) hm
      mem_le := d.mem_le
      freed := fun i h1 h2 h3 hpi f hr => by
        by_cases hik : i = 256 + k
        · subst hik; exact absurd hpi hp
        · exact d.freed i h1 (by omega) h3 hpi f hr
      only := fun f hs hf => by
        obtain ⟨i, h1, h2, h3, h4, h5⟩ := d.only f hs hf
        exact ⟨i, h1, by omega, h3, h4, h5⟩ }

theorem destroy_loop {s : Kernel} {L : Layout} {P : Nat} (h : Process s L P) :
    ∀ k, k ≤ 768 →
      Destroying s
        ((List.range k).foldl (fun s k => destroy_entry L s P (256 + k)) (atomic_begin s))
        L P k := by
  intro k
  induction k with
  | zero => intro _; exact Destroying.start h
  | succ k ih =>
    intro hk
    rw [List.range_succ, List.foldl_append]
    exact destroy_entry_step h (ih (by omega)) (by omega)

theorem frame_of_translation {s : Kernel} {pdir v : Nat}
    (h : (pte s pdir (v / PAGE_SIZE * PAGE_SIZE)).PageFrameNumber < PAGE_COUNT) :
    virtual2physical s pdir v / PAGE_SIZE
      = (pte s pdir (v / PAGE_SIZE * PAGE_SIZE)).PageFrameNumber := by
  unfold virtual2physical
  rw [(page_of_addr s pdir v).2]
  generalize (pte s pdir (v / PAGE_SIZE * PAGE_SIZE)).PageFrameNumber = f at *
  unfold PAGE_COUNT at h
  unfold PAGE_SIZE WORD
  omega

/-- What `memory_pdir_destroy` does to the bitmap and to the directory page of a
process directory. -/
theorem memory_pdir_destroy_spec {s : Kernel} {L : Layout} {P : Nat} (h : Process s L P) :
    (∀ f, (memory_pdir_destroy L s P).MEMORY f = true → s.MEMORY f = true) ∧
    (∀ i, 256 ≤ i → i < 1024 → (pde s P i).Present = true →
      ∀ f, reachable s P i f → (memory_pdir_destroy L s P).MEMORY f = false) ∧
    (memory_pdir_destroy L s P).MEMORY (virtual2physical s L.kpdir P / PAGE_SIZE) = false ∧
    (∀ f, s.MEMORY f = true → (memory_pdir_destroy L s P).MEMORY f = false →
      f = virtual2physical s L.kpdir P / PAGE_SIZE ∨
      ∃ i, 256 ≤ i ∧ i < 1024 ∧ (pde s P i).Present = true ∧ reachable s P i f) ∧
    (∀ q, (memory_pdir_destroy L s P).pages (P / PAGE_SIZE) q = s.pages (P / PAGE_SIZE) q) := by
  have d := destroy_loop h 768 (Nat.le_refl _)
  obtain ⟨r1, _, _⟩ := d.private_rows h
  unfold memory_pdir_destroy
  simp only
  generalize (List.range 768).foldl (fun s k => destroy_entry L s P (256 + k)) (atomic_begin s)
    = u at *
  have hkv := d.kview (P / PAGE_SIZE) h.dir_lt
    (fun i h1 h2 hp => (h.tab_ne i h1 (by omega) hp).1.symm) h.dir_mapped
  rw [memory_free_one h.dir_lt hkv.1]
  have hfu : virtual2physical u L.kpdir P / PAGE_SIZE
      = virtual2physical s L.kpdir P / PAGE_SIZE := by
    rw [frame_of_translation (by rw [hkv.2]; exact h.dir_frame),
      frame_of_translation h.dir_frame, hkv.2]
  have hM : ∀ f, (atomic_end (writeEntry (physical_free u (virtual2physical u L.kpdir P) 1)
      (pde u L.kpdir (P / PAGE_SIZE / 1024)).PageFrameNumber (P / PAGE_SIZE % 1024)
      { pte u L.kpdir (P / PAGE_SIZE * PAGE_SIZE) with Present := false })).MEMORY f
      = if f = virtual2physical s L.kpdir P / PAGE_SIZE then false else u.MEMORY f := by
    intro f
    show setBits u.MEMORY (virtual2physical u L.kpdir P / PAGE_SIZE) 1 false f = _
    rw [setBits_one_false, hfu]
  refine ⟨?_, ?_, ?_, ?_, ?_⟩
  · intro f hf
    rw [hM] at hf
    split at hf
    · cases hf
    · exact d.mem_le f hf
  · intro i h1 h2 hp f hr
    rw [hM]
    split
    · rfl
    · exact d.freed i h1 (by omega) h2 hp f hr
  · rw [hM, if_pos rfl]
  · intro f hs hf
    rw [hM] at hf
    by_cases hfd : f = virtual2physical s L.kpdir P / PAGE_SIZE
    · exact Or.inl hfd
    · rw [if_neg hfd] at hf
      obtain ⟨i, h1, _, h3, h4, h5⟩ := d.only f hs hf
      exact Or.inr ⟨i, h1, h3, h4, h5⟩
  · intro q
    show (writeEntry (physical_free u (virtual2physical u L.kpdir P) 1)
      (pde u L.kpdir (P / PAGE_SIZE / 1024)).PageFrameNumber (P / PAGE_SIZE % 1024)
      { pte u L.kpdir (P / PAGE_SIZE * PAGE_SIZE) with Present := false }).pages
        (P / PAGE_SIZE) q = _
    rw [writeEntry_pages, if_neg]
    · show u.pages (P / PAGE_SIZE) q = _
      rw [d.rows _ (fun j hj hp => (h.dir_table j hj hp).symm)]
    · rintro ⟨e1, _⟩
      have hp := pde_of_mapped hkv.1
      rw [r1] at e1 hp
      exact h.dir_table _ (page_index_lt h.dir_lt) hp e1.symm

/-- C8: for a process directory, after `memory_pdir_destroy` the bitmap bit of every
frame reachable from its private entries 256..1023 is clear: the page-table frame
of each present private entry, each present leaf frame of that table, and the
frame of the directory itself. -/
theorem memory_pdir_destroy_frees (L : Layout) (s : Kernel) (P : Nat) (h : Process s L P) :
    (∀ i, 256 ≤ i → i < 1024 → (pde s P i).Present = true →
      (memory_pdir_destroy L s P).MEMORY (pde s P i).PageFrameNumber = false ∧
      ∀ q, q < 1024 → (s.pages (pde s P i).PageFrameNumber q).Present = true →
        (memory_pdir_destroy L s P).MEMORY
          (s.pages (pde s P i).PageFrameNumber q).PageFrameNumber = false) ∧
    (memory_pdir_destroy L s P).MEMORY (virtual2physical s L.kpdir P / PAGE_SIZE) = false := by
  obtain ⟨_, h2, h3, _, _⟩ := memory_pdir_destroy_spec h
  refine ⟨fun i h1 hi hp => ⟨h2 i h1 hi hp _ (Or.inl rfl), ?_⟩, h3⟩
  intro q hq hpq
  exact h2 i h1 hi hp _ (Or.inr ⟨q, hq, hpq, rfl⟩)

theorem procState_kpde (j : Nat) :
    pde procState 0x100000 j = if j < 256 then kernel_entry layout0 j else Entry.zero := by
  simp [pde, procState, PAGE_SIZE]

theorem procState_pde (j : Nat) :
    pde procState 0x258000 j =
      if j < 256 then kernel_entry layout0 j
      else if j = 256 then ⟨true, true, true, 601⟩ else Entry.zero := by
  simp [pde, procState, PAGE_SIZE]

theorem procState_kmapped {x : Nat} (h : (256 ≤ x ∧ x ≤ 512) ∨ x = 600 ∨ x = 601) :
    mapped procState 0x100000 x := by
  rw [mapped_iff]
  have hx : x / 1024 = 0 := by omega
  have hm : x % 1024 = x := by omega
  rw [hx, hm, procState_kpde, if_pos (by omega), kernel_entry_frame 0 (by omega)]
  refine ⟨rfl, ?_⟩
  rcases h with h | h | h
  · simp [procState, h.1, h.2]
  · subst h; decide
  · subst h; decide

theorem procState_WF : WF procState 0x100000 := by
  constructor
  · intro j hj; rw [procState_kpde, if_pos hj]; rfl
  · exact procState_kmapped (Or.inl ⟨by decide, by decide⟩)
  · decide
  · intro j hj hp
    rw [procState_kpde] at hp ⊢
    by_cases h : j < 256
    · rw [if_pos h, kernel_entry_frame j h]; unfold PAGE_COUNT; omega
    · rw [if_neg h] at hp; cases hp
  · intro j hj hp
    rw [procState_kpde] at hp ⊢
    by_cases h : j < 256
    · rw [if_pos h, kernel_entry_frame j h]
      exact procState_kmapped (Or.inl ⟨by omega, by omega⟩)
    · rw [if_neg h] at hp; cases hp
  · intro j hj hp
    rw [procState_kpde] at hp ⊢
    by_cases h : j < 256
    · rw [if_pos h, kernel_entry_frame j h]; simp only [PAGE_SIZE]; omega
    · rw [if_neg h] at hp; cases hp
  · intro j k hj hk hpj hpk he
    rw [procState_kpde] at hpj hpk he
    rw [procState_kpde] at he
    by_cases h : j < 256
    · by_cases h' : k < 256
      · rw [if_pos h, if_pos h', kernel_entry_frame j h, kernel_entry_frame k h'] at he
        omega
      · rw [if_neg h'] at hpk; cases hpk
    · rw [if_neg h] at hpj; cases hpj

/-- The private entries of the directory of `procState`: entry 256 only. -/
theorem procState_private {i : Nat} (h1 : 256 ≤ i)
    (hp : (pde procState 0x258000 i).Present = true) :
    i = 256 ∧ (pde procState 0x258000 i).PageFrameNumber = 601 := by
  rw [procState_pde] at hp ⊢
  rw [if_neg (by omega)] at hp ⊢
  by_cases h : i = 256
  · rw [if_pos h]; exact ⟨h, rfl⟩
  · rw [if_neg h] at hp; cases hp

theorem procState_Process : Process procState layout0 0x258000 := by
  constructor
  · exact procState_WF
  · decide
  · decide
  · exact procState_kmapped (Or.inr (Or.inl (by decide)))
  · decide
  · intro j hj hp
    have e : pde procState layout0.kpdir j = pde procState 0x100000 j := rfl
    rw [e, procState_kpde] at hp ⊢
    by_cases h : j < 256
    · rw [if_pos h, kernel_entry_frame j h]; simp only [PAGE_SIZE]; omega
    · rw [if_neg h] at hp; cases hp
  · intro i h1 _ hp
    rw [(procState_private h1 hp).2]; decide
  · intro i h1 _ hp
    rw [(procState_private h1 hp).2]; decide
  · intro i h1 _ hp j hj hpj
    have e : pde procState layout0.kpdir j = pde procState 0x100000 j := rfl
    rw [(procState_private h1 hp).2]
    rw [e, procState_kpde] at hpj ⊢
    by_cases h : j < 256
    · rw [if_pos h, kernel_entry_frame j h]; omega
    · rw [if_neg h] at hpj; cases hpj
  · intro i k h1 _ h3 _ hpi hpk _
    rw [(procState_private h1 hpi).1, (procState_private h3 hpk).1]
  · intro i h1 _ hp
    rw [(procState_private h1 hp).2]
    exact ⟨procState_kmapped (Or.inr (Or.inr rfl)), by decide⟩
  · intro i h1 _ hp q hq hpq
    rw [(procState_private h1 hp).2] at hpq ⊢
    have e : ∀ q, procState.pages 601 q = if q = 0 then ⟨true, true, true, 800⟩ else Entry.zero := by
      intro q; simp [procState]
    rw [e] at hpq ⊢
    by_cases h0 : q = 0
    · rw [if_pos h0]; decide
    · rw [if_neg h0] at hpq; cases hpq

/-- Witness for C8: the process directory of `procState` has entry 256 present; its
page table in frame 601, its leaf in frame 800 and the directory's frame 700 are
all released. -/
theorem memory_pdir_destroy_frees_witness :
    (pde procState 0x258000 256).Present = true ∧
    (∀ i, 256 ≤ i → i < 1024 → (pde procState 0x258000 i).Present = true →
      (memory_pdir_destroy layout0 procState 0x258000).MEMORY
        (pde procState 0x258000 i).PageFrameNumber = false ∧
      ∀ q, q < 1024 →
        (procState.pages (pde procState 0x258000 i).PageFrameNumber q).Present = true →
        (memory_pdir_destroy layout0 procState 0x258000).MEMORY
          (procState.pages (pde procState 0x258000 i).PageFrameNumber q).PageFrameNumber
            = false) ∧
    (memory_pdir_destroy layout0 procState 0x258000).MEMORY
      (virtual2physical procState layout0.kpdir 0x258000 / PAGE_SIZE) = false :=
  ⟨by decide, memory_pdir_destroy_frees layout0 procState 0x258000 procState_Process⟩

/-! ## `memory_pdir_destroy` does not depend on the entries 0..255 -/

theorem kernel_eq {a b : Kernel} (h1 : a.MEMORY = b.MEMORY)
    (h2 : a.USED_MEMORY = b.USED_MEMORY) (h3 : a.TOTAL_MEMORY = b.TOTAL_MEMORY)
    (h4 : a.pages = b.pages) (h5 : a.depth = b.depth) (h6 : a.initialized = b.initialized) :
    a = b := by
  cases a; cases b
  simp only at h1 h2 h3 h4 h5 h6
  subst h1 h2 h3 h4 h5 h6
  rfl

theorem set_low_entries_pages (s : Kernel) (P : Nat) (g : Nat → Entry) (r q : Nat) :
    (set_low_entries s P g).pages r q =
      if r = P / PAGE_SIZE ∧ q < 256 then g q else s.pages r q := rfl

theorem set_low_entries_row (s : Kernel) (P : Nat) (g : Nat → Entry) {r : Nat}
    (hr : r ≠ P / PAGE_SIZE) : (set_low_entries s P g).pages r = s.pages r := by
  funext q
  rw [set_low_entries_pages, if_neg (fun h => hr h.1)]

theorem writeEntry_set_low_entries (s : Kernel) (P : Nat) (g : Nat → Entry) (r q : Nat)
    (e : Entry) (hr : r ≠ P / PAGE_SIZE) :
    writeEntry (set_low_entries s P g) r q e = set_low_entries (writeEntry s r q e) P g := by
  apply kernel_eq <;> try rfl
  funext m j
  rw [writeEntry_pages, set_low_entries_pages, set_low_entries_pages, writeEntry_pages]
  by_cases h1 : m = r ∧ j = q
  · have h2 : ¬ (m = P / PAGE_SIZE ∧ j < 256) := fun h => hr (h1.1 ▸ h.1)
    simp only [if_pos h1, if_neg h2]
  · simp only [if_neg h1]

theorem free_leaves_set_low_entries (s : Kernel) (P : Nat) (g : Nat → Entry) (pt : Nat)
    (hr : pt / PAGE_SIZE ≠ P / PAGE_SIZE) :
    free_leaves (set_low_entries s P g) pt = set_low_entries (free_leaves s pt) P g := by
  unfold free_leaves
  simp only
  generalize List.range 1024 = l
  induction l generalizing s with
  | nil => rfl
  | cons i l ih =>
    rw [List.foldl_cons, List.foldl_cons, set_low_entries_row s P g hr]
    by_cases hp : (s.pages (pt / PAGE_SIZE) i).Present = true
    · rw [if_pos hp, if_pos hp]
      exact ih (physical_free s ((s.pages (pt / PAGE_SIZE) i).PageFrameNumber * PAGE_SIZE % WORD) 1)
    · rw [if_neg hp, if_neg hp]
      exact ih s

theorem free_leaves_pages (s : Kernel) (pt : Nat) : (free_leaves s pt).pages = s.pages := by
  unfold free_leaves
  simp only
  generalize List.range 1024 = l
  induction l generalizing s with
  | nil => rfl
  | cons i l ih =>
    rw [List.foldl_cons]
    split
    · rw [ih]; rfl
    · exact ih s

/-- Freeing a page through a directory whose page and page tables are not the page
of `P` commutes with replacing the entries 0..255 of `P`. -/
theorem memory_free_one_set_low_entries {u : Kernel} {K P v : Nat} (g : Nat → Entry)
    (hv : v / PAGE_SIZE < PAGE_COUNT) (hm : mapped u K (v / PAGE_SIZE))
    (hK : K / PAGE_SIZE ≠ P / PAGE_SIZE)
    (hT : (pde u K (v / PAGE_SIZE / 1024)).PageFrameNumber ≠ P / PAGE_SIZE) :
    memory_free (set_low_entries u P g) K v 1 = set_low_entries (memory_free u K v 1) P g := by
  have hpde : ∀ j, pde (set_low_entries u P g) K j = pde u K j := by
    intro j
    rw [pde_def, pde_def, set_low_entries_row u P g hK]
  have hpte : pte (set_low_entries u P g) K (v / PAGE_SIZE * PAGE_SIZE)
      = pte u K (v / PAGE_SIZE * PAGE_SIZE) := by
    rw [pte_page, pte_page, hpde, set_low_entries_row u P g hT]
  have hm' : mapped (set_low_entries u P g) K (v / PAGE_SIZE) := by
    have := (mapped_iff u K (v / PAGE_SIZE)).1 hm
    apply mapped_of_pte
    · rw [hpde]; exact this.1
    · rw [hpte, pte_page]; exact this.2
  have hv2p : virtual2physical (set_low_entries u P g) K v = virtual2physical u K v := by
    unfold virtual2physical
    rw [(page_of_addr _ K v).2, hpte, ← (page_of_addr u K v).2]
  rw [memory_free_one hv hm', memory_free_one hv hm, hpde, hpte, hv2p]
  exact writeEntry_set_low_entries (physical_free u (virtual2physical u K v) 1) P g _ _ _ hT

theorem destroy_entry_set_low_entries {s u : Kernel} {L : Layout} {P k : Nat}
    (h : Process s L P) (d : Destroying s u L P k) (hk : k < 768) (g : Nat → Entry) :
    destroy_entry L (set_low_entries u P g) P (256 + k) =
      set_low_entries (destroy_entry L u P (256 + k)) P g := by
  obtain ⟨r1, r2, r3⟩ := d.private_rows h
  have hpde : pde (set_low_entries u P g) P (256 + k) = pde u P (256 + k) := by
    rw [pde_def, pde_def, set_low_entries_pages, if_neg (by omega)]
  unfold destroy_entry
  simp only
  rw [hpde, r2]
  by_cases hp : (pde s P (256 + k)).Present = true
  · rw [if_pos hp, if_pos hp]
    have hT := h.tab_lt _ (by omega) (by omega) hp
    have hne := h.tab_ne _ (by omega) (by omega) hp
    have hid := h.tab_id _ (by omega) (by omega) hp
    have hinj : ∀ i, 256 ≤ i → i < 256 + k → (pde s P i).Present = true →
        (pde s P (256 + k)).PageFrameNumber ≠ (pde s P i).PageFrameNumber := by
      intro i h1 h2 hpi he
      have := h.tab_inj _ _ (by omega) (by omega) h1 (by omega) hp hpi he
      omega
    generalize (pde s P (256 + k)).PageFrameNumber = T at *
    rw [page_mod_word hT,
      free_leaves_set_low_entries u P g (T * PAGE_SIZE) (by rw [mul_page_div]; exact hne.1)]
    have hfl := free_leaves_pages u (T * PAGE_SIZE)
    have hkv := d.kview T hT hinj hid.1
    have hm1 : mapped (free_leaves u (T * PAGE_SIZE)) L.kpdir T := by
      unfold mapped; rw [page_present_congr hfl]; exact hkv.1
    apply memory_free_one_set_low_entries g (by rw [mul_page_div]; exact hT)
      (by rw [mul_page_div]; exact hm1) h.dirs
    rw [mul_page_div, pde_congr hfl, r1]
    apply h.dir_table _ (page_index_lt hT)
    rw [← r1]
    exact pde_of_mapped hkv.1
  · rw [if_neg hp, if_neg hp]

theorem destroy_loop_set_low_entries {s : Kernel} {L : Layout} {P : Nat} (h : Process s L P)
    (g : Nat → Entry) :
    ∀ k, k ≤ 768 →
      (List.range k).foldl (fun s k => destroy_entry L s P (256 + k))
          (atomic_begin (set_low_entries s P g)) =
        set_low_entries
          ((List.range k).foldl (fun s k => destroy_entry L s P (256 + k)) (atomic_begin s))
          P g := by
  intro k
  induction k with
  | zero => intro _; rfl
  | succ k ih =>
    intro hk
    rw [List.range_succ, List.foldl_append, List.foldl_append, ih (by omega)]
    exact destroy_entry_set_low_entries h (destroy_loop h k (by omega)) (by omega) g

/-- The function `memory_pdir_destroy` commutes with replacing the entries 0..255
of the directory it destroys. -/
theorem memory_pdir_destroy_set_low_entries {s : Kernel} {L : Layout} {P : Nat}
    (h : Process s L P) (g : Nat → Entry) :
    memory_pdir_destroy L (set_low_entries s P g) P =
      set_low_entries (memory_pdir_destroy L s P) P g := by
  have d := destroy_loop h 768 (Nat.le_refl _)
  obtain ⟨r1, _, _⟩ := d.private_rows h
  unfold memory_pdir_destroy
  simp only
  rw [destroy_loop_set_low_entries h g 768 (Nat.le_refl _)]
  generalize (List.range 768).foldl (fun s k => destroy_entry L s P (256 + k)) (atomic_begin s)
    = u at *
  have hkv := d.kview (P / PAGE_SIZE) h.dir_lt
    (fun i h1 h2 hp => (h.tab_ne i h1 (by omega) hp).1.symm) h.dir_mapped
  rw [memory_free_one_set_low_entries g h.dir_lt hkv.1 h.dirs (by
    rw [r1]
    apply h.dir_table _ (page_index_lt h.dir_lt)
    rw [← r1]
    exact pde_of_mapped hkv.1)]
  rfl

/-- C9: `memory_pdir_destroy` of a process directory leaves the entries 0..255 of
the directory as they are; every bitmap bit it clears is the frame of the
directory, the page-table frame of a present private entry (256..1023) or a
present leaf frame of such a table; and the resulting state does not depend on
the contents of the entries 0..255: with other contents `g` in their place the
result is the same state with `g` in their place. -/
theorem memory_pdir_destroy_frame (L : Layout) (s : Kernel) (P : Nat) (h : Process s L P) :
    (∀ q, q < 256 → pde (memory_pdir_destroy L s P) P q = pde s P q) ∧
    (∀ f, s.MEMORY f = true → (memory_pdir_destroy L s P).MEMORY f = false →
      f = virtual2physical s L.kpdir P / PAGE_SIZE ∨
      ∃ i, 256 ≤ i ∧ i < 1024 ∧ (pde s P i).Present = true ∧
        (f = (pde s P i).PageFrameNumber ∨
         ∃ q, q < 1024 ∧ (s.pages (pde s P i).PageFrameNumber q).Present = true ∧
           f = (s.pages (pde s P i).PageFrameNumber q).PageFrameNumber)) ∧
    (∀ g : Nat → Entry,
      memory_pdir_destroy L (set_low_entries s P g) P =
        set_low_entries (memory_pdir_destroy L s P) P g) := by
  obtain ⟨_, _, _, h4, h5⟩ := memory_pdir_destroy_spec h
  exact ⟨fun q _ => h5 q, h4, fun g => memory_pdir_destroy_set_low_entries h g⟩

/-- Witness for C9: the process directory of `procState`. -/
theorem memory_pdir_destroy_frame_witness :
    (pde procState 0x258000 256).Present = true ∧
    (∀ q, q < 256 →
      pde (memory_pdir_destroy layout0 procState 0x258000) 0x258000 q
        = pde procState 0x258000 q) ∧
    (∀ f, procState.MEMORY f = true →
      (memory_pdir_destroy layout0 procState 0x258000).MEMORY f = false →
      f = virtual2physical procState layout0.kpdir 0x258000 / PAGE_SIZE ∨
      ∃ i, 256 ≤ i ∧ i < 1024 ∧ (pde procState 0x258000 i).Present = true ∧
        (f = (pde procState 0x258000 i).PageFrameNumber ∨
         ∃ q, q < 1024 ∧
           (procState.pages (pde procState 0x258000 i).PageFrameNumber q).Present = true ∧
           f = (procState.pages (pde procState 0x258000 i).PageFrameNumber q).PageFrameNumber)) ∧
    (∀ g : Nat → Entry,
      memory_pdir_destroy layout0 (set_low_entries procState 0x258000 g) 0x258000 =
        set_low_entries (memory_pdir_destroy layout0 procState 0x258000) 0x258000 g) :=
  ⟨by decide, memory_pdir_destroy_frame layout0 procState 0x258000 procState_Process⟩

/-! ## Failure of `memory_alloc_identity_page` -/

/-- The outcome of `memory_alloc_identity_page`, whatever the directory: the page
found by the scan, or `0` and the state as it was. -/
theorem memory_alloc_identity_page_outcome (s : Kernel) (pdir : Nat) :
    (∃ i, findIdentity s pdir (256 * 1024 - 1) 1 = some i ∧
      (memory_alloc_identity_page s pdir).1 = i * PAGE_SIZE) ∨
    (findIdentity s pdir (256 * 1024 - 1) 1 = none ∧ memory_alloc_identity_page s pdir = (0, s)) := by
  show (∃ i, _ ∧ (memory_alloc_identity_page_fuel (262143 + 1) s pdir).1 = _) ∨
    (_ ∧ memory_alloc_identity_page_fuel (262143 + 1) s pdir = _)
  unfold memory_alloc_identity_page_fuel
  simp only
  rw [findIdentity_congr (s := atomic_begin s) (t := s) rfl rfl]
  cases hf : findIdentity s pdir (256 * 1024 - 1) 1 with
  | none => right; simp only; rw [atomic_end_begin]; exact ⟨trivial, rfl⟩
  | some i => left; exact ⟨i, rfl, rfl⟩

/-- C11: `memory_alloc_identity_page` returns 0 if and only if every page index `i`
in 1..262143 is either present in the directory or has its frame marked used; in
that case the whole state (bitmap, `USED_MEMORY`, directory) is unchanged. -/
theorem memory_alloc_identity_page_fails_iff (s : Kernel) (pdir : Nat) :
    ((memory_alloc_identity_page s pdir).1 = 0 ↔
      ∀ i, 1 ≤ i → i < 256 * 1024 →
        page_present s pdir (i * PAGE_SIZE) = true ∨ s.MEMORY i = true) ∧
    ((memory_alloc_identity_page s pdir).1 = 0 → (memory_alloc_identity_page s pdir).2 = s) := by
  have hcand : ∀ i, candidate s pdir i = false ↔
      (page_present s pdir (i * PAGE_SIZE) = true ∨ s.MEMORY i = true) := by
    intro i
    unfold candidate
    cases page_present s pdir (i * PAGE_SIZE) <;> cases s.MEMORY i <;> simp
  rcases memory_alloc_identity_page_outcome s pdir with ⟨i, hf, hr⟩ | ⟨hf, hr⟩
  · obtain ⟨h1, h2, h3, _⟩ := findIdentity_some hf
    have hne : (memory_alloc_identity_page s pdir).1 ≠ 0 := by
      rw [hr]; unfold PAGE_SIZE; omega
    refine ⟨⟨fun h => absurd h hne, fun h => ?_⟩, fun h => absurd h hne⟩
    have := (hcand i).2 (h i h1 (by omega))
    rw [h3] at this; cases this
  · rw [hr]
    refine ⟨⟨fun _ i h1 h2 => ?_, fun _ => rfl⟩, fun _ => rfl⟩
    exact (hcand i).1 (findIdentity_none hf i h1 (by omega))

/-! ## The critical section on failure paths -/

theorem physical_alloc_depth (s : Kernel) (c : Nat) :
    (physical_alloc s c).2.depth = s.depth := by
  rcases physical_alloc_cases s c with h | ⟨i, _, h⟩
  · rw [h]
  · rw [h]; rfl

/-- When every page of the directory is present, a non-empty request fails, and
`memory_alloc` leaves the nesting depth as it found it. -/
theorem memory_alloc_no_room (s : Kernel) (pdir size flags : Nat) (hs : size ≠ 0)
    (hc : 0 < PAGE_ALIGN_UP size / PAGE_SIZE)
    (hall : ∀ i, page_present s pdir (i * PAGE_SIZE) = true) :
    (memory_alloc s pdir size flags).1 = 0 ∧
    (memory_alloc s pdir size flags).2.depth = s.depth := by
  have hv := virtual_alloc_no_room
    (physical_alloc (atomic_begin s) (PAGE_ALIGN_UP size / PAGE_SIZE)).2 pdir
    (physical_alloc (atomic_begin s) (PAGE_ALIGN_UP size / PAGE_SIZE)).1
    (PAGE_ALIGN_UP size / PAGE_SIZE) (flag_user flags)
    (fun i => by
      rw [page_present_congr (physical_alloc_pages (atomic_begin s) _) pdir]
      exact hall i) hc
  have hd : (physical_alloc (atomic_begin s) (PAGE_ALIGN_UP size / PAGE_SIZE)).2.depth - 1
      = s.depth := by
    rw [physical_alloc_depth]
    show s.depth + 1 - 1 = s.depth
    omega
  unfold memory_alloc
  rw [if_neg hs]
  by_cases hp : (physical_alloc (atomic_begin s) (PAGE_ALIGN_UP size / PAGE_SIZE)).1 = 0
  · simp only [hp, if_true]
    exact ⟨trivial, hd⟩
  · simp only [if_neg hp, hv, if_true]
    exact ⟨trivial, hd⟩

theorem memory_pdir_create_null (L : Layout) (s : Kernel)
    (h : (memory_alloc (atomic_begin s) L.kpdir PAGE_SIZE MEMORY_CLEAR).1 = 0) :
    memory_pdir_create L s =
      (0, (memory_alloc (atomic_begin s) L.kpdir PAGE_SIZE MEMORY_CLEAR).2) := by
  unfold memory_pdir_create
  simp only [h, if_true]

theorem memory_pdir_create_no_room (L : Layout) (s : Kernel)
    (hall : ∀ i, page_present s L.kpdir (i * PAGE_SIZE) = true) :
    (memory_pdir_create L s).1 = 0 ∧ (memory_pdir_create L s).2.depth = s.depth + 1 := by
  have h := memory_alloc_no_room (atomic_begin s) L.kpdir PAGE_SIZE MEMORY_CLEAR
    (by decide) (by decide) hall
  have e := memory_pdir_create_null L s h.1
  constructor
  · rw [e]
  · rw [e]
    exact h.2

/-- When every frame is used, a non-empty request fails in `physical_alloc`, and
`memory_alloc` leaves the nesting depth as it found it. -/
theorem memory_alloc_no_frame (s : Kernel) (pdir size flags : Nat) (hs : size ≠ 0)
    (hc : 0 < PAGE_ALIGN_UP size / PAGE_SIZE) (hall : ∀ f, s.MEMORY f = true) :
    (memory_alloc s pdir size flags).1 = 0 ∧
    (memory_alloc s pdir size flags).2.depth = s.depth := by
  have hp : physical_alloc (atomic_begin s) (PAGE_ALIGN_UP size / PAGE_SIZE)
      = (0, atomic_begin s) :=
    physical_alloc_none
      (findRun_none_of_forall (fun m _ _ => runFree_false_of_used (hall m) hc))
  unfold memory_alloc
  simp only [hs, if_false, hp, if_true]
  refine ⟨trivial, ?_⟩
  show s.depth + 1 - 1 = s.depth
  omega

theorem memory_pdir_create_no_frame (L : Layout) (s : Kernel) (hall : ∀ f, s.MEMORY f = true) :
    (memory_pdir_create L s).1 = 0 ∧ (memory_pdir_create L s).2.depth = s.depth + 1 := by
  have h := memory_alloc_no_frame (atomic_begin s) L.kpdir PAGE_SIZE MEMORY_CLEAR
    (by decide) (by decide) hall
  have e := memory_pdir_create_null L s h.1
  constructor
  · rw [e]
  · rw [e]
    exact h.2

/-- C15, evaluated at a state out of physical memory: `memory_pdir_create` enters
the critical section, `memory_alloc` fails, and the function returns `NULL`
(line 260 of `Memory.c`) without `atomic_end`; the nesting depth is one more than
before the call. -/
theorem memory_pdir_create_failure_depth :
    (memory_pdir_create layout0 noFrameState).1 = 0 ∧
    (memory_pdir_create layout0 noFrameState).2.depth = noFrameState.depth + 1 :=
  memory_pdir_create_no_frame layout0 noFrameState (fun _ => rfl)

/-! ## The byte counter -/

/-- C16, evaluated from the post-boot state: `memory_alloc_identity_page` hands out
page 1 through `physical_set_used`, which does not count it (`USED_MEMORY` stays
0); `memory_free` of that page goes through `physical_free`, which subtracts 4096:
the 32-bit counter wraps to `0xFFFFF000`, above `TOTAL_MEMORY`, while one frame
fewer is held than before. -/
theorem used_memory_wraps :
    bootState.USED_MEMORY = 0 ∧
    (memory_alloc_identity_page bootState 0x100000).1 = 0x1000 ∧
    (memory_alloc_identity_page bootState 0x100000).2.USED_MEMORY = 0 ∧
    (memory_free (memory_alloc_identity_page bootState 0x100000).2 0x100000
        (memory_alloc_identity_page bootState 0x100000).1 1).USED_MEMORY = 0xFFFFF000 ∧
    (memory_free (memory_alloc_identity_page bootState 0x100000).2 0x100000
        (memory_alloc_identity_page bootState 0x100000).1 1).TOTAL_MEMORY = 0x1000000 :=
  ⟨by decide, by decide, by decide, by decide, by decide⟩

/-! ## `memory_map` when the frames run out -/

/-- One iteration of the loop of `memory_map` for a page that is not present, when
`physical_alloc` finds frame `i`. -/
theorem memory_map_page_ok {s : Kernel} {pdir vaddr i : Nat} {user : Bool}
    (hnp : virtual_present s pdir vaddr 1 = false)
    (hi : findRun s.MEMORY 1 (FRAME_COUNT + 1 - 1) 0 = some i) :
    (if (!virtual_present s pdir vaddr 1) = true then
        virtual_map (physical_alloc s 1).2 pdir vaddr (physical_alloc s 1).1 1 user
      else s) = virtual_map (frames_taken s i 1) pdir vaddr (i * PAGE_SIZE) 1 user := by
  rw [hnp, physical_alloc_some hi]
  rfl

/-- One iteration of the loop of `memory_map` for a page that is not present, when
every frame is used: `physical_alloc` returns 0, and the page is mapped to
address 0. -/
theorem memory_map_page_exhausted {s : Kernel} {pdir vaddr : Nat} {user : Bool}
    (hnp : virtual_present s pdir vaddr 1 = false)
    (hfull : ∀ m, s.MEMORY m = true) :
    (if (!virtual_present s pdir vaddr 1) = true then
        virtual_map (physical_alloc s 1).2 pdir vaddr (physical_alloc s 1).1 1 user
      else s) = virtual_map s pdir vaddr 0 1 user := by
  have hn : physical_alloc s 1 = (0, s) :=
    physical_alloc_none
      (findRun_none_of_forall (fun m _ _ => runFree_false_of_used (hfull m) Nat.one_pos))
  rw [hnp, hn]
  rfl

theorem memory_map_two (s : Kernel) (pdir addr : Nat) (user : Bool) (t1 t2 : Kernel)
    (h1 : (if (!virtual_present (atomic_begin s) pdir ((addr + 0 * PAGE_SIZE) % WORD) 1) = true then
        virtual_map (physical_alloc (atomic_begin s) 1).2 pdir ((addr + 0 * PAGE_SIZE) % WORD)
          (physical_alloc (atomic_begin s) 1).1 1 user
      else atomic_begin s) = t1)
    (h2 : (if (!virtual_present t1 pdir ((addr + 1 * PAGE_SIZE) % WORD) 1) = true then
        virtual_map (physical_alloc t1 1).2 pdir ((addr + 1 * PAGE_SIZE) % WORD)
          (physical_alloc t1 1).1 1 user
      else t1) = t2) :
    memory_map s pdir addr 2 user = (0, atomic_end t2) := by
  unfold memory_map
  have e : List.range 2 = [0, 1] := rfl
  rw [e]
  simp only [List.foldl]
  rw [h1, h2]

/-- Mapping one page whose page table exists leaves the frame bitmap and the
counter alone. -/
theorem virtual_map_one_fields (s : Kernel) (pdir vaddr paddr : Nat) (user : Bool)
    (h : (pde s pdir (PD_INDEX (vaddr % WORD))).Present = true) :
    (virtual_map s pdir vaddr paddr 1 user).MEMORY = s.MEMORY ∧
    (virtual_map s pdir vaddr paddr 1 user).USED_MEMORY = s.USED_MEMORY := by
  unfold virtual_map
  rw [virtual_map_with_one, map_page_of_present _ _ _ _ _ _ h]
  exact ⟨rfl, rfl⟩

theorem lastFrameState_taken (m : Nat) :
    (virtual_map (frames_taken (atomic_begin lastFrameState) 5 1) 0x100000
      ((0x1000 + 0 * PAGE_SIZE) % WORD) (5 * PAGE_SIZE) 1 false).MEMORY m = true := by
  rw [(virtual_map_one_fields _ _ _ _ _ (by decide)).1]
  show setBits (fun f => !(f == 5)) 5 1 true m = true
  unfold setBits
  by_cases h : m = 5
  · subst h; decide
  · have : ¬ (5 ≤ m ∧ m < 5 + 1) := by omega
    rw [if_neg this]
    simp [h]

theorem memory_map_lastFrameState :
    memory_map lastFrameState 0x100000 0x1000 2 false =
      (0, atomic_end
        (virtual_map
          (virtual_map (frames_taken (atomic_begin lastFrameState) 5 1) 0x100000
            ((0x1000 + 0 * PAGE_SIZE) % WORD) (5 * PAGE_SIZE) 1 false)
          0x100000 ((0x1000 + 1 * PAGE_SIZE) % WORD) 0 1 false)) :=
  memory_map_two lastFrameState 0x100000 0x1000 false _ _
    (memory_map_page_ok (by decide) (by decide))
    (memory_map_page_exhausted (by decide) lastFrameState_taken)

/-- C14, evaluated at a state whose only free frame is frame 5:
`memory_map(kpdir, 0x1000, 2, 0)` obtains frame 5 for page `0x1000`; for page
`0x2000` every frame is used and `physical_alloc` returns 0, which `memory_map`
does not test (line 211 of `Memory.c`). The call returns 0 as on success, page
`0x2000` ends up present and translated to frame 0, which the call did not
obtain, and frame 5 stays taken: page `0x1000` is still mapped to it, its bit is
set and `USED_MEMORY` has grown by 4096. -/
theorem memory_map_exhausted_frames :
    lastFrameState.MEMORY 0 = true ∧ lastFrameState.MEMORY 5 = false ∧
    lastFrameState.USED_MEMORY = 0 ∧
    page_present lastFrameState 0x100000 0x1000 = false ∧
    page_present lastFrameState 0x100000 0x2000 = false ∧
    (memory_map lastFrameState 0x100000 0x1000 2 false).1 = 0 ∧
    page_present (memory_map lastFrameState 0x100000 0x1000 2 false).2 0x100000 0x2000 = true ∧
    virtual2physical (memory_map lastFrameState 0x100000 0x1000 2 false).2 0x100000 0x2000 = 0 ∧
    page_present (memory_map lastFrameState 0x100000 0x1000 2 false).2 0x100000 0x1000 = true ∧
    virtual2physical (memory_map lastFrameState 0x100000 0x1000 2 false).2 0x100000 0x1000
      = 0x5000 ∧
    (memory_map lastFrameState 0x100000 0x1000 2 false).2.MEMORY 5 = true ∧
    (memory_map lastFrameState 0x100000 0x1000 2 false).2.USED_MEMORY = 4096 := by
  rw [memory_map_lastFrameState]
  decide

/-! ## `memory_pdir_dump` -/

theorem dump_entry_absent (s : Kernel) (pdir i : Nat) (d : DumpState)
    (h : (pde s pdir i).Present = false) (hu : d.memory_used = false) :
    dump_entry s pdir d i = d := by
  unfold dump_entry
  simp [h, hu]

theorem dump_page_absent (s : Kernel) (pdir i j : Nat) (d : DumpState)
    (h : (s.pages ((pde s pdir i).PageFrameNumber * PAGE_SIZE % WORD / PAGE_SIZE) j).Present
      = false)
    (hu : d.memory_used = false) :
    dump_page s pdir i d j = d := by
  unfold dump_page
  simp [h, hu]

theorem dump_page_first (s : Kernel) (pdir i j : Nat) (d : DumpState)
    (h : (s.pages ((pde s pdir i).PageFrameNumber * PAGE_SIZE % WORD / PAGE_SIZE) j).Present
      = true)
    (hu : d.memory_used = false) :
    dump_page s pdir i d j = dump_region_start s pdir d ((i * 1024 + j) * PAGE_SIZE % WORD) := by
  unfold dump_page
  simp [h, hu]

/-- The dump of the user part of a directory whose only present page there is the
last page of the address space. -/
theorem memory_pdir_dump_last_page (s : Kernel) (pdir : Nat) (hinit : s.initialized = true)
    (hd : ∀ i, 256 ≤ i → i < 1023 → (pde s pdir i).Present = false)
    (hl : (pde s pdir 1023).Present = true)
    (ht : ∀ j, j < 1023 →
      (s.pages ((pde s pdir 1023).PageFrameNumber * PAGE_SIZE % WORD / PAGE_SIZE) j).Present
        = false)
    (hp : (s.pages ((pde s pdir 1023).PageFrameNumber * PAGE_SIZE % WORD / PAGE_SIZE) 1023).Present
        = true) :
    memory_pdir_dump s pdir true =
      [DumpEvent.region_start 0xFFFFF000 (virtual2physical s pdir 0xFFFFF000)] := by
  have e1 : List.range (1024 - 256) = List.range 767 ++ [767] := List.range_succ 767
  have e2 : List.range 1024 = List.range 1023 ++ [1023] := List.range_succ 1023
  have h1 : (List.range 767).foldl (fun d k => dump_entry s pdir d (256 + k))
      (⟨false, true, 0, []⟩ : DumpState) = ⟨false, true, 0, []⟩ :=
    foldl_noop _ _ _ (fun k hk => by
      have hk := List.mem_range.1 hk
      exact dump_entry_absent s pdir _ _ (hd _ (by omega) (by omega)) rfl)
  have h2 : (List.range 1023).foldl (dump_page s pdir 1023)
      (⟨false, true, 0, []⟩ : DumpState) = ⟨false, true, 0, []⟩ :=
    foldl_noop _ _ _ (fun j hj => dump_page_absent s pdir _ _ _ (ht j (List.mem_range.1 hj)) rfl)
  have h3 : dump_entry s pdir ⟨false, true, 0, []⟩ 1023 =
      dump_region_start s pdir ⟨false, true, 0, []⟩ 0xFFFFF000 := by
    unfold dump_entry
    rw [if_pos hl, e2, List.foldl_append, h2]
    exact dump_page_first s pdir 1023 1023 _ hp rfl
  unfold memory_pdir_dump
  simp only [hinit, Bool.not_true, if_true, e1, List.foldl_append, h1, List.foldl_cons,
    List.foldl_nil]
  rw [h3]
  rfl

/-- C20, evaluated at a directory whose only present user page is the last page of
the address space: the scan opens a region at `0xFFFFF000` and reaches the end of
both loops with `memory_used` still set; nothing after the loops closes the
region, so the output is one opening and no closing. -/
theorem memory_pdir_dump_unclosed :
    lastPageState.initialized = true ∧
    page_present lastPageState 0x100000 0xFFFFF000 = true ∧
    page_present lastPageState 0x100000 0xFFFFE000 = false ∧
    memory_pdir_dump lastPageState 0x100000 true =
      [DumpEvent.region_start 0xFFFFF000 0x400000] := by
  refine ⟨rfl, by decide, by decide, ?_⟩
  rw [memory_pdir_dump_last_page lastPageState 0x100000 rfl ?_ (by decide) ?_ (by decide)]
  · decide
  · intro i h1 h2
    have : 0x100000 / PAGE_SIZE = 0x100 := by decide
    simp only [pde, this, lastPageState, bootState]
    split_ifs <;> first | rfl | omega
  · intro j hj
    have : (pde lastPageState 0x100000 1023).PageFrameNumber * PAGE_SIZE % WORD / PAGE_SIZE
        = 0x300 := by decide
    rw [this]
    simp only [lastPageState, bootState]
    split_ifs <;> first | rfl | omega

/-! ## `memory_map_eternal` -/

theorem page_align_up_ceil {size : Nat} (h : size + PAGE_SIZE ≤ WORD) :
    PAGE_ALIGN_UP size / PAGE_SIZE = (size + PAGE_SIZE - 1) / PAGE_SIZE := by
  unfold PAGE_ALIGN_UP PAGE_SIZE WORD at *
  omega

theorem physical_set_used_WF {s : Kernel} {pdir : Nat} (w : WF s pdir) (addr n : Nat) :
    WF (physical_set_used (atomic_begin s) addr n) pdir :=
  WF_congr (show s.pages = (physical_set_used (atomic_begin s) addr n).pages from rfl) w

theorem atomic_end_view (s : Kernel) (pdir v : Nat) :
    page_present (atomic_end s) pdir v = page_present s pdir v ∧
    pte (atomic_end s) pdir v = pte s pdir v ∧
    virtual2physical (atomic_end s) pdir v = virtual2physical s pdir v := ⟨rfl, rfl, rfl⟩

/-- What `memory_map_eternal` does to a well-formed directory, for the range of `n`
pages that starts at page `x`: the state before `atomic_end`. -/
theorem memory_map_eternal_range {s : Kernel} {pdir x size : Nat} (w : WF s pdir)
    (hx : x + PAGE_ALIGN_UP size / PAGE_SIZE ≤ PAGE_COUNT)
    (ht : tables_obtained
      (physical_set_used (atomic_begin s) (x * PAGE_SIZE) (PAGE_ALIGN_UP size / PAGE_SIZE))
      pdir (x * PAGE_SIZE) (x * PAGE_SIZE) (PAGE_ALIGN_UP size / PAGE_SIZE) false) :
    ∃ t, memory_map_eternal s pdir (x * PAGE_SIZE) size = (0, atomic_end t) ∧
      MapRange (physical_set_used (atomic_begin s) (x * PAGE_SIZE)
        (PAGE_ALIGN_UP size / PAGE_SIZE)) t pdir x (PAGE_ALIGN_UP size / PAGE_SIZE)
        (fun k => ⟨true, true, false, x + k⟩) :=
  ⟨_, rfl, virtual_map_range x x false (physical_set_used_WF w _ _) _ hx hx ht⟩

/-- C12: `memory_map_eternal` on a well-formed directory, for a range whose base is
page-aligned and which lies in the 32-bit address space (the rounding of its size
does not wrap), when `virtual_map` obtains every page table it needs. With
`n = ceil(size / 4096)`: the call returns 0, the `n` bits from frame
`base / 4096` on are set, each of the `n` pages from `base` on is present, not
user-accessible and translates to its own address, and `USED_MEMORY` is unchanged. -/
theorem memory_map_eternal_spec (s : Kernel) (pdir base size : Nat) (w : WF s pdir)
    (hb : base % PAGE_SIZE = 0) (hsize : size + PAGE_SIZE ≤ WORD)
    (hx : base / PAGE_SIZE + (size + PAGE_SIZE - 1) / PAGE_SIZE ≤ PAGE_COUNT)
    (ht : tables_obtained
      (physical_set_used (atomic_begin s) base (PAGE_ALIGN_UP size / PAGE_SIZE))
      pdir base base (PAGE_ALIGN_UP size / PAGE_SIZE) false) :
    (memory_map_eternal s pdir base size).1 = 0 ∧
    (∀ k, k < (size + PAGE_SIZE - 1) / PAGE_SIZE →
      (memory_map_eternal s pdir base size).2.MEMORY (base / PAGE_SIZE + k) = true ∧
      page_present (memory_map_eternal s pdir base size).2 pdir (base + k * PAGE_SIZE) = true ∧
      (pte (memory_map_eternal s pdir base size).2 pdir (base + k * PAGE_SIZE)).User = false ∧
      virtual2physical (memory_map_eternal s pdir base size).2 pdir (base + k * PAGE_SIZE)
        = base + k * PAGE_SIZE) ∧
    (memory_map_eternal s pdir base size).2.USED_MEMORY = s.USED_MEMORY := by
  have hbx : base = base / PAGE_SIZE * PAGE_SIZE := by
    unfold PAGE_SIZE at hb ⊢; omega
  have hn := page_align_up_ceil hsize
  rw [← hn] at hx ⊢
  generalize base / PAGE_SIZE = x at hbx hx
  subst hbx
  obtain ⟨t, e, r⟩ := memory_map_eternal_range w hx ht
  rw [e]
  refine ⟨rfl, fun k hk => ?_, ?_⟩
  · have hh := r.here k hk
    have hadd : x * PAGE_SIZE + k * PAGE_SIZE = (x + k) * PAGE_SIZE := by ring
    rw [hadd]
    refine ⟨?_, hh.1, ?_, ?_⟩
    · show t.MEMORY (x + k) = true
      apply r.mem
      show setBits s.MEMORY (x * PAGE_SIZE / PAGE_SIZE) _ true (x + k) = true
      rw [mul_page_div]
      unfold setBits
      rw [if_pos ⟨by omega, by omega⟩]
    · show (pte t pdir ((x + k) * PAGE_SIZE)).User = false
      rw [hh.2]
    · exact virtual2physical_page (s := t) hh.2 rfl
        (by unfold FRAME_COUNT; unfold PAGE_COUNT at hx; omega)
  · show t.USED_MEMORY = s.USED_MEMORY
    rw [r.used]
    rfl

/-- Witness for C12: the two pages at `0x300000` are mapped eternally into the
kernel directory of `bootState`. -/
theorem memory_map_eternal_spec_witness :
    (memory_map_eternal bootState 0x100000 0x300000 8192).1 = 0 ∧
    (∀ k, k < (8192 + PAGE_SIZE - 1) / PAGE_SIZE →
      (memory_map_eternal bootState 0x100000 0x300000 8192).2.MEMORY (0x300000 / PAGE_SIZE + k)
        = true ∧
      page_present (memory_map_eternal bootState 0x100000 0x300000 8192).2 0x100000
        (0x300000 + k * PAGE_SIZE) = true ∧
      (pte (memory_map_eternal bootState 0x100000 0x300000 8192).2 0x100000
        (0x300000 + k * PAGE_SIZE)).User = false ∧
      virtual2physical (memory_map_eternal bootState 0x100000 0x300000 8192).2 0x100000
        (0x300000 + k * PAGE_SIZE) = 0x300000 + k * PAGE_SIZE) ∧
    (memory_map_eternal bootState 0x100000 0x300000 8192).2.USED_MEMORY = bootState.USED_MEMORY :=
  memory_map_eternal_spec bootState 0x100000 0x300000 8192 bootState_WF (by decide) (by decide)
    (by decide) (by decide)

/-! ## `memory_free` and `memory_unmap` on physically consecutive ranges -/

theorem WF.tables {s : Kernel} {pdir : Nat} (w : WF s pdir) : Tables s pdir :=
  ⟨w.table_ne_dir, w.table_inj⟩

theorem memory_unmap_eq (s : Kernel) (pdir addr count : Nat) :
    memory_unmap s pdir addr count =
      (0, atomic_end ((List.range count).foldl (memory_unmap_page pdir addr) (atomic_begin s))) :=
  rfl

theorem virtual_unmap_one (s : Kernel) (pdir v : Nat) :
    virtual_unmap s pdir v 1 = unmap_page s pdir (v % WORD) := by
  simp [virtual_unmap, List.range_succ]

theorem virtual_present_single (s : Kernel) (pdir v : Nat) :
    virtual_present s pdir v 1 = page_present s pdir (v % WORD) := by
  simp [virtual_present, List.range_succ]

theorem unmap_page_pages_congr {a b : Kernel} (h : a.pages = b.pages) (pdir v : Nat) :
    (unmap_page a pdir v).pages = (unmap_page b pdir v).pages := by
  unfold unmap_page
  rw [page_present_congr h pdir v, pde_congr h pdir, pte_congr h pdir v]
  split
  · funext m j
    rw [writeEntry_pages, writeEntry_pages, h]
  · exact h

/-- As far as the paging structures go, one iteration of `memory_unmap` is
`unmap_page`. -/
theorem memory_unmap_page_pages (pdir addr : Nat) (s : Kernel) (i : Nat) :
    (memory_unmap_page pdir addr s i).pages =
      (unmap_page s pdir ((addr + i * PAGE_SIZE) % WORD)).pages := by
  unfold memory_unmap_page
  simp only
  rw [virtual_present_single, Nat.mod_mod]
  cases hp : page_present s pdir ((addr + i * PAGE_SIZE) % WORD) with
  | true =>
    rw [if_pos rfl, virtual_unmap_one, Nat.mod_mod]
    exact unmap_page_pages_congr
      (show (physical_free s (virtual2physical s pdir ((addr + i * PAGE_SIZE) % WORD)) 1).pages
        = s.pages from rfl) pdir _
  | false =>
    rw [if_neg (by simp)]
    unfold unmap_page
    rw [hp]
    rfl

/-- The loop of `memory_unmap` and `virtual_unmap` leave the same paging structures. -/
theorem memory_unmap_loop_pages (pdir addr : Nat) (a b : Kernel) (h : a.pages = b.pages) :
    ∀ n, ((List.range n).foldl (memory_unmap_page pdir addr) a).pages =
      (virtual_unmap b pdir addr n).pages := by
  intro n
  induction n with
  | zero => exact h
  | succ n ih =>
    unfold virtual_unmap at ih ⊢
    rw [List.range_succ, List.foldl_append, List.foldl_append]
    simp only [List.foldl_cons, List.foldl_nil]
    rw [memory_unmap_page_pages]
    exact unmap_page_pages_congr ih pdir _

end Skift

namespace Skift

theorem Tables_congr {s t : Kernel} (h : s.pages = t.pages) {pdir : Nat} (T : Tables s pdir) :
    Tables t pdir := by
  have hd : ∀ j, pde t pdir j = pde s pdir j := fun j => (pde_congr h pdir j).symm
  constructor
  · intro j hj hp; rw [hd] at hp ⊢; exact T.table_ne_dir j hj hp
  · intro j k hj hk hpj hpk; rw [hd] at hpj; rw [hd] at hpk; rw [hd, hd]
    exact T.table_inj j k hj hk hpj hpk

/-- Writing the table slot of page `x`, whose directory entry is present: the
directory entries and the translation of every other page are unchanged. -/
theorem write_slot {s : Kernel} {pdir x : Nat} (T : Tables s pdir) (hx : x < PAGE_COUNT)
    (hp : (pde s pdir (x / 1024)).Present = true) (e : Entry) :
    (∀ j, pde (writeEntry s (pde s pdir (x / 1024)).PageFrameNumber (x % 1024) e) pdir j
        = pde s pdir j) ∧
    (∀ z, z < PAGE_COUNT → z ≠ x → (pde s pdir (z / 1024)).Present = true →
      pte (writeEntry s (pde s pdir (x / 1024)).PageFrameNumber (x % 1024) e) pdir (z * PAGE_SIZE)
        = pte s pdir (z * PAGE_SIZE)) ∧
    pte (writeEntry s (pde s pdir (x / 1024)).PageFrameNumber (x % 1024) e) pdir (x * PAGE_SIZE)
        = e ∧
    Tables (writeEntry s (pde s pdir (x / 1024)).PageFrameNumber (x % 1024) e) pdir := by
  have hne := T.table_ne_dir _ (page_index_lt hx) hp
  have h1 : ∀ j, pde (writeEntry s (pde s pdir (x / 1024)).PageFrameNumber (x % 1024) e) pdir j
        = pde s pdir j := by
    intro j
    rw [pde_def, writeEntry_pages, if_neg (fun h => hne h.1.symm)]
    rfl
  refine ⟨h1, ?_, ?_, ?_⟩
  · intro z hz hzx hpz
    rw [pte_page, pte_page, h1, writeEntry_pages, if_neg]
    rintro ⟨ha, hb⟩
    exact hzx (page_split_inj
      (T.table_inj _ _ (page_index_lt hz) (page_index_lt hx) hpz hp ha) hb)
  · rw [pte_page, h1, writeEntry_pages, if_pos ⟨rfl, rfl⟩]
  · constructor
    · intro j hj hq; rw [h1] at hq ⊢; exact T.table_ne_dir j hj hq
    · intro j k hj hk hpj hpk; rw [h1] at hpj; rw [h1] at hpk; rw [h1, h1]
      exact T.table_inj j k hj hk hpj hpk

theorem setBits_snoc (bm : Nat → Bool) (f k : Nat) (v : Bool) :
    setBits (setBits bm f k v) (f + k) 1 v = setBits bm f (k + 1) v := by
  funext m
  unfold setBits
  by_cases h1 : f + k ≤ m ∧ m < f + k + 1
  · rw [if_pos h1, if_pos ⟨by omega, by omega⟩]
  · rw [if_neg h1]
    by_cases h2 : f ≤ m ∧ m < f + k
    · rw [if_pos h2, if_pos ⟨by omega, by omega⟩]
    · rw [if_neg h2, if_neg (by omega)]

theorem used_snoc (u k : Nat) :
    ((u + WORD - (k * PAGE_SIZE) % WORD) % WORD + WORD - (1 * PAGE_SIZE) % WORD) % WORD =
      (u + WORD - ((k + 1) * PAGE_SIZE) % WORD) % WORD := by
  unfold WORD PAGE_SIZE
  omega

theorem range_addr {addr k : Nat} (h : addr / PAGE_SIZE + k < PAGE_COUNT) :
    (addr + k * PAGE_SIZE) % WORD = addr + k * PAGE_SIZE ∧
    (addr + k * PAGE_SIZE) / PAGE_SIZE = addr / PAGE_SIZE + k ∧
    (addr + k * PAGE_SIZE) % PAGE_SIZE = addr % PAGE_SIZE := by
  unfold PAGE_COUNT PAGE_SIZE at *
  unfold WORD
  omega

end Skift

namespace Skift

theorem setBits_none (bm : Nat → Bool) (f : Nat) (v : Bool) : setBits bm f 0 v = bm := by
  funext m
  unfold setBits
  rw [if_neg (by omega)]

/-- One iteration of the loop of `memory_unmap` on a range that is present and
physically consecutive in the state `s` the loop started from. -/
theorem memory_unmap_page_step {s t : Kernel} {pdir addr k p : Nat}
    (u : Unmapping s t pdir (addr / PAGE_SIZE) k (p / PAGE_SIZE))
    (hk : addr / PAGE_SIZE + k < PAGE_COUNT)
    (hpres : page_present s pdir (addr + k * PAGE_SIZE) = true)
    (hcons : virtual2physical s pdir (addr + k * PAGE_SIZE) = p + k * PAGE_SIZE) :
    Unmapping s (memory_unmap_page pdir addr t k) pdir (addr / PAGE_SIZE) (k + 1)
      (p / PAGE_SIZE) := by
  obtain ⟨hv1, hv2, _⟩ := range_addr hk
  have hps : mapped s pdir (addr / PAGE_SIZE + k) := by
    unfold mapped
    rw [← hv2, ← (page_of_addr s pdir _).1]
    exact hpres
  have hpd : (pde s pdir ((addr / PAGE_SIZE + k) / 1024)).Present = true :=
    ((mapped_iff _ _ _).1 hps).1
  have hpt : pte t pdir ((addr / PAGE_SIZE + k) * PAGE_SIZE)
      = pte s pdir ((addr / PAGE_SIZE + k) * PAGE_SIZE) :=
    u.pte_eq _ hk (Or.inr (le_refl _)) hpd
  have hpt2 : pte t pdir (addr + k * PAGE_SIZE) = pte s pdir (addr + k * PAGE_SIZE) := by
    rw [(page_of_addr t pdir _).2, (page_of_addr s pdir _).2, hv2, hpt]
  have hpr : page_present t pdir (addr + k * PAGE_SIZE) = true := by
    rw [← hpres]
    unfold page_present
    rw [hpt2, u.pde_eq]
  have hvp : virtual2physical t pdir (addr + k * PAGE_SIZE) = p + k * PAGE_SIZE := by
    rw [← hcons]
    unfold virtual2physical
    rw [hpt2]
  have hpd2 : (pde (physical_free t (p + k * PAGE_SIZE) 1) pdir
      ((addr / PAGE_SIZE + k) / 1024)).Present = true := by
    show (pde t pdir _).Present = true
    rw [u.pde_eq]; exact hpd
  have e : memory_unmap_page pdir addr t k =
      writeEntry (physical_free t (p + k * PAGE_SIZE) 1)
        (pde (physical_free t (p + k * PAGE_SIZE) 1) pdir
          ((addr / PAGE_SIZE + k) / 1024)).PageFrameNumber
        ((addr / PAGE_SIZE + k) % 1024)
        { pte t pdir (addr + k * PAGE_SIZE) with Present := false } := by
    unfold memory_unmap_page
    simp only
    rw [hv1, virtual_present_single, hv1, hpr, if_pos rfl, virtual_unmap_one, hv1, hvp]
    unfold unmap_page
    rw [if_pos (show page_present (physical_free t (p + k * PAGE_SIZE) 1) pdir
      (addr + k * PAGE_SIZE) = true from hpr), (index_of_addr _).1, (index_of_addr _).2, hv2]
    rfl
  have W := write_slot
    (Tables_congr (show t.pages = (physical_free t (p + k * PAGE_SIZE) 1).pages from rfl) u.tables)
    hk hpd2 { pte t pdir (addr + k * PAGE_SIZE) with Present := false }
  rw [e]
  exact {
    tables := W.2.2.2
    pde_eq := fun j => (W.1 j).trans (u.pde_eq j)
    pte_eq := fun z hz hr hp => by
      rw [W.2.1 z hz (by omega) (by
        show (pde t pdir _).Present = true
        rw [u.pde_eq]; exact hp)]
      exact u.pte_eq z hz (by omega) hp
    mem := by
      show setBits t.MEMORY ((p + k * PAGE_SIZE) / PAGE_SIZE) 1 false = _
      rw [add_mul_page_div, u.mem, setBits_snoc]
    used := by
      show (t.USED_MEMORY + WORD - (1 * PAGE_SIZE) % WORD) % WORD = _
      rw [u.used, used_snoc]
    total := u.total
    depth := u.depth
    init := u.init }

/-- The loop of `memory_unmap` on a range that is present and physically
consecutive. -/
theorem memory_unmap_loop {s : Kernel} {pdir addr count p : Nat} (T : Tables s pdir)
    (hu : s.USED_MEMORY < WORD)
    (hfit : addr / PAGE_SIZE + count ≤ PAGE_COUNT)
    (hpres : ∀ k, k < count → page_present s pdir (addr + k * PAGE_SIZE) = true)
    (hcons : ∀ k, k < count →
      virtual2physical s pdir (addr + k * PAGE_SIZE) = p + k * PAGE_SIZE) :
    ∀ n, n ≤ count →
      Unmapping s ((List.range n).foldl (memory_unmap_page pdir addr) s) pdir
        (addr / PAGE_SIZE) n (p / PAGE_SIZE) := by
  intro n
  induction n with
  | zero =>
    intro _
    exact {
      tables := T
      pde_eq := fun _ => rfl
      pte_eq := fun _ _ _ _ => rfl
      mem := (setBits_none _ _ _).symm
      used := by
        show s.USED_MEMORY = _
        unfold WORD PAGE_SIZE at *
        omega
      total := rfl
      depth := rfl
      init := rfl }
  | succ n ih =>
    intro hn
    rw [List.range_succ, List.foldl_append]
    exact memory_unmap_page_step (ih (by omega)) (by omega) (hpres n (by omega))
      (hcons n (by omega))

end Skift

namespace Skift

theorem unmap_page_rest (s : Kernel) (pdir vaddr : Nat) :
    (unmap_page s pdir vaddr).TOTAL_MEMORY = s.TOTAL_MEMORY ∧
    (unmap_page s pdir vaddr).initialized = s.initialized := by
  unfold unmap_page
  split <;> exact ⟨rfl, rfl⟩

theorem virtual_unmap_rest (s : Kernel) (pdir vaddr count : Nat) :
    (virtual_unmap s pdir vaddr count).TOTAL_MEMORY = s.TOTAL_MEMORY ∧
    (virtual_unmap s pdir vaddr count).initialized = s.initialized := by
  unfold virtual_unmap
  induction count with
  | zero => exact ⟨rfl, rfl⟩
  | succ n ih =>
    rw [List.range_succ, List.foldl_append]
    simp only [List.foldl_cons, List.foldl_nil]
    obtain ⟨a, b⟩ := unmap_page_rest
      ((List.range n).foldl (fun s k => unmap_page s pdir ((vaddr + k * PAGE_SIZE) % WORD)) s)
      pdir ((vaddr + n * PAGE_SIZE) % WORD)
    exact ⟨a.trans ih.1, b.trans ih.2⟩

/-- C19: on a directory whose page tables are sound (no present entry uses the
directory page as its table, no two present entries share a table), for a range
of `count` pages inside the address space that is fully present and whose page
`k` translates to `p + k * 4096`, `memory_free` and `memory_unmap` lead to the
same final state: the same bitmap, the same `USED_MEMORY` (a 32-bit counter) and
the same paging structures. -/
theorem memory_free_eq_memory_unmap (s : Kernel) (pdir addr count p : Nat) (T : Tables s pdir)
    (hu : s.USED_MEMORY < WORD)
    (hfit : addr / PAGE_SIZE + count ≤ PAGE_COUNT)
    (hpres : ∀ k, k < count → page_present s pdir (addr + k * PAGE_SIZE) = true)
    (hcons : ∀ k, k < count →
      virtual2physical s pdir (addr + k * PAGE_SIZE) = p + k * PAGE_SIZE) :
    memory_free s pdir addr count = (memory_unmap s pdir addr count).2 := by
  have hvp : virtual_present s pdir addr count = true := by
    rw [virtual_present_iff]
    intro k hk
    rw [(range_addr (show addr / PAGE_SIZE + k < PAGE_COUNT by omega)).1]
    exact hpres k hk
  have u := @memory_unmap_loop (atomic_begin s) pdir addr count p (Tables_congr (show s.pages = (atomic_begin s).pages from rfl) T) hu hfit
    hpres hcons count (le_refl _)
  obtain ⟨f1, f2, f3⟩ := memory_free_present hvp
  have e : memory_free s pdir addr count =
      atomic_end (virtual_unmap (physical_free (atomic_begin s)
        (virtual2physical (atomic_begin s) pdir addr) count) pdir addr count) := by
    unfold memory_free
    simp only [show virtual_present (atomic_begin s) pdir addr count = true from hvp, if_true]
  have hm : setBits s.MEMORY (virtual2physical s pdir addr / PAGE_SIZE) count false =
      setBits s.MEMORY (p / PAGE_SIZE) count false := by
    rcases Nat.eq_zero_or_pos count with h0 | h0
    · rw [h0, setBits_none, setBits_none]
    · have := hcons 0 h0
      rw [Nat.zero_mul, Nat.add_zero, Nat.add_zero] at this
      rw [this]
  rw [memory_unmap_eq]
  apply kernel_eq
  · rw [f1, hm]
    exact u.mem.symm
  · rw [f2]
    exact u.used.symm
  · rw [e]
    exact ((virtual_unmap_rest _ pdir addr count).1.trans u.total.symm :
      (virtual_unmap (physical_free (atomic_begin s)
        (virtual2physical (atomic_begin s) pdir addr) count) pdir addr count).TOTAL_MEMORY =
      ((List.range count).foldl (memory_unmap_page pdir addr) (atomic_begin s)).TOTAL_MEMORY)
  · rw [e]
    exact ((memory_unmap_loop_pages pdir addr (atomic_begin s)
      (physical_free (atomic_begin s) (virtual2physical (atomic_begin s) pdir addr) count)
      rfl count).symm :
      (virtual_unmap (physical_free (atomic_begin s)
        (virtual2physical (atomic_begin s) pdir addr) count) pdir addr count).pages =
      ((List.range count).foldl (memory_unmap_page pdir addr) (atomic_begin s)).pages)
  · rw [f3]
    show s.depth = ((List.range count).foldl (memory_unmap_page pdir addr) (atomic_begin s)).depth - 1
    rw [u.depth]
    show s.depth = s.depth + 1 - 1
    omega
  · rw [e]
    exact ((virtual_unmap_rest _ pdir addr count).2.trans u.init.symm :
      (virtual_unmap (physical_free (atomic_begin s)
        (virtual2physical (atomic_begin s) pdir addr) count) pdir addr count).initialized =
      ((List.range count).foldl (memory_unmap_page pdir addr) (atomic_begin s)).initialized)

/-- Witness for C19: three pages of the identity-mapped kernel image in `bootState`. -/
theorem memory_free_eq_memory_unmap_witness :
    memory_free bootState 0x100000 0x180000 3 = (memory_unmap bootState 0x100000 0x180000 3).2 :=
  memory_free_eq_memory_unmap bootState 0x100000 0x180000 3 0x180000 bootState_WF.tables
    (by decide) (by decide) (by decide) (by decide)

/-! ## `memory_initialize`: the memory map -/

theorem free_available_fields (mm : List MemoryMapEntry) :
    ∀ s : Kernel, (free_available s mm).pages = s.pages ∧
      (free_available s mm).depth = s.depth := by
  induction mm with
  | nil => intro s; exact ⟨rfl, rfl⟩
  | cons e mm ih =>
    intro s
    unfold free_available
    rw [List.foldl_cons]
    by_cases h : e.type = MemoryMapEntryType.AVAILABLE
    · rw [if_pos h]
      exact ih (physical_set_free s e.range.base (e.range.size / PAGE_SIZE))
    · rw [if_neg h]
      exact ih s

/-- A frame that is free after the loop over the memory map was free before it or
is covered by an `AVAILABLE` entry. -/
theorem free_available_mem (mm : List MemoryMapEntry) :
    ∀ (s : Kernel) (f : Nat), (free_available s mm).MEMORY f = false →
      s.MEMORY f = false ∨
      ∃ e, e ∈ mm ∧ e.type = MemoryMapEntryType.AVAILABLE ∧ covers e.range f := by
  induction mm with
  | nil => intro s f h; exact Or.inl h
  | cons e mm ih =>
    intro s f h
    unfold free_available at h
    rw [List.foldl_cons] at h
    by_cases ht : e.type = MemoryMapEntryType.AVAILABLE
    · rw [if_pos ht] at h
      rcases ih _ f h with h1 | ⟨e', he', h2, h3⟩
      · by_cases hc : covers e.range f
        · exact Or.inr ⟨e, List.mem_cons_self _ _, ht, hc⟩
        · left
          have : (physical_set_free s e.range.base (e.range.size / PAGE_SIZE)).MEMORY f
              = s.MEMORY f := by
            show setBits s.MEMORY _ _ false f = _
            unfold setBits
            unfold covers at hc
            rw [if_neg hc]
          rw [← this]; exact h1
      · exact Or.inr ⟨e', List.mem_cons_of_mem _ he', h2, h3⟩
    · rw [if_neg ht] at h
      rcases ih _ f h with h1 | ⟨e', he', h2, h3⟩
      · exact Or.inl h1
      · exact Or.inr ⟨e', List.mem_cons_of_mem _ he', h2, h3⟩

/-! ## Mapping pages whose page tables exist -/

/-- The function `virtual_map` on pages whose directory entries are present, in a
directory with sound page tables: the `n` pages from page `x` on receive their
entries, and nothing else changes. -/
theorem virtual_map_present {s : Kernel} {pdir : Nat} (x y : Nat) (user : Bool)
    (T : Tables s pdir) :
    ∀ n, x + n ≤ PAGE_COUNT → y + n ≤ PAGE_COUNT →
      (∀ k, k < n → (pde s pdir ((x + k) / 1024)).Present = true) →
      Tables (virtual_map s pdir (x * PAGE_SIZE) (y * PAGE_SIZE) n user) pdir ∧
      (∀ j, pde (virtual_map s pdir (x * PAGE_SIZE) (y * PAGE_SIZE) n user) pdir j
        = pde s pdir j) ∧
      (∀ k, k < n →
        pte (virtual_map s pdir (x * PAGE_SIZE) (y * PAGE_SIZE) n user) pdir
          ((x + k) * PAGE_SIZE) = ⟨true, true, user, y + k⟩) ∧
      (∀ z, z < PAGE_COUNT → (z < x ∨ x + n ≤ z) → (pde s pdir (z / 1024)).Present = true →
        pte (virtual_map s pdir (x * PAGE_SIZE) (y * PAGE_SIZE) n user) pdir (z * PAGE_SIZE)
          = pte s pdir (z * PAGE_SIZE)) ∧
      (virtual_map s pdir (x * PAGE_SIZE) (y * PAGE_SIZE) n user).MEMORY = s.MEMORY ∧
      (virtual_map s pdir (x * PAGE_SIZE) (y * PAGE_SIZE) n user).USED_MEMORY = s.USED_MEMORY ∧
      (virtual_map s pdir (x * PAGE_SIZE) (y * PAGE_SIZE) n user).TOTAL_MEMORY = s.TOTAL_MEMORY ∧
      (virtual_map s pdir (x * PAGE_SIZE) (y * PAGE_SIZE) n user).depth = s.depth := by
  intro n
  induction n with
  | zero =>
    intro _ _ _
    rw [virtual_map_zero]
    exact ⟨T, fun _ => rfl, fun k hk => absurd hk (Nat.not_lt_zero k), fun _ _ _ _ => rfl,
      rfl, rfl, rfl, rfl⟩
  | succ n ih =>
    intro hx hy hp
    obtain ⟨T1, d1, e1, o1, m1, u1, t1, c1⟩ :=
      ih (by omega) (by omega) (fun k hk => hp k (by omega))
    have hpn : (pde (virtual_map s pdir (x * PAGE_SIZE) (y * PAGE_SIZE) n user) pdir
        ((x + n) / 1024)).Present = true := by rw [d1]; exact hp n (by omega)
    rw [virtual_map_succ, page_add_mod x n (by omega), page_add_mod y n (by omega),
      map_page_of_present _ _ _ _ _ _ (by rw [PD_INDEX_page]; exact hpn),
      PD_INDEX_page, PT_INDEX_page, mul_page_div]
    obtain ⟨a1, a2, a3, a4⟩ := write_slot T1 (show x + n < PAGE_COUNT by omega) hpn
      ⟨true, true, user, y + n⟩
    refine ⟨a4, fun j => (a1 j).trans (d1 j), ?_, ?_, m1, u1, t1, c1⟩
    · intro k hk
      by_cases hkn : k = n
      · subst hkn; exact a3
      · rw [a2 (x + k) (by omega) (by omega) (by rw [d1]; exact hp k hk)]
        exact e1 k (by omega)
    · intro z hz hr hpz
      rw [a2 z hz (by omega) (by rw [d1]; exact hpz)]
      exact o1 z hz (by omega) hpz

/-! ## `memory_initialize`: the kernel image -/

theorem memory_initialize_eq (L : Layout) (K : MemoryRange) (s : Kernel) (mb : Multiboot) :
    memory_initialize L K s mb =
      boot_finish L (map_modules (memory_map_eternal (boot_prepared L s mb) L.kpdir
        K.base K.size).2 L.kpdir mb.modules) := rfl

/-- The arithmetic of a bootable layout, in pages. -/
theorem Bootable.layout {L : Layout} {K : MemoryRange} {s : Kernel} {mb : Multiboot}
    (B : Bootable L K s mb) :
    K.base = K.base / PAGE_SIZE * PAGE_SIZE ∧
    K.base / PAGE_SIZE + PAGE_ALIGN_UP K.size / PAGE_SIZE ≤ 256 * 1024 ∧
    PAGE_ALIGN_UP K.size / PAGE_SIZE = (K.size + PAGE_SIZE - 1) / PAGE_SIZE ∧
    (K.base / PAGE_SIZE ≤ L.kpdir / PAGE_SIZE ∧
      L.kpdir / PAGE_SIZE < K.base / PAGE_SIZE + PAGE_ALIGN_UP K.size / PAGE_SIZE) ∧
    (∀ i, i < 256 →
      (kernel_entry L i).PageFrameNumber = L.kptable / PAGE_SIZE + i ∧
      K.base / PAGE_SIZE ≤ L.kptable / PAGE_SIZE + i ∧
      L.kptable / PAGE_SIZE + i < K.base / PAGE_SIZE + PAGE_ALIGN_UP K.size / PAGE_SIZE ∧
      L.kptable / PAGE_SIZE + i ≠ L.kpdir / PAGE_SIZE) := by
  obtain ⟨h1, h2, h3, h4, h5, h6, h7, _, _⟩ := B
  unfold kernel_entry PAGE_ALIGN_UP
  simp only
  unfold PAGE_SIZE WORD at *
  refine ⟨by omega, by omega, by omega, by omega, fun i hi => ⟨by omega, by omega, by omega, by omega⟩⟩

end Skift

namespace Skift

theorem setBits_true_of_false {bm : Nat → Bool} {b c f : Nat}
    (h : setBits bm b c true f = false) : bm f = false := by
  unfold setBits at h
  split at h
  · cases h
  · exact h

theorem setBits_true_in {bm : Nat → Bool} {b c f : Nat} (h1 : b ≤ f) (h2 : f < b + c) :
    setBits bm b c true f = true := by
  unfold setBits
  rw [if_pos ⟨h1, h2⟩]

theorem setBits_true_mono {bm : Nat → Bool} {b c f : Nat} (h : bm f = true) :
    setBits bm b c true f = true := by
  unfold setBits
  split
  · rfl
  · exact h

/-- Mapping the kernel image into the kernel directory as `memory_initialize` left
it: the image holds the directory and its page tables, so the directory becomes
well formed, and the image is held eternally. -/
theorem kernel_mapped_aux {L : Layout} {mb : Multiboot} {s : Kernel} {x n size : Nat}
    (hn : PAGE_ALIGN_UP size / PAGE_SIZE = n)
    (hlow : ∀ i, i < 256 → pde s L.kpdir i = kernel_entry L i)
    (hhigh : ∀ j, 256 ≤ j → j < 1024 → (pde s L.kpdir j).Present = false)
    (hxn : x + n ≤ 256 * 1024)
    (hD : x ≤ L.kpdir / PAGE_SIZE ∧ L.kpdir / PAGE_SIZE < x + n)
    (hT : ∀ i, i < 256 →
      (kernel_entry L i).PageFrameNumber = L.kptable / PAGE_SIZE + i ∧
      x ≤ L.kptable / PAGE_SIZE + i ∧ L.kptable / PAGE_SIZE + i < x + n ∧
      L.kptable / PAGE_SIZE + i ≠ L.kpdir / PAGE_SIZE)
    (hu : s.USED_MEMORY = 0) (ht : s.TOTAL_MEMORY = mb.memory_usable)
    (hf : ∀ f, f < 1024 * 1024 → s.MEMORY f = false →
      ∃ e, e ∈ mb.memory_map ∧ e.type = MemoryMapEntryType.AVAILABLE ∧ covers e.range f) :
    Booted L mb (memory_map_eternal s L.kpdir (x * PAGE_SIZE) size).2 ∧
    Eternal (memory_map_eternal s L.kpdir (x * PAGE_SIZE) size).2 L.kpdir x n := by
  subst hn
  have hlt : ∀ j, j < 1024 → (pde s L.kpdir j).Present = true → j < 256 := by
    intro j hj hp
    by_contra hc
    rw [hhigh j (by omega) hj] at hp
    cases hp
  have T : Tables s L.kpdir := by
    constructor
    · intro j hj hp
      have h := hlt j hj hp
      rw [hlow j h, (hT j h).1]
      exact (hT j h).2.2.2
    · intro j k hj hk hpj hpk he
      have h1 := hlt j hj hpj
      have h2 := hlt k hk hpk
      rw [hlow j h1, hlow k h2, (hT j h1).1, (hT k h2).1] at he
      omega
  have hP : x + PAGE_ALIGN_UP size / PAGE_SIZE ≤ PAGE_COUNT := by unfold PAGE_COUNT; omega
  obtain ⟨T1, d1, e1, _, m1, u1, t1, _⟩ := virtual_map_present x x false
    (Tables_congr (show s.pages = (physical_set_used (atomic_begin s) (x * PAGE_SIZE)
      (PAGE_ALIGN_UP size / PAGE_SIZE)).pages from rfl) T)
    (PAGE_ALIGN_UP size / PAGE_SIZE) hP hP (fun k hk => by
      show (pde s L.kpdir _).Present = true
      rw [hlow _ (by omega)]; rfl)
  have hd : ∀ j, pde (memory_map_eternal s L.kpdir (x * PAGE_SIZE) size).2 L.kpdir j
      = pde s L.kpdir j := fun j => d1 j
  have he : ∀ k, k < PAGE_ALIGN_UP size / PAGE_SIZE →
      pte (memory_map_eternal s L.kpdir (x * PAGE_SIZE) size).2 L.kpdir ((x + k) * PAGE_SIZE)
        = ⟨true, true, false, x + k⟩ := fun k hk => e1 k hk
  have hm : (memory_map_eternal s L.kpdir (x * PAGE_SIZE) size).2.MEMORY =
      setBits s.MEMORY x (PAGE_ALIGN_UP size / PAGE_SIZE) true := by
    show (virtual_map _ _ _ _ _ _).MEMORY = _
    rw [m1]
    show setBits s.MEMORY (x * PAGE_SIZE / PAGE_SIZE) _ true = _
    rw [mul_page_div]
  have hmap : ∀ z, x ≤ z → z < x + PAGE_ALIGN_UP size / PAGE_SIZE →
      mapped (memory_map_eternal s L.kpdir (x * PAGE_SIZE) size).2 L.kpdir z := by
    intro z h1 h2
    have hz : z = x + (z - x) := by omega
    apply mapped_of_pte
    · rw [hd, hlow _ (by omega)]; rfl
    · rw [hz, he (z - x) (by omega)]
  refine ⟨?_, fun k hk => ⟨?_, hmap _ (by omega) (by omega), he k hk⟩⟩
  · exact {
      wf := by
        constructor
        · intro j hj; rw [hd, hlow j hj]; rfl
        · exact hmap _ hD.1 hD.2
        · unfold PAGE_COUNT; omega
        · intro j hj hp
          rw [hd] at hp ⊢
          have h := hlt j hj hp
          rw [hlow j h, (hT j h).1]
          have := (hT j h).2.2.1
          unfold PAGE_COUNT; omega
        · intro j hj hp
          rw [hd] at hp ⊢
          have h := hlt j hj hp
          rw [hlow j h, (hT j h).1]
          exact hmap _ (hT j h).2.1 (hT j h).2.2.1
        · intro j hj hp
          rw [hd] at hp ⊢
          exact T.table_ne_dir j hj hp
        · intro j k hj hk hpj hpk
          rw [hd] at hpj; rw [hd] at hpk; rw [hd, hd]
          exact T.table_inj j k hj hk hpj hpk
      low := fun i hi => (hd i).trans (hlow i hi)
      high := fun j h1 h2 hp => by
        rw [hd, hhigh j h1 h2] at hp
        cases hp
      used := by
        show (virtual_map _ _ _ _ _ _).USED_MEMORY = 0
        rw [u1]; exact hu
      total := by
        show (virtual_map _ _ _ _ _ _).TOTAL_MEMORY = _
        rw [t1]; exact ht
      free := fun f hf1 hf2 => by
        rw [hm] at hf2
        exact hf f hf1 (setBits_true_of_false hf2) }
  · rw [hm]
    exact setBits_true_in (by omega) (by omega)

end Skift

namespace Skift

/-- The state before the kernel image is mapped: the entries 0..255 of the kernel
directory are written, the others are as they were, the counters are set, and
every free frame is covered by an `AVAILABLE` entry. -/
theorem boot_prepared_spec (L : Layout) (s : Kernel) (mb : Multiboot) :
    (∀ i, i < 256 → pde (boot_prepared L s mb) L.kpdir i = kernel_entry L i) ∧
    (∀ j, 256 ≤ j → pde (boot_prepared L s mb) L.kpdir j = pde s L.kpdir j) ∧
    (boot_prepared L s mb).USED_MEMORY = 0 ∧
    (boot_prepared L s mb).TOTAL_MEMORY = mb.memory_usable ∧
    (∀ f, f < 1024 * 1024 → (boot_prepared L s mb).MEMORY f = false →
      ∃ e, e ∈ mb.memory_map ∧ e.type = MemoryMapEntryType.AVAILABLE ∧ covers e.range f) := by
  have hp : (boot_prepared L s mb).pages =
      (fill_kernel_entries L
        { s with MEMORY := fun f => if f < 1024 * 1024 then true else s.MEMORY f } L.kpdir).pages :=
    (free_available_fields mb.memory_map _).1
  refine ⟨fun i hi => ?_, fun j hj => ?_, rfl, rfl, fun f hf1 hf2 => ?_⟩
  · rw [pde_def, hp, fill_kernel_entries_pages, if_pos ⟨rfl, hi⟩]
  · rw [pde_def, hp, fill_kernel_entries_pages, if_neg (fun h => by omega)]
    rfl
  · rcases free_available_mem mb.memory_map _ f hf2 with h | h
    · unfold setup_kernel_directory at h
      rw [(fill_kernel_entries_fields L _ L.kpdir).1] at h
      simp only [if_pos hf1] at h
      cases h
    · exact h

/-- The state after the kernel image of a bootable input is mapped. -/
theorem kernel_mapped {L : Layout} {K : MemoryRange} {s : Kernel} {mb : Multiboot}
    (B : Bootable L K s mb) :
    Booted L mb (memory_map_eternal (boot_prepared L s mb) L.kpdir K.base K.size).2 ∧
    Eternal (memory_map_eternal (boot_prepared L s mb) L.kpdir K.base K.size).2 L.kpdir
      (K.base / PAGE_SIZE) (PAGE_ALIGN_UP K.size / PAGE_SIZE) := by
  obtain ⟨hb, hxn, _, hD, hT⟩ := B.layout
  obtain ⟨p1, p2, p3, p4, p5⟩ := boot_prepared_spec L s mb
  have := @kernel_mapped_aux L mb (boot_prepared L s mb)
    (K.base / PAGE_SIZE) _ K.size rfl p1
    (fun j h1 h2 => by rw [p2 j h1]; exact B.high_absent j h1 h2) hxn hD hT p3 p4 p5
  rw [← hb] at this
  exact this

/-! ## `memory_initialize`: the modules -/

/-- One more range mapped eternally into a booted kernel directory: the directory
stays as `Booted` describes it, the range is held, and every range held before is
still held. -/
theorem memory_map_eternal_booted {L : Layout} {mb : Multiboot} {s : Kernel} {x size : Nat}
    (B : Booted L mb s)
    (hx : x + PAGE_ALIGN_UP size / PAGE_SIZE ≤ PAGE_COUNT)
    (ht : tables_obtained
      (physical_set_used (atomic_begin s) (x * PAGE_SIZE) (PAGE_ALIGN_UP size / PAGE_SIZE))
      L.kpdir (x * PAGE_SIZE) (x * PAGE_SIZE) (PAGE_ALIGN_UP size / PAGE_SIZE) false) :
    Booted L mb (memory_map_eternal s L.kpdir (x * PAGE_SIZE) size).2 ∧
    Eternal (memory_map_eternal s L.kpdir (x * PAGE_SIZE) size).2 L.kpdir x
      (PAGE_ALIGN_UP size / PAGE_SIZE) ∧
    (∀ x' n', x' + n' ≤ PAGE_COUNT → Eternal s L.kpdir x' n' →
      Eternal (memory_map_eternal s L.kpdir (x * PAGE_SIZE) size).2 L.kpdir x' n') := by
  obtain ⟨t, e, r⟩ := memory_map_eternal_range B.wf hx ht
  rw [e]
  have hbit : ∀ f, s.MEMORY f = true → (atomic_end t).MEMORY f = true := fun f hf =>
    r.mem f (by
      show setBits s.MEMORY _ _ true f = true
      exact setBits_true_mono hf)
  refine ⟨?_, fun k hk => ⟨?_, (r.here k hk).1, (r.here k hk).2⟩, fun x' n' hx' E k hk => ?_⟩
  · exact {
      wf := WF_congr (show t.pages = (atomic_end t).pages from rfl) r.wf
      low := fun i hi => by
        show pde t L.kpdir i = _
        rw [r.pde_keep i (B.wf.low i hi)]
        exact B.low i hi
      high := fun j h1 h2 hp => by
        rcases r.pde_new j hp with h | ⟨_, _, h, _⟩
        · have e : pde (atomic_end t) L.kpdir j = pde s L.kpdir j := r.pde_keep j h
          rw [e]
          exact B.high j h1 h2 h
        · exact h
      used := by
        show t.USED_MEMORY = 0
        rw [r.used]; exact B.used
      total := by
        show t.TOTAL_MEMORY = _
        rw [r.total]; exact B.total
      free := fun f hf1 hf2 => by
        apply B.free f hf1
        cases hs : s.MEMORY f with
        | false => rfl
        | true => rw [hbit f hs] at hf2; cases hf2 }
  · apply r.mem
    show setBits s.MEMORY (x * PAGE_SIZE / PAGE_SIZE) _ true (x + k) = true
    rw [mul_page_div]
    exact setBits_true_in (by omega) (by omega)
  · obtain ⟨b1, b2, b3⟩ := E k hk
    refine ⟨hbit _ b1, ?_⟩
    by_cases hin : x ≤ x' + k ∧ x' + k < x + PAGE_ALIGN_UP size / PAGE_SIZE
    · have hz : x' + k = x + (x' + k - x) := by omega
      have := r.here (x' + k - x) (by omega)
      rw [← hz] at this
      exact this
    · have := r.keep (x' + k) (by omega) (by omega) b2
      exact ⟨this.1, this.2.trans b3⟩

/-- The loop of `memory_initialize` over the modules. -/
theorem map_modules_spec {L : Layout} {mb : Multiboot} (ms : List MemoryRange) :
    ∀ s : Kernel, Booted L mb s →
      (∀ m, m ∈ ms → m.base % PAGE_SIZE = 0 ∧ m.base + m.size ≤ WORD ∧
        m.size + PAGE_SIZE ≤ WORD) →
      modules_tables L.kpdir s ms →
      Booted L mb (map_modules s L.kpdir ms) ∧
      (∀ m, m ∈ ms → Eternal (map_modules s L.kpdir ms) L.kpdir (m.base / PAGE_SIZE)
        (PAGE_ALIGN_UP m.size / PAGE_SIZE)) ∧
      (∀ x' n', x' + n' ≤ PAGE_COUNT → Eternal s L.kpdir x' n' →
        Eternal (map_modules s L.kpdir ms) L.kpdir x' n') := by
  induction ms with
  | nil => intro s B _ _; exact ⟨B, fun m hm => absurd hm (List.not_mem_nil m), fun _ _ _ E => E⟩
  | cons m ms ih =>
    intro s B hok ht
    obtain ⟨h1, h2, h3⟩ := hok m (List.mem_cons_self _ _)
    have hb : m.base = m.base / PAGE_SIZE * PAGE_SIZE := by
      unfold PAGE_SIZE at h1 ⊢; omega
    have hx : m.base / PAGE_SIZE + PAGE_ALIGN_UP m.size / PAGE_SIZE ≤ PAGE_COUNT := by
      rw [page_align_up_ceil h3]
      unfold PAGE_SIZE WORD at *
      unfold PAGE_COUNT
      omega
    have ht1 := ht.1
    rw [hb] at ht1
    obtain ⟨c1, c2, c3⟩ := memory_map_eternal_booted B hx ht1
    rw [← hb] at c1 c2 c3
    obtain ⟨d1, d2, d3⟩ := ih _ c1 (fun m' hm' => hok m' (List.mem_cons_of_mem _ hm')) ht.2
    refine ⟨d1, fun m' hm' => ?_, fun x' n' hx' E => d3 x' n' hx' (c3 x' n' hx' E)⟩
    rcases List.mem_cons.1 hm' with h | h
    · subst h
      exact d3 _ _ hx c2
    · exact d2 m' h

/-! ## `memory_initialize`: the null page -/

theorem unmap_page_cases (s : Kernel) (pdir x : Nat) :
    (¬ mapped s pdir x ∧ unmap_page s pdir (x * PAGE_SIZE) = s) ∨
    (mapped s pdir x ∧ unmap_page s pdir (x * PAGE_SIZE) =
      writeEntry s (pde s pdir (x / 1024)).PageFrameNumber (x % 1024)
        { pte s pdir (x * PAGE_SIZE) with Present := false }) := by
  unfold unmap_page mapped
  cases h : page_present s pdir (x * PAGE_SIZE) with
  | false => left; exact ⟨by simp, by simp⟩
  | true => right; rw [PD_INDEX_page, PT_INDEX_page]; exact ⟨rfl, by simp⟩

/-- Unmapping one page of a directory with sound page tables: the page is not
present afterwards, and nothing else changes. -/
theorem unmap_page_spec {s : Kernel} {pdir x : Nat} (T : Tables s pdir) (hx : x < PAGE_COUNT) :
    ¬ mapped (unmap_page s pdir (x * PAGE_SIZE)) pdir x ∧
    (∀ j, pde (unmap_page s pdir (x * PAGE_SIZE)) pdir j = pde s pdir j) ∧
    (∀ z, z < PAGE_COUNT → z ≠ x → (pde s pdir (z / 1024)).Present = true →
      pte (unmap_page s pdir (x * PAGE_SIZE)) pdir (z * PAGE_SIZE) = pte s pdir (z * PAGE_SIZE)) ∧
    Tables (unmap_page s pdir (x * PAGE_SIZE)) pdir := by
  rcases unmap_page_cases s pdir x with ⟨h1, h2⟩ | ⟨h1, h2⟩
  · rw [h2]
    exact ⟨h1, fun _ => rfl, fun _ _ _ _ => rfl, T⟩
  · rw [h2]
    obtain ⟨a1, a2, a3, a4⟩ := write_slot T hx (pde_of_mapped h1)
      { pte s pdir (x * PAGE_SIZE) with Present := false }
    refine ⟨?_, a1, a2, a4⟩
    rw [mapped_iff, ← pte_page, a3]
    simp

/-- The last part of `memory_initialize` on a booted kernel directory: page 0 is
not present, frame 0 is marked used, the subsystem is flagged initialized; the
directory entries, the counters and every other page are as before, and no bit
of the bitmap is cleared. -/
theorem boot_finish_spec {L : Layout} {s : Kernel} (T : Tables s L.kpdir) :
    page_present (boot_finish L s) L.kpdir 0 = false ∧
    (boot_finish L s).MEMORY 0 = true ∧
    (boot_finish L s).initialized = true ∧
    (∀ j, pde (boot_finish L s) L.kpdir j = pde s L.kpdir j) ∧
    (∀ z, z < PAGE_COUNT → z ≠ 0 → (pde s L.kpdir (z / 1024)).Present = true →
      pte (boot_finish L s) L.kpdir (z * PAGE_SIZE) = pte s L.kpdir (z * PAGE_SIZE)) ∧
    (boot_finish L s).MEMORY = setBits s.MEMORY 0 1 true ∧
    (boot_finish L s).USED_MEMORY = s.USED_MEMORY ∧
    (boot_finish L s).TOTAL_MEMORY = s.TOTAL_MEMORY ∧
    Tables (boot_finish L s) L.kpdir := by
  have hu : virtual_unmap s L.kpdir 0 1 = unmap_page s L.kpdir (0 * PAGE_SIZE) := by
    rw [virtual_unmap_one]; rfl
  have hp : (boot_finish L s).pages = (unmap_page s L.kpdir (0 * PAGE_SIZE)).pages := by
    unfold boot_finish; rw [hu]; rfl
  obtain ⟨a1, a2, a3, a4⟩ := unmap_page_spec T (show 0 < PAGE_COUNT by decide)
  have f1 := unmap_page_fields s L.kpdir (0 * PAGE_SIZE)
  have f2 := unmap_page_rest s L.kpdir (0 * PAGE_SIZE)
  refine ⟨?_, ?_, rfl, ?_, ?_, ?_, ?_, ?_, Tables_congr hp.symm a4⟩
  · have : page_present (boot_finish L s) L.kpdir (0 * PAGE_SIZE) = false := by
      rw [page_present_congr hp]
      unfold mapped at a1
      simpa using a1
    simpa using this
  · show setBits (virtual_unmap s L.kpdir 0 1).MEMORY (0 / PAGE_SIZE) 1 true 0 = true
    exact setBits_true_in (by decide) (by decide)
  · intro j; rw [pde_congr hp]; exact a2 j
  · intro z hz hz0 hpz; rw [pte_congr hp]; exact a3 z hz hz0 hpz
  · unfold boot_finish; rw [hu]
    show setBits (unmap_page s L.kpdir (0 * PAGE_SIZE)).MEMORY (0 / PAGE_SIZE) 1 true = _
    rw [f1.1]
    rfl
  · unfold boot_finish; rw [hu]
    exact f1.2.1
  · unfold boot_finish; rw [hu]
    exact f2.1

/-! ## `memory_initialize` -/

/-- Modules that lie in the first GiB need no new page table. -/
theorem modules_tables_low {L : Layout} {mb : Multiboot} (ms : List MemoryRange) :
    ∀ s : Kernel, Booted L mb s →
      (∀ m, m ∈ ms → m.base % PAGE_SIZE = 0 ∧ m.base + m.size ≤ 256 * 1024 * PAGE_SIZE) →
      modules_tables L.kpdir s ms := by
  induction ms with
  | nil => intro _ _ _; trivial
  | cons m ms ih =>
    intro s B hok
    obtain ⟨h1, h2⟩ := hok m (List.mem_cons_self _ _)
    have hb : m.base = m.base / PAGE_SIZE * PAGE_SIZE := by
      unfold PAGE_SIZE at h1 ⊢; omega
    have hn : m.base / PAGE_SIZE + PAGE_ALIGN_UP m.size / PAGE_SIZE ≤ 256 * 1024 := by
      unfold PAGE_ALIGN_UP
      unfold PAGE_SIZE WORD at *
      omega
    have hx : m.base / PAGE_SIZE + PAGE_ALIGN_UP m.size / PAGE_SIZE ≤ PAGE_COUNT := by
      unfold PAGE_COUNT; omega
    have ht : tables_obtained
        (physical_set_used (atomic_begin s) (m.base / PAGE_SIZE * PAGE_SIZE)
          (PAGE_ALIGN_UP m.size / PAGE_SIZE))
        L.kpdir (m.base / PAGE_SIZE * PAGE_SIZE) (m.base / PAGE_SIZE * PAGE_SIZE)
        (PAGE_ALIGN_UP m.size / PAGE_SIZE) false :=
      tables_obtained_of_present _ _ false (physical_set_used_WF B.wf _ _) _ hx hx
        (fun k hk => B.wf.low _ (by omega))
    obtain ⟨c1, _, _⟩ := memory_map_eternal_booted B hx ht
    rw [← hb] at c1 ht
    exact ⟨ht, ih _ c1 (fun m' hm' => hok m' (List.mem_cons_of_mem _ hm'))⟩

/-- The state left by `memory_initialize` on a bootable input, when every page
table needed for the modules is obtained. -/
theorem memory_initialize_state {L : Layout} {K : MemoryRange} {s : Kernel} {mb : Multiboot}
    (B : Bootable L K s mb)
    (ht : modules_tables L.kpdir
      (memory_map_eternal (boot_prepared L s mb) L.kpdir K.base K.size).2 mb.modules) :
    ∃ t, memory_initialize L K s mb = boot_finish L t ∧ Booted L mb t ∧
      Eternal t L.kpdir (K.base / PAGE_SIZE) (PAGE_ALIGN_UP K.size / PAGE_SIZE) ∧
      ∀ m, m ∈ mb.modules →
        Eternal t L.kpdir (m.base / PAGE_SIZE) (PAGE_ALIGN_UP m.size / PAGE_SIZE) := by
  obtain ⟨k1, k2⟩ := kernel_mapped B
  obtain ⟨m1, m2, m3⟩ := map_modules_spec mb.modules _ k1 B.modules_ok ht
  obtain ⟨_, hxn, _, _, _⟩ := B.layout
  exact ⟨_, memory_initialize_eq L K s mb, m1, m3 _ _ (by unfold PAGE_COUNT; omega) k2, m2⟩

end Skift

namespace Skift

/-- A range held eternally before the last part of `memory_initialize` is held
after it, page 0 excepted. -/
theorem eternal_after_finish {L : Layout} {t : Kernel} {x n : Nat} (T : Tables t L.kpdir)
    (hx : x + n ≤ PAGE_COUNT) (E : Eternal t L.kpdir x n) :
    ∀ k, k < n → (boot_finish L t).MEMORY (x + k) = true ∧
      (x + k ≠ 0 →
        page_present (boot_finish L t) L.kpdir ((x + k) * PAGE_SIZE) = true ∧
        pte (boot_finish L t) L.kpdir ((x + k) * PAGE_SIZE) = ⟨true, true, false, x + k⟩) := by
  intro k hk
  obtain ⟨_, _, _, f4, f5, f6, _, _, _⟩ := boot_finish_spec (L := L) T
  obtain ⟨e1, e2, e3⟩ := E k hk
  refine ⟨?_, fun h0 => ?_⟩
  · rw [f6]; exact setBits_true_mono e1
  · have hp := pde_of_mapped e2
    have hpte := (f5 (x + k) (by omega) h0 hp).trans e3
    refine ⟨?_, hpte⟩
    unfold page_present
    rw [PD_INDEX_page, f4, hpte, hp]
    rfl

/-- The frames and pages of a range, addressed from its page-aligned base. -/
theorem range_pages {base size : Nat} (hb : base % PAGE_SIZE = 0)
    (hs : size + PAGE_SIZE ≤ WORD) (hfit : base + size ≤ WORD) (k : Nat)
    (hk : k < (size + PAGE_SIZE - 1) / PAGE_SIZE) :
    k < PAGE_ALIGN_UP size / PAGE_SIZE ∧
    base + k * PAGE_SIZE = (base / PAGE_SIZE + k) * PAGE_SIZE ∧
    base / PAGE_SIZE + PAGE_ALIGN_UP size / PAGE_SIZE ≤ PAGE_COUNT := by
  rw [page_align_up_ceil hs]
  unfold PAGE_SIZE WORD at *
  unfold PAGE_COUNT
  omega

end Skift

namespace Skift

/-- C17, amended: after `memory_initialize` on a bootable input (see `Bootable`),
when every page table needed for the modules is obtained: every frame covered by
no `AVAILABLE` entry of the memory map is marked used; every frame of the kernel
image range and of each module range is marked used and, unless it is frame 0,
whose page `memory_initialize` unmaps at its end, its page is present, not
user-accessible and translates to its own address in the kernel directory;
entries 0..255 of the kernel directory are present, writable, non-user and carry
the frame number of `kptable[i]`; and `TOTAL_MEMORY` is the usable memory
reported by the boot input. -/
theorem memory_initialize_spec (L : Layout) (K : MemoryRange) (s : Kernel) (mb : Multiboot)
    (B : Bootable L K s mb)
    (ht : modules_tables L.kpdir
      (memory_map_eternal (boot_prepared L s mb) L.kpdir K.base K.size).2 mb.modules) :
    (∀ f, f < 1024 * 1024 →
      (∀ e, e ∈ mb.memory_map → e.type = MemoryMapEntryType.AVAILABLE → ¬ covers e.range f) →
      ( memory_initialize L K s mb).MEMORY f = true) ∧
    (∀ r, r = K ∨ r ∈ mb.modules → ∀ k, k < (r.size + PAGE_SIZE - 1) / PAGE_SIZE →
      ( memory_initialize L K s mb).MEMORY (r.base / PAGE_SIZE + k) = true ∧
      (r.base / PAGE_SIZE + k ≠ 0 →
        page_present ( memory_initialize L K s mb) L.kpdir (r.base + k * PAGE_SIZE) = true ∧
        (pte ( memory_initialize L K s mb) L.kpdir (r.base + k * PAGE_SIZE)).User = false ∧
        virtual2physical ( memory_initialize L K s mb) L.kpdir (r.base + k * PAGE_SIZE)
          = r.base + k * PAGE_SIZE)) ∧
    (∀ i, i < 256 →
      (pde ( memory_initialize L K s mb) L.kpdir i).Present = true ∧
      (pde ( memory_initialize L K s mb) L.kpdir i).Write = true ∧
      (pde ( memory_initialize L K s mb) L.kpdir i).User = false ∧
      (pde ( memory_initialize L K s mb) L.kpdir i).PageFrameNumber
        = (L.kptable + i * PAGE_SIZE) % WORD / PAGE_SIZE) ∧
    ( memory_initialize L K s mb).TOTAL_MEMORY = mb.memory_usable := by
  obtain ⟨t, e, Bt, EK, EM⟩ := memory_initialize_state B ht
  rw [e]
  obtain ⟨_, _, _, f4, _, f6, _, f8, _⟩ := boot_finish_spec (L := L) Bt.wf.tables
  refine ⟨fun f hf hno => ?_, fun r hr k hk => ?_, fun i hi => ?_, f8.trans Bt.total⟩
  · cases hm : (boot_finish L t).MEMORY f with
    | true => rfl
    | false =>
      rw [f6] at hm
      obtain ⟨e', h1, h2, h3⟩ := Bt.free f hf (setBits_true_of_false hm)
      exact absurd h3 (hno e' h1 h2)
  · have key : r.base % PAGE_SIZE = 0 ∧ r.size + PAGE_SIZE ≤ WORD ∧ r.base + r.size ≤ WORD ∧
        Eternal t L.kpdir (r.base / PAGE_SIZE) (PAGE_ALIGN_UP r.size / PAGE_SIZE) := by
      rcases hr with h | h
      · subst h
        have h1 := B.kernel_aligned
        have h2 := B.kernel_low
        refine ⟨h1, ?_, ?_, EK⟩
        · unfold PAGE_SIZE WORD at *; omega
        · unfold PAGE_SIZE WORD at *; omega
      · obtain ⟨h1, h2, h3⟩ := B.modules_ok r h
        exact ⟨h1, h3, h2, EM r h⟩
    obtain ⟨hb, hs, hfit, E⟩ := key
    obtain ⟨g1, g2, g3⟩ := range_pages hb hs hfit k hk
    obtain ⟨a1, a2⟩ := eternal_after_finish Bt.wf.tables g3 E k g1
    refine ⟨a1, fun h0 => ?_⟩
    obtain ⟨b1, b2⟩ := a2 h0
    rw [g2]
    refine ⟨b1, by rw [b2], ?_⟩
    exact virtual2physical_page b2 rfl (by unfold FRAME_COUNT; unfold PAGE_COUNT at g3; omega)
  · rw [f4, Bt.low i hi]
    exact ⟨rfl, rfl, rfl, rfl⟩

end Skift

namespace Skift

theorem bootable0 (mb : Multiboot)
    (h : ∀ m, m ∈ mb.modules →
      m.base % PAGE_SIZE = 0 ∧ m.base + m.size ≤ WORD ∧ m.size + PAGE_SIZE ≤ WORD) :
    Bootable layout0 kernel0 zeroState mb :=
  { kernel_aligned := by decide
    kernel_low := by decide
    kpdir_aligned := by decide
    kpdir_in := by decide
    kptable_aligned := by decide
    kptable_in := by decide
    apart := by decide
    high_absent := fun _ _ _ => rfl
    modules_ok := h }

theorem multiboot0_bootable : Bootable layout0 kernel0 zeroState multiboot0 :=
  bootable0 multiboot0 (fun m hm => by
    have : m = ⟨0, 0x1000⟩ := by simpa [multiboot0] using hm
    subst this
    decide)

theorem multiboot1_bootable : Bootable layout0 kernel0 zeroState multiboot1 :=
  bootable0 multiboot1 (fun m hm => by
    have : m = ⟨0x201000, 0x2000⟩ := by simpa [multiboot1] using hm
    subst this
    decide)

theorem multiboot0_tables :
    modules_tables layout0.kpdir
      (memory_map_eternal (boot_prepared layout0 zeroState multiboot0) layout0.kpdir
        kernel0.base kernel0.size).2 multiboot0.modules :=
  modules_tables_low _ _ (kernel_mapped multiboot0_bootable).1 (fun m hm => by
    have : m = ⟨0, 0x1000⟩ := by simpa [multiboot0] using hm
    subst this
    decide)

theorem multiboot1_tables :
    modules_tables layout0.kpdir
      (memory_map_eternal (boot_prepared layout0 zeroState multiboot1) layout0.kpdir
        kernel0.base kernel0.size).2 multiboot1.modules :=
  modules_tables_low _ _ (kernel_mapped multiboot1_bootable).1 (fun m hm => by
    have : m = ⟨0x201000, 0x2000⟩ := by simpa [multiboot1] using hm
    subst this
    decide)

/-- The null page after `memory_initialize`: page 0 is not present in the kernel
directory and frame 0 is marked used. -/
theorem memory_initialize_null {L : Layout} {K : MemoryRange} {s : Kernel} {mb : Multiboot}
    (B : Bootable L K s mb)
    (ht : modules_tables L.kpdir
      (memory_map_eternal (boot_prepared L s mb) L.kpdir K.base K.size).2 mb.modules) :
    page_present ( memory_initialize L K s mb) L.kpdir 0 = false ∧
    ( memory_initialize L K s mb).MEMORY 0 = true := by
  obtain ⟨t, e, Bt, _, _⟩ := memory_initialize_state B ht
  rw [e]
  obtain ⟨f1, f2, _⟩ := boot_finish_spec (L := L) Bt.wf.tables
  exact ⟨f1, f2⟩

/-- C17 as stated fails: with a module in the first page of memory, frame 0 is a
frame of a module range, and after `memory_initialize` its page is not present in
the kernel directory, hence not identity-mapped. -/
theorem memory_initialize_module_at_zero :
    ¬ (∀ m, m ∈ multiboot0.modules → ∀ k, k < (m.size + PAGE_SIZE - 1) / PAGE_SIZE →
        ( memory_initialize layout0 kernel0 zeroState multiboot0).MEMORY (m.base / PAGE_SIZE + k)
          = true ∧
        page_present ( memory_initialize layout0 kernel0 zeroState multiboot0) layout0.kpdir
          (m.base + k * PAGE_SIZE) = true) := by
  intro h
  have h1 := (h ⟨0, 0x1000⟩ (List.mem_singleton.2 rfl) 0 (by decide)).2
  have h2 := (memory_initialize_null multiboot0_bootable multiboot0_tables).1
  have h3 : page_present ( memory_initialize layout0 kernel0 zeroState multiboot0) layout0.kpdir 0
      = true := h1
  rw [h2] at h3
  cases h3

/-- Witness for C17: a boot input with a module right after the kernel image. -/
theorem memory_initialize_spec_witness :
    (∀ f, f < 1024 * 1024 →
      (∀ e, e ∈ multiboot1.memory_map → e.type = MemoryMapEntryType.AVAILABLE →
        ¬ covers e.range f) →
      ( memory_initialize layout0 kernel0 zeroState multiboot1).MEMORY f = true) ∧
    (∀ r, r = kernel0 ∨ r ∈ multiboot1.modules → ∀ k, k < (r.size + PAGE_SIZE - 1) / PAGE_SIZE →
      ( memory_initialize layout0 kernel0 zeroState multiboot1).MEMORY (r.base / PAGE_SIZE + k)
        = true ∧
      (r.base / PAGE_SIZE + k ≠ 0 →
        page_present ( memory_initialize layout0 kernel0 zeroState multiboot1) layout0.kpdir
          (r.base + k * PAGE_SIZE) = true ∧
        (pte ( memory_initialize layout0 kernel0 zeroState multiboot1) layout0.kpdir
          (r.base + k * PAGE_SIZE)).User = false ∧
        virtual2physical ( memory_initialize layout0 kernel0 zeroState multiboot1) layout0.kpdir
          (r.base + k * PAGE_SIZE) = r.base + k * PAGE_SIZE)) ∧
    (∀ i, i < 256 →
      (pde ( memory_initialize layout0 kernel0 zeroState multiboot1) layout0.kpdir i).Present
        = true ∧
      (pde ( memory_initialize layout0 kernel0 zeroState multiboot1) layout0.kpdir i).Write
        = true ∧
      (pde ( memory_initialize layout0 kernel0 zeroState multiboot1) layout0.kpdir i).User
        = false ∧
      (pde ( memory_initialize layout0 kernel0 zeroState multiboot1) layout0.kpdir i).PageFrameNumber
        = (layout0.kptable + i * PAGE_SIZE) % WORD / PAGE_SIZE) ∧
    ( memory_initialize layout0 kernel0 zeroState multiboot1).TOTAL_MEMORY
      = multiboot1.memory_usable :=
  memory_initialize_spec layout0 kernel0 zeroState multiboot1 multiboot1_bootable
    multiboot1_tables

/-! ## What the mapping calls keep -/

theorem Keep.refl {s : Kernel} {pdir : Nat} (w : WF s pdir) : Keep s s pdir :=
  ⟨w, fun _ h => h, fun _ _ h => h⟩

theorem Keep.trans {s t u : Kernel} {pdir : Nat} (a : Keep s t pdir) (b : Keep t u pdir) :
    Keep s u pdir :=
  ⟨b.wf, fun f h => b.mem f (a.mem f h), fun z hz h => b.held z hz (a.held z hz h)⟩

theorem mapped_congr {s t : Kernel} (h : s.pages = t.pages) (pdir z : Nat) :
    mapped s pdir z ↔ mapped t pdir z := by
  unfold mapped; rw [page_present_congr h]

/-- A failed `memory_alloc` leaves the paging structures alone and clears no bit
that was set. -/
theorem memory_alloc_failure_state (s : Kernel) (pdir size flags : Nat)
    (h : (memory_alloc s pdir size flags).1 = 0) :
    (memory_alloc s pdir size flags).2.pages = s.pages ∧
    ∀ f, s.MEMORY f = true → (memory_alloc s pdir size flags).2.MEMORY f = true := by
  by_cases hs : size = 0
  · unfold memory_alloc
    rw [if_pos hs]
    exact ⟨rfl, fun _ hf => hf⟩
  · rcases physical_alloc_cases (atomic_begin s) (PAGE_ALIGN_UP size / PAGE_SIZE) with
      h0 | ⟨i, hi, ha⟩
    · unfold memory_alloc
      simp only [hs, if_false, h0, if_true]
      exact ⟨rfl, fun _ hf => hf⟩
    · by_cases hi0 : i * PAGE_SIZE = 0
      · unfold memory_alloc
        simp only [hs, if_false, ha, hi0, if_true]
        exact ⟨rfl, fun f hf => @setBits_true_mono s.MEMORY _ _ _ hf⟩
      · have hv : (virtual_alloc (frames_taken (atomic_begin s) i (PAGE_ALIGN_UP size / PAGE_SIZE))
            pdir (i * PAGE_SIZE) (PAGE_ALIGN_UP size / PAGE_SIZE) (flag_user flags)).1 = 0 := by
          by_contra hne
          apply hne
          unfold memory_alloc at h
          simp only [hs, if_false, ha, if_neg hi0, if_neg hne] at h
          exact absurd h hne
        have hv0 := virtual_alloc_zero hv
        have hfree : ∀ k, k < PAGE_ALIGN_UP size / PAGE_SIZE → s.MEMORY (i + k) = false :=
          (runFree_iff _ _ _).1 (findRun_some hi).2.2
        unfold memory_alloc
        simp only [hs, if_false, ha, hv0, if_true, if_neg hi0]
        refine ⟨rfl, fun f hf => ?_⟩
        show setBits (setBits s.MEMORY i _ true) (i * PAGE_SIZE / PAGE_SIZE) _ false f = true
        rw [mul_page_div, setBits_restore _ _ _ hfree]
        exact hf

end Skift

namespace Skift

/-- The call `memory_alloc` on a well-formed directory: what it keeps, and what it
hands out. -/
theorem memory_alloc_keep {s : Kernel} {pdir size flags : Nat} (w : WF s pdir)
    (hok : (Call.alloc size flags).ok pdir s) :
    Keep s (memory_alloc s pdir size flags).2 pdir ∧
    (¬ mapped s pdir 0 → ¬ mapped (memory_alloc s pdir size flags).2 pdir 0) ∧
    ((memory_alloc s pdir size flags).1 = 0 ∨
      ((memory_alloc s pdir size flags).1 / PAGE_SIZE ≠ 0 ∧
        virtual2physical (memory_alloc s pdir size flags).2 pdir
          (memory_alloc s pdir size flags).1 / PAGE_SIZE ≠ 0)) := by
  by_cases hv : (memory_alloc s pdir size flags).1 = 0
  · obtain ⟨hp, hm⟩ := memory_alloc_failure_state s pdir size flags hv
    exact ⟨⟨WF_congr hp.symm w, hm, fun z _ h => (mapped_congr hp pdir z).2 h⟩,
      fun h0 h => h0 ((mapped_congr hp pdir 0).1 h), Or.inl hv⟩
  · obtain ⟨_, _, _, _, hn, _⟩ := memory_alloc_success_shape hv
    obtain ⟨j, x, t, hj, hx, _, hma, _, hfree, hpc, hfc, _, r, wfin, hmem, _, _, _, hiff, hpte, _⟩ :=
      memory_alloc_final w hv (hok hv)
    have hpg : ∀ z, mapped (frames_taken (atomic_begin s) j (PAGE_ALIGN_UP size / PAGE_SIZE)) pdir z ↔
        mapped s pdir z := fun z => mapped_congr rfl pdir z
    refine ⟨⟨wfin, fun f hf => ?_, fun z hz hm => ?_⟩, fun h0 hm => ?_, Or.inr ⟨?_, ?_⟩⟩
    · rw [hmem]
      exact r.mem f (@setBits_true_mono s.MEMORY _ _ _ hf)
    · apply (hiff z hz).2
      by_cases hin : x ≤ z ∧ z < x + PAGE_ALIGN_UP size / PAGE_SIZE
      · have hz' : z = x + (z - x) := by omega
        rw [hz']
        exact (r.here (z - x) (by omega)).1
      · exact (r.keep z hz (by omega) ((hpg z).2 hm)).1
    · rcases r.fresh 0 (by decide) ((hiff 0 (by decide)).1 hm) with h | h | h
      · omega
      · exact h0 ((hpg 0).1 h)
      · omega
    · rw [hma, mul_page_div]; exact hx
    · have h0 := r.here 0 hn
      rw [Nat.add_zero] at h0
      have e : pte (memory_alloc s pdir size flags).2 pdir (x * PAGE_SIZE) =
          ⟨true, true, flag_user flags, j + 0⟩ :=
        (hpte x (by omega) (pde_of_mapped h0.1)).trans h0.2
      rw [hma, virtual2physical_page (j := j) e rfl (by omega), mul_page_div]
      exact hj

end Skift

namespace Skift

/-- The call `memory_alloc_identity_page` on a well-formed directory: what it
keeps, and what it hands out. -/
theorem memory_alloc_identity_page_keep {s : Kernel} {pdir : Nat} (w : WF s pdir) :
    Keep s (memory_alloc_identity_page s pdir).2 pdir ∧
    (¬ mapped s pdir 0 → ¬ mapped (memory_alloc_identity_page s pdir).2 pdir 0) ∧
    ((memory_alloc_identity_page s pdir).1 = 0 ∨
      ((memory_alloc_identity_page s pdir).1 / PAGE_SIZE ≠ 0 ∧
        virtual2physical (memory_alloc_identity_page s pdir).2 pdir
          (memory_alloc_identity_page s pdir).1 / PAGE_SIZE ≠ 0)) := by
  rw [memory_alloc_identity_page_eq s pdir w.low]
  cases hf : findIdentity s pdir (256 * 1024 - 1) 1 with
  | none => exact ⟨Keep.refl w, fun h => h, Or.inl rfl⟩
  | some i =>
    simp only
    obtain ⟨h1, h2, h3, _⟩ := findIdentity_some hf
    obtain ⟨m1, _, _, _, m5, _, m7, m8, _, m10⟩ := identity_state_spec w (by omega) h3
    refine ⟨⟨m10, fun f hf => ?_, m7⟩, fun h0 hm => ?_, Or.inr ⟨?_, ?_⟩⟩
    · rw [m1]; exact setBits_true_mono hf
    · exact h0 (m8 0 (by decide) (by omega) hm)
    · rw [mul_page_div]; omega
    · rw [virtual2physical_page (j := i) m5 rfl (by unfold FRAME_COUNT; omega), mul_page_div]
      omega

/-- The call `memory_map_eternal` on a well-formed directory, for a page-aligned
range inside the address space: what it keeps. -/
theorem memory_map_eternal_keep {s : Kernel} {pdir base size : Nat} (w : WF s pdir)
    (hok : (Call.map_eternal base size).ok pdir s) :
    Keep s (memory_map_eternal s pdir base size).2 pdir := by
  obtain ⟨h1, h2, h3, ht⟩ := hok
  have hb : base = base / PAGE_SIZE * PAGE_SIZE := by
    unfold PAGE_SIZE at h1 ⊢; omega
  have hx : base / PAGE_SIZE + PAGE_ALIGN_UP size / PAGE_SIZE ≤ PAGE_COUNT := by
    rw [page_align_up_ceil h3]
    unfold PAGE_SIZE WORD at *
    unfold PAGE_COUNT
    omega
  rw [hb] at ht
  obtain ⟨t, e, r⟩ := memory_map_eternal_range w hx ht
  rw [← hb] at e
  rw [e]
  refine ⟨WF_congr (show t.pages = (atomic_end t).pages from rfl) r.wf, fun f hf => ?_,
    fun z hz hm => ?_⟩
  · exact r.mem f (@setBits_true_mono s.MEMORY _ _ _ hf)
  · show mapped t pdir z
    by_cases hin : base / PAGE_SIZE ≤ z ∧ z < base / PAGE_SIZE + PAGE_ALIGN_UP size / PAGE_SIZE
    · have hz' : z = base / PAGE_SIZE + (z - base / PAGE_SIZE) := by omega
      rw [hz']
      exact (r.here (z - base / PAGE_SIZE) (by omega)).1
    · exact (r.keep z hz (by omega) hm).1

/-! ## What `memory_map` keeps -/

theorem memory_map_eq (s : Kernel) (pdir addr count : Nat) (user : Bool) :
    memory_map s pdir addr count user =
      (0, atomic_end ((List.range count).foldl (memory_map_page pdir addr user)
        (atomic_begin s))) := rfl

/-- The state left by `virtual_map` keeps what the state it started from held, and
what any state with the same paging structures and no more bits held. -/
theorem MapRange.keeps {u s t : Kernel} {pdir x n : Nat} {E : Nat → Entry}
    (r : MapRange s t pdir x n E) (hp : u.pages = s.pages)
    (hm : ∀ f, u.MEMORY f = true → s.MEMORY f = true) : Keep u t pdir := by
  refine ⟨r.wf, fun f hf => r.mem f (hm f hf), fun z hz hz' => ?_⟩
  by_cases hin : x ≤ z ∧ z < x + n
  · have e : z = x + (z - x) := by omega
    rw [e]
    exact (r.here (z - x) (by omega)).1
  · exact (r.keep z hz (by omega) ((mapped_congr hp pdir z).1 hz')).1

/-- One iteration of the loop of `memory_map` on a well-formed directory. -/
theorem memory_map_page_keep {u : Kernel} {pdir x i : Nat} {user : Bool} (w : WF u pdir)
    (hx : x + i < PAGE_COUNT)
    (ht : virtual_present u pdir ((x * PAGE_SIZE + i * PAGE_SIZE) % WORD) 1 = false →
      tables_obtained (physical_alloc u 1).2 pdir ((x * PAGE_SIZE + i * PAGE_SIZE) % WORD)
        (physical_alloc u 1).1 1 user) :
    Keep u (memory_map_page pdir (x * PAGE_SIZE) user u i) pdir := by
  unfold memory_map_page
  simp only
  rw [page_add_mod x i hx] at ht ⊢
  cases hv : virtual_present u pdir ((x + i) * PAGE_SIZE) 1 with
  | true => simp only [Bool.not_true, Bool.false_eq_true, if_false]; exact Keep.refl w
  | false =>
    simp only [Bool.not_false, if_true]
    have ht := ht hv
    rcases physical_alloc_cases u 1 with h0 | ⟨j, hj, ha⟩
    · rw [h0] at ht ⊢
      simp only at ht ⊢
      have hz : (0 : Nat) = 0 * PAGE_SIZE := (Nat.zero_mul _).symm
      rw [hz] at ht ⊢
      exact (virtual_map_range (x + i) 0 user w 1 (by omega) (by decide) ht).keeps rfl
        (fun _ h => h)
    · rw [ha] at ht ⊢
      simp only at ht ⊢
      have hjl := (findRun_some hj).2.1
      exact (virtual_map_range (x + i) j user
        (WF_congr (show u.pages = (frames_taken u j 1).pages from rfl) w) 1 (by omega)
        (by unfold FRAME_COUNT at hjl; unfold PAGE_COUNT; omega) ht).keeps rfl
        (fun f h => @setBits_true_mono u.MEMORY _ _ _ h)

end Skift

namespace Skift

/-- The loop of `memory_map` from iteration `i` on, on a well-formed directory. -/
theorem memory_map_loop_keep {pdir x : Nat} {user : Bool} :
    ∀ (n i : Nat) (u : Kernel), WF u pdir → x + i + n ≤ PAGE_COUNT →
      map_tables pdir (x * PAGE_SIZE) user u i n →
      Keep u ((List.range n).foldl
        (fun s k => memory_map_page pdir (x * PAGE_SIZE) user s (i + k)) u) pdir := by
  intro n
  induction n with
  | zero => intro i u w _ _; exact Keep.refl w
  | succ n ih =>
    intro i u w hx ht
    have k1 := @memory_map_page_keep u pdir x i user w (show x + i < PAGE_COUNT by omega) ht.1
    have k2 := ih (i + 1) _ k1.wf (by omega) ht.2
    rw [List.range_succ_eq_map, List.foldl_cons, List.foldl_map]
    have e : (fun s k => memory_map_page pdir (x * PAGE_SIZE) user s (i + Nat.succ k)) =
        (fun s k => memory_map_page pdir (x * PAGE_SIZE) user s (i + 1 + k)) := by
      funext s k
      rw [show i + Nat.succ k = i + 1 + k by omega]
    rw [e]
    exact k1.trans k2

/-- The call `memory_map` on a well-formed directory, for a page-aligned range
inside the address space: what it keeps. -/
theorem memory_map_keep {s : Kernel} {pdir addr count : Nat} {user : Bool} (w : WF s pdir)
    (hok : (Call.map addr count user).ok pdir s) :
    Keep s (memory_map s pdir addr count user).2 pdir := by
  obtain ⟨h1, h2, ht⟩ := hok
  have hb : addr = addr / PAGE_SIZE * PAGE_SIZE := by
    unfold PAGE_SIZE at h1 ⊢; omega
  rw [hb] at ht
  have k := memory_map_loop_keep count 0 (atomic_begin s)
    (WF_congr (show s.pages = (atomic_begin s).pages from rfl) w) (by omega) ht
  have e : (fun s k => memory_map_page pdir (addr / PAGE_SIZE * PAGE_SIZE) user s (0 + k)) =
      memory_map_page pdir (addr / PAGE_SIZE * PAGE_SIZE) user := by
    funext s k
    rw [Nat.zero_add]
  rw [e, ← hb] at k
  rw [memory_map_eq]
  exact ⟨WF_congr (show ((List.range count).foldl (memory_map_page pdir addr user)
      (atomic_begin s)).pages = (atomic_end _).pages from rfl) k.wf, k.mem, k.held⟩

/-- Any of the four mapping calls on a well-formed directory keeps what was held. -/
theorem Call.keep {s : Kernel} {pdir : Nat} (w : WF s pdir) (c : Call) (hok : c.ok pdir s) :
    Keep s (c.exec pdir s).2 pdir := by
  cases c with
  | alloc size flags => exact (memory_alloc_keep w hok).1
  | identity => exact (memory_alloc_identity_page_keep w).1
  | map_eternal base size => exact memory_map_eternal_keep w hok
  | map addr count user => exact memory_map_keep w hok

/-- A sequence of mapping calls on a well-formed directory keeps what was held. -/
theorem exec_calls_keep {pdir : Nat} (cs : List Call) :
    ∀ s : Kernel, WF s pdir → calls_ok pdir s cs → Keep s (exec_calls pdir s cs) pdir := by
  induction cs with
  | nil => intro s w _; exact Keep.refl w
  | cons c cs ih =>
    intro s w hok
    have k := Call.keep w c hok.1
    exact k.trans (ih _ k.wf hok.2)

/-! ## The null page -/

/-- One allocating call on a well-formed directory whose page 0 is not present and
whose frame 0 is marked used: both facts are kept, and the call hands out neither
page 0 nor frame 0. -/
theorem Call.allocating_step {s : Kernel} {pdir : Nat} (w : WF s pdir)
    (h0 : ¬ mapped s pdir 0) (c : Call) (ha : c.allocating) (hok : c.ok pdir s) :
    ¬ mapped (c.exec pdir s).2 pdir 0 ∧
    ((c.exec pdir s).1 = 0 ∨
      ((c.exec pdir s).1 / PAGE_SIZE ≠ 0 ∧
        virtual2physical (c.exec pdir s).2 pdir (c.exec pdir s).1 / PAGE_SIZE ≠ 0)) := by
  cases c with
  | alloc size flags =>
    obtain ⟨_, a, b⟩ := memory_alloc_keep w hok
    exact ⟨a h0, b⟩
  | identity =>
    obtain ⟨_, a, b⟩ := memory_alloc_identity_page_keep w
    exact ⟨a h0, b⟩
  | map_eternal base size => exact absurd ha id
  | map addr count user => exact absurd ha id

/-- A sequence of allocating calls on a well-formed directory whose page 0 is not
present and whose frame 0 is marked used. -/
theorem allocating_calls {pdir : Nat} (cs : List Call) :
    ∀ s : Kernel, WF s pdir → ¬ mapped s pdir 0 → s.MEMORY 0 = true →
      (∀ c, c ∈ cs → c.allocating) → calls_ok pdir s cs →
      ¬ mapped (exec_calls pdir s cs) pdir 0 ∧ (exec_calls pdir s cs).MEMORY 0 = true ∧
      ∀ pre c post, cs = pre ++ c :: post →
        (c.exec pdir (exec_calls pdir s pre)).1 = 0 ∨
        ((c.exec pdir (exec_calls pdir s pre)).1 / PAGE_SIZE ≠ 0 ∧
          virtual2physical (c.exec pdir (exec_calls pdir s pre)).2 pdir
            (c.exec pdir (exec_calls pdir s pre)).1 / PAGE_SIZE ≠ 0) := by
  induction cs with
  | nil =>
    intro s _ h0 hm _ _
    refine ⟨h0, hm, fun pre c post h => ?_⟩
    cases pre <;> cases h
  | cons c cs ih =>
    intro s w h0 hm hall hok
    have k := Call.keep w c hok.1
    obtain ⟨a, b⟩ := Call.allocating_step w h0 c (hall c (List.mem_cons_self _ _)) hok.1
    obtain ⟨i1, i2, i3⟩ := ih _ k.wf a (k.mem 0 hm)
      (fun c' hc' => hall c' (List.mem_cons_of_mem _ hc')) hok.2
    refine ⟨i1, i2, fun pre c' post h => ?_⟩
    cases pre with
    | nil =>
      simp only [List.nil_append, List.cons.injEq] at h
      obtain ⟨h1, _⟩ := h
      subst h1
      exact b
    | cons p pre =>
      simp only [List.cons_append, List.cons.injEq] at h
      obtain ⟨h1, h2⟩ := h
      subst h1
      exact i3 pre c' post h2

/-- The state left by `memory_initialize` is a well-formed kernel directory, when
neither `kpdir` nor `kptable` sits in page 0. -/
theorem boot_finish_WF {L : Layout} {mb : Multiboot} {t : Kernel} (Bt : Booted L mb t)
    (hD : L.kpdir / PAGE_SIZE ≠ 0)
    (hT : ∀ i, i < 256 → (kernel_entry L i).PageFrameNumber ≠ 0) :
    WF (boot_finish L t) L.kpdir := by
  have hu : virtual_unmap t L.kpdir 0 1 = unmap_page t L.kpdir (0 * PAGE_SIZE) := by
    rw [virtual_unmap_one]; rfl
  have hp : (boot_finish L t).pages = (unmap_page t L.kpdir (0 * PAGE_SIZE)).pages := by
    unfold boot_finish; rw [hu]; rfl
  apply WF_congr hp.symm
  rcases unmap_page_cases t L.kpdir 0 with ⟨_, h2⟩ | ⟨h1, h2⟩
  · rw [h2]; exact Bt.wf
  · rw [h2]
    refine (clear_pte Bt.wf (by decide) (pde_of_mapped h1) (Ne.symm hD) (fun j hj hpj => ?_)
      _ rfl).2.2.2.2
    by_cases hlow : j < 256
    · rw [Bt.low j hlow]; exact Ne.symm (hT j hlow)
    · have := Bt.high j (by omega) hj hpj
      omega

end Skift

namespace Skift

/-- C18: after `memory_initialize` on a bootable input (an `AVAILABLE` entry, the
kernel image or a module may cover address 0; neither `kpdir` nor `kptable` is at
address 0), page 0 is not present in the kernel directory and frame 0 is marked
used; both facts still hold after any later sequence `cs` of `memory_alloc` and
`memory_alloc_identity_page` calls on the kernel directory (each obtaining the
page tables it needs), and every call of the sequence returns 0 or an address
that is not in page 0 and does not translate into frame 0. -/
theorem null_page_reserved (L : Layout) (K : MemoryRange) (s : Kernel) (mb : Multiboot)
    (B : Bootable L K s mb)
    (ht : modules_tables L.kpdir
      (memory_map_eternal (boot_prepared L s mb) L.kpdir K.base K.size).2 mb.modules)
    (hD : L.kpdir ≠ 0) (hT : L.kptable ≠ 0)
    (cs : List Call) (hall : ∀ c, c ∈ cs → c.allocating)
    (hok : calls_ok L.kpdir ( memory_initialize L K s mb) cs) :
    page_present ( memory_initialize L K s mb) L.kpdir 0 = false ∧
    ( memory_initialize L K s mb).MEMORY 0 = true ∧
    page_present (exec_calls L.kpdir ( memory_initialize L K s mb) cs) L.kpdir 0 = false ∧
    (exec_calls L.kpdir ( memory_initialize L K s mb) cs).MEMORY 0 = true ∧
    ∀ pre c post, cs = pre ++ c :: post →
      (c.exec L.kpdir (exec_calls L.kpdir ( memory_initialize L K s mb) pre)).1 = 0 ∨
      ((c.exec L.kpdir (exec_calls L.kpdir ( memory_initialize L K s mb) pre)).1 / PAGE_SIZE ≠ 0 ∧
        virtual2physical (c.exec L.kpdir (exec_calls L.kpdir ( memory_initialize L K s mb) pre)).2
          L.kpdir (c.exec L.kpdir (exec_calls L.kpdir ( memory_initialize L K s mb) pre)).1
          / PAGE_SIZE ≠ 0) := by
  obtain ⟨n1, n2⟩ := memory_initialize_null B ht
  obtain ⟨t, e, Bt, _, _⟩ := memory_initialize_state B ht
  obtain ⟨_, _, _, _, hk⟩ := B.layout
  have hka := B.kpdir_aligned
  have hta := B.kptable_aligned
  have w : WF ( memory_initialize L K s mb) L.kpdir := by
    rw [e]
    refine boot_finish_WF Bt ?_ (fun i hi => ?_)
    · unfold PAGE_SIZE at hka ⊢; omega
    · rw [(hk i hi).1]
      unfold PAGE_SIZE at hta ⊢; omega
  have hnm : ¬ mapped ( memory_initialize L K s mb) L.kpdir 0 := by
    unfold mapped
    rw [Nat.zero_mul, n1]
    simp
  obtain ⟨a1, a2, a3⟩ := allocating_calls cs _ w hnm n2 hall hok
  refine ⟨n1, n2, ?_, a2, a3⟩
  unfold mapped at a1
  rw [Nat.zero_mul] at a1
  simpa using a1

/-- Witness for C18: the boot input `multiboot0`, whose first `AVAILABLE` entry and
whose module cover address 0, followed by an identity page and a kernel
allocation of one page. -/
theorem null_page_reserved_witness :
    page_present ( memory_initialize layout0 kernel0 zeroState multiboot0) layout0.kpdir 0
      = false ∧
    ( memory_initialize layout0 kernel0 zeroState multiboot0).MEMORY 0 = true ∧
    page_present (exec_calls layout0.kpdir ( memory_initialize layout0 kernel0 zeroState multiboot0)
      [Call.identity, Call.alloc 4096 0]) layout0.kpdir 0 = false ∧
    (exec_calls layout0.kpdir ( memory_initialize layout0 kernel0 zeroState multiboot0)
      [Call.identity, Call.alloc 4096 0]).MEMORY 0 = true ∧
    ∀ pre c post, [Call.identity, Call.alloc 4096 0] = pre ++ c :: post →
      (c.exec layout0.kpdir (exec_calls layout0.kpdir
        ( memory_initialize layout0 kernel0 zeroState multiboot0) pre)).1 = 0 ∨
      ((c.exec layout0.kpdir (exec_calls layout0.kpdir
        ( memory_initialize layout0 kernel0 zeroState multiboot0) pre)).1 / PAGE_SIZE ≠ 0 ∧
        virtual2physical (c.exec layout0.kpdir (exec_calls layout0.kpdir
          ( memory_initialize layout0 kernel0 zeroState multiboot0) pre)).2
          layout0.kpdir (c.exec layout0.kpdir (exec_calls layout0.kpdir
            ( memory_initialize layout0 kernel0 zeroState multiboot0) pre)).1
          / PAGE_SIZE ≠ 0) :=
  null_page_reserved layout0 kernel0 zeroState multiboot0 multiboot0_bootable multiboot0_tables
    (by decide) (by decide) [Call.identity, Call.alloc 4096 0]
    (fun c hc => by
      rcases List.mem_cons.1 hc with h | h
      · subst h; trivial
      · rw [List.mem_singleton.1 h]; trivial)
    ⟨trivial, fun hv => tables_obtained_kernel
      (memory_alloc_identity_page_keep (by
        obtain ⟨t, e, Bt, _, _⟩ := memory_initialize_state multiboot0_bootable multiboot0_tables
        rw [e]
        exact boot_finish_WF Bt (by decide) (fun i hi => by
          rw [kernel_entry_frame i hi]; omega))).1.wf hv rfl, trivial⟩

/-! ## Eternal ranges -/

/-- C13 as stated fails: the two pages at `0x300000` are mapped eternally into the
kernel directory of `bootState`; a later `memory_free` of the same range clears
their two bits of the bitmap and unmaps both pages. -/
theorem memory_free_clears_eternal :
    (memory_map_eternal bootState 0x100000 0x300000 8192).2.MEMORY 0x300 = true ∧
    (memory_map_eternal bootState 0x100000 0x300000 8192).2.MEMORY 0x301 = true ∧
    page_present (memory_map_eternal bootState 0x100000 0x300000 8192).2 0x100000 0x300000
      = true ∧
    page_present (memory_map_eternal bootState 0x100000 0x300000 8192).2 0x100000 0x301000
      = true ∧
    (memory_free (memory_map_eternal bootState 0x100000 0x300000 8192).2
      0x100000 0x300000 2).MEMORY 0x300 = false ∧
    (memory_free (memory_map_eternal bootState 0x100000 0x300000 8192).2
      0x100000 0x300000 2).MEMORY 0x301 = false ∧
    page_present (memory_free (memory_map_eternal bootState 0x100000 0x300000 8192).2
      0x100000 0x300000 2) 0x100000 0x300000 = false ∧
    page_present (memory_free (memory_map_eternal bootState 0x100000 0x300000 8192).2
      0x100000 0x300000 2) 0x100000 0x301000 = false := by
  decide

/-- C13, amended: for a range mapped by `memory_map_eternal` into a well-formed
directory (page-aligned base, range inside the address space, page tables
obtained) and every later sequence `cs` of `memory_alloc`,
`memory_alloc_identity_page`, `memory_map` and `memory_map_eternal` calls on that
directory (each obtaining the page tables it needs), the bitmap bits of the
range stay set and its pages stay present. -/
theorem memory_map_eternal_kept (s : Kernel) (pdir base size : Nat) (w : WF s pdir)
    (hb : base % PAGE_SIZE = 0) (hfit : base + size ≤ WORD) (hsize : size + PAGE_SIZE ≤ WORD)
    (ht : tables_obtained
      (physical_set_used (atomic_begin s) base (PAGE_ALIGN_UP size / PAGE_SIZE))
      pdir base base (PAGE_ALIGN_UP size / PAGE_SIZE) false)
    (cs : List Call) (hok : calls_ok pdir (memory_map_eternal s pdir base size).2 cs) :
    ∀ k, k < (size + PAGE_SIZE - 1) / PAGE_SIZE →
      (exec_calls pdir (memory_map_eternal s pdir base size).2 cs).MEMORY (base / PAGE_SIZE + k)
        = true ∧
      page_present (exec_calls pdir (memory_map_eternal s pdir base size).2 cs) pdir
        (base + k * PAGE_SIZE) = true := by
  intro k hk
  obtain ⟨g1, g2, g3⟩ := range_pages hb hsize hfit k hk
  have hbx : base = base / PAGE_SIZE * PAGE_SIZE := by
    unfold PAGE_SIZE at hb ⊢; omega
  have k0 := memory_map_eternal_keep w (show (Call.map_eternal base size).ok pdir s from
    ⟨hb, hfit, hsize, ht⟩)
  have K := exec_calls_keep cs _ k0.wf hok
  have ht' := ht
  rw [hbx] at ht'
  obtain ⟨t, e, r⟩ := memory_map_eternal_range w g3 ht'
  rw [← hbx] at e
  have hbit : (memory_map_eternal s pdir base size).2.MEMORY (base / PAGE_SIZE + k) = true := by
    rw [e]
    apply r.mem
    show setBits s.MEMORY (base / PAGE_SIZE * PAGE_SIZE / PAGE_SIZE) _ true _ = true
    rw [mul_page_div]
    exact setBits_true_in (by omega) (by omega)
  have hpres : mapped (memory_map_eternal s pdir base size).2 pdir (base / PAGE_SIZE + k) := by
    rw [e]
    exact (r.here k g1).1
  refine ⟨K.mem _ hbit, ?_⟩
  rw [g2]
  exact K.held _ (by omega) hpres

end Skift

namespace Skift

theorem WF_atomic_begin {s : Kernel} {pdir : Nat} (w : WF s pdir) : WF (atomic_begin s) pdir :=
  WF_congr (show s.pages = (atomic_begin s).pages from rfl) w

/-- One page of `memory_map` in the first GiB needs no new page table. -/
theorem map_page_tables_low {u : Kernel} {pdir x i : Nat} {user : Bool} (w : WF u pdir)
    (hx : x + i < 256 * 1024) :
    tables_obtained (physical_alloc u 1).2 pdir ((x * PAGE_SIZE + i * PAGE_SIZE) % WORD)
      (physical_alloc u 1).1 1 user := by
  rw [page_add_mod x i (by unfold PAGE_COUNT; omega)]
  rcases physical_alloc_cases u 1 with h0 | ⟨j, hj, ha⟩
  · rw [h0]
    simp only
    have hz : (0 : Nat) = 0 * PAGE_SIZE := (Nat.zero_mul _).symm
    rw [hz]
    exact tables_obtained_of_present (x + i) 0 user w 1 (by unfold PAGE_COUNT; omega)
      (by decide) (fun k hk => w.low _ (by omega))
  · rw [ha]
    simp only
    have hjl := (findRun_some hj).2.1
    exact tables_obtained_of_present (x + i) j user
      (WF_congr (show u.pages = (frames_taken u j 1).pages from rfl) w) 1
      (by unfold PAGE_COUNT; omega)
      (by unfold FRAME_COUNT at hjl; unfold PAGE_COUNT; omega)
      (fun k hk => w.low _ (by omega))

/-- The call `memory_map` on pages of the first GiB needs no new page table. -/
theorem map_tables_low {pdir x : Nat} {user : Bool} :
    ∀ (n i : Nat) (u : Kernel), WF u pdir → x + i + n ≤ 256 * 1024 →
      map_tables pdir (x * PAGE_SIZE) user u i n := by
  intro n
  induction n with
  | zero => intro _ _ _ _; trivial
  | succ n ih =>
    intro i u w hx
    have h1 : virtual_present u pdir ((x * PAGE_SIZE + i * PAGE_SIZE) % WORD) 1 = false →
        tables_obtained (physical_alloc u 1).2 pdir ((x * PAGE_SIZE + i * PAGE_SIZE) % WORD)
          (physical_alloc u 1).1 1 user := fun _ => map_page_tables_low w (by omega)
    exact ⟨h1, ih (i + 1) _
      (memory_map_page_keep w (by unfold PAGE_COUNT; omega) h1).wf (by omega)⟩

/-- Witness for C13: two pages mapped eternally into the kernel directory of
`bootState`, followed by one call of each of the four mapping functions; the
second page of the range is still held. -/
theorem memory_map_eternal_kept_witness :
    (exec_calls 0x100000 (memory_map_eternal bootState 0x100000 0x300000 8192).2
      [Call.alloc 4096 0, Call.identity, Call.map_eternal 0x500000 4096,
        Call.map 0x600000 2 false]).MEMORY (0x300000 / PAGE_SIZE + 1) = true ∧
    page_present (exec_calls 0x100000 (memory_map_eternal bootState 0x100000 0x300000 8192).2
      [Call.alloc 4096 0, Call.identity, Call.map_eternal 0x500000 4096,
        Call.map 0x600000 2 false]) 0x100000 (0x300000 + 1 * PAGE_SIZE) = true :=
  have w0 : WF (memory_map_eternal bootState 0x100000 0x300000 8192).2 0x100000 :=
    (memory_map_eternal_keep bootState_WF
      (show (Call.map_eternal 0x300000 8192).ok 0x100000 bootState from
        ⟨by decide, by decide, by decide, by decide⟩)).wf
  have o1 : (Call.alloc 4096 0).ok 0x100000 (memory_map_eternal bootState 0x100000 0x300000 8192).2 :=
    fun hv => tables_obtained_kernel w0 hv rfl
  have w1 := (Call.keep w0 (Call.alloc 4096 0) o1).wf
  have w2 := (Call.keep w1 Call.identity trivial).wf
  have o3 : (Call.map_eternal 0x500000 4096).ok 0x100000
      ((Call.identity).exec 0x100000
        ((Call.alloc 4096 0).exec 0x100000
          (memory_map_eternal bootState 0x100000 0x300000 8192).2).2).2 :=
    ⟨by decide, by decide, by decide,
      tables_obtained_of_present 0x500 0x500 false (physical_set_used_WF w2 _ _) 1
        (by decide) (by decide) (fun k hk => w2.low _ (by omega))⟩
  have w3 := (Call.keep w2 (Call.map_eternal 0x500000 4096) o3).wf
  memory_map_eternal_kept bootState 0x100000 0x300000 8192 bootState_WF (by decide) (by decide)
    (by decide) (by decide)
    [Call.alloc 4096 0, Call.identity, Call.map_eternal 0x500000 4096, Call.map 0x600000 2 false]
    ⟨o1, trivial, o3,
      ⟨by decide, by decide,
        map_tables_low (x := 0x600) 2 0 _
          (WF_atomic_begin w3) (by decide)⟩, trivial⟩
    1 (by decide)

end Skift
